import Mathlib

/-!
# tchess: a shallow embedding of the rules engine

Go strings are byte sequences and are modelled as `List Nat` (one entry per
byte); `bytes` turns an ASCII literal into that form.  Go `byte` arithmetic is
arithmetic modulo 256 on `Nat`, Go `int` values are `Int`.  A call that can
abort with a runtime panic (index out of range, `panic(...)`) returns `Res`.
-/

namespace TChess

/-! ## Outcomes of a call -/

/-- Outcome of a Go call: a returned value, a runtime panic, or exhaustion of
the budget that bounds a recursion or a loop of the model. -/
inductive Res (α : Type) where
  | ok (a : α)
  | panic
  | nofuel
  deriving DecidableEq

/-- Sequencing of two calls: the second one runs only when the first returned. -/
def Res.bind {α β : Type} : Res α → (α → Res β) → Res β
  | .ok a, f => f a
  | .panic, _ => .panic
  | .nofuel, _ => .nofuel

instance : Monad Res where
  pure := Res.ok
  bind := Res.bind

/-- A Go string, as its bytes. -/
abbrev Str := List Nat

/-- Bytes of an ASCII string literal. -/
def bytes (s : String) : Str := s.toList.map Char.toNat

/-- Conversion `byte(x)` of a Go int: the low eight bits. -/
def byteOf (x : Int) : Nat := (x % 256).toNat

/-- Byte addition, modulo 256. -/
def badd (a b : Nat) : Nat := (a + b) % 256

/-- Byte subtraction, modulo 256. -/
def bsub (a b : Nat) : Nat := (a % 256 + (256 - b % 256)) % 256

/-- Byte multiplication, modulo 256. -/
def bmul (a b : Nat) : Nat := (a * b) % 256

/-- Wrap-around of a 64-bit signed Go int after an arithmetic operation. -/
def wrapInt (x : Int) : Int := (x + 9223372036854775808) % 18446744073709551616 - 9223372036854775808

/-- Output of the verb `%c` for a byte: the UTF-8 encoding of the code point. -/
def fmtC (b : Nat) : Str := if b < 128 then [b] else [192 + b / 64, 128 + b % 64]

/-! ## piece/piece.go -/

/-- Type `piece.Type` (a Go int). -/
abbrev PType := Int

/-- Type `piece.Color` (a Go int). -/
abbrev Color := Int

def WHITE : Color := 1
def BLACK : Color := 2

def NONE : PType := 0
def PAWN : PType := 1
def ROOK : PType := 2
def KNIGHT : PType := 3
def BISHOP : PType := 4
def QUEEN : PType := 5
def KING : PType := 6

/-- Method `Color.Opposite`: `(c % 2) + 1`, with Go's truncated remainder. -/
def Color.Opposite (c : Color) : Color := Int.tmod c 2 + 1

/-- Struct `piece.Piece`; the field `Type` is called `Typ` here. -/
structure Piece where
  Typ : PType := 0
  Color : Color := 0
  deriving DecidableEq

def EMPTYP : Piece := {}
def PAWN_W : Piece := ⟨PAWN, WHITE⟩
def PAWN_B : Piece := ⟨PAWN, BLACK⟩
def ROOK_W : Piece := ⟨ROOK, WHITE⟩
def ROOK_B : Piece := ⟨ROOK, BLACK⟩
def KNGT_W : Piece := ⟨KNIGHT, WHITE⟩
def KNGT_B : Piece := ⟨KNIGHT, BLACK⟩
def BSHP_W : Piece := ⟨BISHOP, WHITE⟩
def BSHP_B : Piece := ⟨BISHOP, BLACK⟩
def QUEN_W : Piece := ⟨QUEEN, WHITE⟩
def QUEN_B : Piece := ⟨QUEEN, BLACK⟩
def KING_W : Piece := ⟨KING, WHITE⟩
def KING_B : Piece := ⟨KING, BLACK⟩

/-- Map `piece.PieceNames`; a missing key gives the empty string. -/
def PieceNames (t : PType) : Str :=
  if t = PAWN then bytes "Pawn"
  else if t = ROOK then bytes "Rook"
  else if t = KNIGHT then bytes "Knight"
  else if t = BISHOP then bytes "Bishop"
  else if t = QUEEN then bytes "Queen"
  else if t = KING then bytes "King"
  else []

/-- Map `piece.ToFenChar`; a missing key gives the zero byte. -/
def ToFenChar (p : Piece) : Nat :=
  if p = PAWN_W then 80 -- 'P'
  else if p = PAWN_B then 112 -- 'p'
  else if p = ROOK_W then 82 -- 'R'
  else if p = ROOK_B then 114 -- 'r'
  else if p = KNGT_W then 78 -- 'N'
  else if p = KNGT_B then 110 -- 'n'
  else if p = BSHP_W then 66 -- 'B'
  else if p = BSHP_B then 98 -- 'b'
  else if p = QUEN_W then 81 -- 'Q'
  else if p = QUEN_B then 113 -- 'q'
  else if p = KING_W then 75 -- 'K'
  else if p = KING_B then 107 -- 'k'
  else 0

/-- Map `piece.FromFenChar`; a missing key gives the zero piece. -/
def FromFenChar (c : Nat) : Piece :=
  if c = 80 then PAWN_W
  else if c = 112 then PAWN_B
  else if c = 82 then ROOK_W
  else if c = 114 then ROOK_B
  else if c = 78 then KNGT_W
  else if c = 110 then KNGT_B
  else if c = 66 then BSHP_W
  else if c = 98 then BSHP_B
  else if c = 81 then QUEN_W
  else if c = 113 then QUEN_B
  else if c = 75 then KING_W
  else if c = 107 then KING_B
  else EMPTYP

/-- Method `Piece.Equals`. -/
def Piece.Equals (p other : Piece) : Bool :=
  decide (p.Color = other.Color) && decide (p.Typ = other.Typ)

/-- Method `Piece.Name`. -/
def Piece.Name (p : Piece) : Str :=
  (if p.Color = BLACK then bytes "Black" else bytes "White") ++ bytes " " ++ PieceNames p.Typ

/-! ## board/board.go: moves -/

/-- Struct `board.Move`; ranks and files are bytes. -/
structure Move where
  Piece : PType := 0
  SrcRank : Nat := 0
  SrcFile : Nat := 0
  TrgRank : Nat := 0
  TrgFile : Nat := 0
  Promote : PType := 0
  Capture : Bool := false
  deriving DecidableEq

/-- Method `Move.SrcSqNum`: `int(m.SrcFile - 'a' + ('8'-m.SrcRank)*8)` in byte arithmetic. -/
def Move.SrcSqNum (m : Move) : Int :=
  Int.ofNat (badd (bsub m.SrcFile 97) (bmul (bsub 56 m.SrcRank) 8))

/-- Method `Move.TrgSqNum`: `int(m.TrgFile - 'a' + ('8'-m.TrgRank)*8)` in byte arithmetic. -/
def Move.TrgSqNum (m : Move) : Int :=
  Int.ofNat (badd (bsub m.TrgFile 97) (bmul (bsub 56 m.TrgRank) 8))

/-- Method `Move.SetSrcFromAlphaNum`; indexing a string shorter than two bytes panics. -/
def Move.SetSrcFromAlphaNum (m : Move) (alphaNum : Str) : Res Move :=
  match alphaNum with
  | f :: r :: _ => .ok { m with SrcFile := f, SrcRank := r }
  | _ => .panic

/-- Method `Move.SetTrgFromAlphaNum`; indexing a string shorter than two bytes panics. -/
def Move.SetTrgFromAlphaNum (m : Move) (alphaNum : Str) : Res Move :=
  match alphaNum with
  | f :: r :: _ => .ok { m with TrgFile := f, TrgRank := r }
  | _ => .panic

/-- Method `Move.SetSrcFromSqNum`. -/
def Move.SetSrcFromSqNum (m : Move) (sqNum : Int) : Move :=
  { m with SrcRank := bsub 56 (byteOf (Int.tdiv sqNum 8)),
           SrcFile := badd 97 (byteOf (Int.tmod sqNum 8)) }

/-- Method `Move.SetTrgFromSqNum`. -/
def Move.SetTrgFromSqNum (m : Move) (sqNum : Int) : Move :=
  { m with TrgRank := bsub 56 (byteOf (Int.tdiv sqNum 8)),
           TrgFile := badd 97 (byteOf (Int.tmod sqNum 8)) }

/-- Method `Move.MoveDelta`. -/
def Move.MoveDelta (m : Move) : Int × Int :=
  ((m.TrgFile : Int) - (m.SrcFile : Int), (m.TrgRank : Int) - (m.SrcRank : Int))

/-- Method `Move.IsShortCastle`. -/
def Move.IsShortCastle (m : Move) : Bool :=
  let isKing := decide (m.Piece = KING)
  let whiteShortCastle := decide (m.SrcSqNum = 60) && decide (m.TrgSqNum = 62)
  let blackShortCastle := decide (m.SrcSqNum = 4) && decide (m.TrgSqNum = 6)
  let isShortCastle := whiteShortCastle || blackShortCastle
  isKing && isShortCastle

/-- Method `Move.IsLongCastle`. -/
def Move.IsLongCastle (m : Move) : Bool :=
  let isKing := decide (m.Piece = KING)
  let whiteLongCastle := decide (m.SrcSqNum = 60) && decide (m.TrgSqNum = 58)
  let blackLongCastle := decide (m.SrcSqNum = 4) && decide (m.TrgSqNum = 2)
  let isLongCastle := whiteLongCastle || blackLongCastle
  isKing && isLongCastle

/-- Method `Move.SetTrgDeltaAndCheckBounds`: the move with its target set, and the bounds test. -/
def Move.SetTrgDeltaAndCheckBounds (m : Move) (deltaX deltaY : Int) : Move × Bool :=
  let m1 : Move := { m with TrgRank := badd m.SrcRank (byteOf deltaY),
                            TrgFile := badd m.SrcFile (byteOf deltaX) }
  let withinBoardY := decide (49 ≤ m1.TrgRank) && decide (m1.TrgRank ≤ 56)
  let withinBoardX := decide (97 ≤ m1.TrgFile) && decide (m1.TrgFile ≤ 104)
  (m1, withinBoardX && withinBoardY)

/-- Method `Move.Equals`. -/
def Move.Equals (m other : Move) : Bool :=
  decide (m.Piece = other.Piece) && decide (m.SrcRank = other.SrcRank) &&
  decide (m.SrcFile = other.SrcFile) && decide (m.TrgRank = other.TrgRank) &&
  decide (m.TrgFile = other.TrgFile) && decide (m.Promote = other.Promote)

/-- Method `Move.ToStr`: `"%s from %c%c to %c%c"`. -/
def Move.ToStr (m : Move) : Str :=
  PieceNames m.Piece ++ bytes " from " ++ fmtC m.SrcFile ++ fmtC m.SrcRank ++
    bytes " to " ++ fmtC m.TrgFile ++ fmtC m.TrgRank

/-- Method `Move.Matches`. -/
def Move.Matches (m wantedMv : Move) : Bool :=
  let pieceMatches := decide (m.Piece = wantedMv.Piece)
  if m.TrgSqNum = wantedMv.TrgSqNum ∧ m.SrcSqNum = wantedMv.SrcSqNum then
    true
  else if pieceMatches ∧ m.TrgSqNum = wantedMv.TrgSqNum then
    if wantedMv.SrcFile ≠ 0 ∧ m.SrcFile ≠ wantedMv.SrcFile then false
    else if wantedMv.SrcRank ≠ 0 ∧ m.SrcRank ≠ wantedMv.SrcRank then false
    else true
  else if pieceMatches ∧ m.Piece = KING ∧ m.SrcFile = wantedMv.SrcFile ∧
      m.TrgFile = wantedMv.TrgFile then
    true
  else false

/-- Function `SqNumToStr`: `"%c%c"` of the file and rank bytes. -/
def SqNumToStr (sqNum : Int) : Str :=
  let rank := bsub 56 (byteOf (Int.tdiv sqNum 8))
  let file := badd 97 (byteOf (Int.tmod sqNum 8))
  fmtC file ++ fmtC rank

/-- Function `StrToSqNum`: `int(('8'-rank)*8 + (file - 'a'))`; a short string panics. -/
def StrToSqNum (alphaNum : Str) : Res Int :=
  match alphaNum with
  | file :: rank :: _ => .ok (Int.ofNat (badd (bmul (bsub 56 rank) 8) (bsub file 97)))
  | _ => .panic

/-- Function `SquareIsLight`, with Go's truncated division and remainder. -/
def SquareIsLight (sqNum : Int) : Bool :=
  decide (Int.tmod (sqNum + Int.tdiv sqNum 8) 2 = 0)

/-- Function `Abs`. -/
def Abs (i : Int) : Int := if i < 0 then -i else i

/-! ## board/board.go: the board -/

def CASTLE_WHITE_SHORT : Nat := 1
def CASTLE_WHITE_LONG : Nat := 2
def CASTLE_BLACK_SHORT : Nat := 4
def CASTLE_BLACK_LONG : Nat := 8

/-- Struct `board.Board`.  `Pieces` is the Go array `[64]piece.Piece`: a well-formed
board has a list of length 64; `CastleRights` is a `uint8`. -/
structure Board where
  Pieces : List Piece
  CastleRights : Nat := 0
  CapturedPieces : List Piece := []
  HiglightSq : Int := 0
  deriving DecidableEq

/-- Read `b.Pieces[sq]`; an index outside `0..63` panics. -/
def Board.pieceAt (b : Board) (sq : Int) : Res Piece :=
  if 0 ≤ sq ∧ sq < 64 then .ok (b.Pieces.getD sq.toNat EMPTYP) else .panic

/-- Write `b.Pieces[sq] = p`; an index outside `0..63` panics. -/
def Board.setPiece (b : Board) (sq : Int) (p : Piece) : Res Board :=
  if 0 ≤ sq ∧ sq < 64 then .ok { b with Pieces := b.Pieces.set sq.toNat p } else .panic

/-- Method `Board.CanCastleShort`. -/
def Board.CanCastleShort (b : Board) (c : Color) : Bool :=
  if c = WHITE then decide (Nat.land b.CastleRights CASTLE_WHITE_SHORT = CASTLE_WHITE_SHORT)
  else decide (Nat.land b.CastleRights CASTLE_BLACK_SHORT = CASTLE_BLACK_SHORT)

/-- Method `Board.CanCastleLong`. -/
def Board.CanCastleLong (b : Board) (c : Color) : Bool :=
  if c = WHITE then decide (Nat.land b.CastleRights CASTLE_WHITE_LONG = CASTLE_WHITE_LONG)
  else decide (Nat.land b.CastleRights CASTLE_BLACK_LONG = CASTLE_BLACK_LONG)

/-- Inner loop `for _, d := range deltas` of `PawnMoves`, `KnightMoves` and `KingMoves`
for the piece on square `i`. -/
def deltaMovesAt (b : Board) (pt : PType) (i : Nat) : List (Int × Int) → Res (List Move)
  | [] => .ok []
  | d :: ds =>
    let m : Move := ({ Piece := pt } : Move).SetSrcFromSqNum i
    let r := m.SetTrgDeltaAndCheckBounds d.1 d.2
    if r.2 then do
      let p ← b.pieceAt r.1.TrgSqNum
      let rest ← deltaMovesAt b pt i ds
      pure ({ r.1 with Capture := decide (p ≠ EMPTYP) } :: rest)
    else deltaMovesAt b pt i ds

/-- Outer loop `for i, p := range b.Pieces` of the generators: squares not holding a
piece of the wanted type and colour are skipped. -/
def forPieces (pt : PType) (color : Color) (f : Nat → Res (List Move)) :
    List (Nat × Piece) → Res (List Move)
  | [] => .ok []
  | ip :: rest =>
    if ip.2.Typ ≠ pt ∨ ip.2.Color ≠ color then forPieces pt color f rest
    else do
      let ms ← f ip.1
      let tl ← forPieces pt color f rest
      pure (ms ++ tl)

/-- Method `Board.PawnMoves`. -/
def Board.PawnMoves (b : Board) (color : Color) : Res (List Move) :=
  let up : Int := if color = BLACK then -1 else 1
  let deltas : List (Int × Int) := [(0, up), (0, up * 2), (-1, up), (1, up)]
  forPieces PAWN color (fun i => deltaMovesAt b PAWN i deltas) b.Pieces.enum

/-- Method `Board.KnightMoves`. -/
def Board.KnightMoves (b : Board) (color : Color) : Res (List Move) :=
  let deltas : List (Int × Int) :=
    [(1, 2), (1, -2), (-1, 2), (-1, -2), (2, 1), (2, -1), (-2, 1), (-2, -1)]
  forPieces KNIGHT color (fun i => deltaMovesAt b KNIGHT i deltas) b.Pieces.enum

/-- Method `Board.KingMoves`: the adjacent steps of every king, then the two castling
candidates, which are always generated. -/
def Board.KingMoves (b : Board) (color : Color) : Res (List Move) := do
  let deltas : List (Int × Int) :=
    [(0, 1), (1, 1), (1, 0), (1, -1), (0, -1), (-1, -1), (-1, 0), (-1, 1)]
  let moves ← forPieces KING color (fun i => deltaMovesAt b KING i deltas) b.Pieces.enum
  let m : Move := { Piece := KING }
  let m ← m.SetSrcFromAlphaNum (if color = WHITE then bytes "e1" else bytes "e8")
  let short ← m.SetTrgFromAlphaNum (if color = WHITE then bytes "g1" else bytes "g8")
  let m : Move := { Piece := KING }
  let m ← m.SetSrcFromAlphaNum (if color = WHITE then bytes "e1" else bytes "e8")
  let long ← m.SetTrgFromAlphaNum (if color = WHITE then bytes "c1" else bytes "c8")
  pure (moves ++ [short] ++ [long])

/-- Loop `for i := 1; i < 8; i++` of `Move.SlideMoves`, over the remaining values of `i`;
the first out-of-bounds target ends it. -/
def slideLoop (m : Move) (b : Board) (d : Int × Int) : List Int → Res (List Move)
  | [] => .ok []
  | i :: is =>
    let move : Move := { Piece := m.Piece, SrcRank := m.SrcRank, SrcFile := m.SrcFile }
    let r := move.SetTrgDeltaAndCheckBounds (d.1 * i) (d.2 * i)
    if r.2 then do
      let p ← b.pieceAt r.1.TrgSqNum
      let rest ← slideLoop m b d is
      pure ({ r.1 with Capture := decide (p ≠ EMPTYP) } :: rest)
    else .ok []

/-- Method `Move.SlideMoves`. -/
def Move.SlideMoves (m : Move) (b : Board) (d : Int × Int) : Res (List Move) :=
  slideLoop m b d [1, 2, 3, 4, 5, 6, 7]

/-- Loop `for _, delta := range slideDeltas` of `RookMoves`, `BishopMoves`, `QueenMoves`. -/
def slidesAt (b : Board) (pt : PType) (i : Nat) : List (Int × Int) → Res (List Move)
  | [] => .ok []
  | delta :: ds => do
    let m : Move := ({ Piece := pt } : Move).SetSrcFromSqNum i
    let ms ← m.SlideMoves b delta
    let rest ← slidesAt b pt i ds
    pure (ms ++ rest)

/-- Method `Board.RookMoves`. -/
def Board.RookMoves (b : Board) (color : Color) : Res (List Move) :=
  let slideDeltas : List (Int × Int) := [(0, 1), (0, -1), (1, 0), (-1, 0)]
  forPieces ROOK color (fun i => slidesAt b ROOK i slideDeltas) b.Pieces.enum

/-- Method `Board.BishopMoves`. -/
def Board.BishopMoves (b : Board) (color : Color) : Res (List Move) :=
  let slideDeltas : List (Int × Int) := [(1, 1), (1, -1), (-1, 1), (-1, -1)]
  forPieces BISHOP color (fun i => slidesAt b BISHOP i slideDeltas) b.Pieces.enum

/-- Method `Board.QueenMoves`. -/
def Board.QueenMoves (b : Board) (color : Color) : Res (List Move) :=
  let slideDeltas : List (Int × Int) :=
    [(1, 1), (1, -1), (-1, 1), (-1, -1), (0, 1), (0, -1), (1, 0), (-1, 0)]
  forPieces QUEEN color (fun i => slidesAt b QUEEN i slideDeltas) b.Pieces.enum

/-- Method `Board.AllMoves`. -/
def Board.AllMoves (b : Board) (player : Color) : Res (List Move) := do
  let pawn ← b.PawnMoves player
  let king ← b.KingMoves player
  let rook ← b.RookMoves player
  let queen ← b.QueenMoves player
  let bishop ← b.BishopMoves player
  let knight ← b.KnightMoves player
  pure (pawn ++ king ++ rook ++ queen ++ bishop ++ knight)

/-- Loop of `Board.FindKing` over the squares in order. -/
def findKingLoop (color : Color) : List (Nat × Piece) → Int
  | [] => -1
  | ip :: rest =>
    if ip.2.Typ = KING ∧ ip.2.Color = color then (ip.1 : Int) else findKingLoop color rest

/-- Method `Board.FindKing`: the first square holding the king; panics when there is none. -/
def Board.FindKing (b : Board) (color : Color) : Res Int :=
  let kingSq := findKingLoop color b.Pieces.enum
  if kingSq = -1 then .panic else .ok kingSq

/-- Loop of `Board.FirstPieceInDirection`, for at most `n` more rounds.  The square
changes by `step = normVector[0] - normVector[1]*8` each round. -/
def firstPieceLoop (b : Board) (step : Int) : Nat → Int → Res (Piece × Int)
  | 0, _ => .nofuel
  | n + 1, sqNum =>
    if sqNum < 64 then
      let sqNum := sqNum + step
      if sqNum > 0 ∧ sqNum < 64 ∧ (b.Pieces.getD sqNum.toNat EMPTYP).Typ ≠ NONE then
        .ok (b.Pieces.getD sqNum.toNat EMPTYP, sqNum)
      else if sqNum < 0 ∨ sqNum ≥ 64 then .ok (EMPTYP, sqNum)
      else firstPieceLoop b step n sqNum
    else .ok (EMPTYP, sqNum)

/-- Method `Board.FirstPieceInDirection`.  With a non-zero step the loop leaves the
range `0..63` within 64 rounds; the budget of 64 rounds is exhausted only by a loop
that makes no progress.  The components of `normVector` are -1, 0 or 1 at every call,
so the additions stay far from the limits of a Go int. -/
def Board.FirstPieceInDirection (b : Board) (srcSq : Int) (normVector : Int × Int) :
    Res (Piece × Int) :=
  firstPieceLoop b (normVector.1 - normVector.2 * 8) 64 srcSq

/-- Method `Board.pieceBlockingPath`. -/
def Board.pieceBlockingPath (b : Board) (mv : Move) : Res (Piece × Int) := do
  let d := mv.MoveDelta
  let normDx : Int := if d.1 > 0 then 1 else if d.1 < 0 then -1 else 0
  let normDy : Int := if d.2 > 0 then 1 else if d.2 < 0 then -1 else 0
  let mvSrcSq := mv.SrcSqNum
  let mvTrgSq := mv.TrgSqNum
  let r ← b.FirstPieceInDirection mv.SrcSqNum (normDx, normDy)
  if mvSrcSq < mvTrgSq ∧ r.2 < mvTrgSq then pure r
  else if mvSrcSq > mvTrgSq ∧ r.2 > mvTrgSq then pure r
  else pure (EMPTYP, -1)

/-- Method `Board.UpdateBoardWithMove`, returning the updated board. -/
def Board.UpdateBoardWithMove (b : Board) (mv : Move) : Res Board := do
  let trg := mv.TrgSqNum
  let src := mv.SrcSqNum
  let pt ← b.pieceAt trg
  let b : Board :=
    if pt ≠ EMPTYP then { b with CapturedPieces := b.CapturedPieces ++ [pt] } else b
  let ps ← b.pieceAt src
  let b ← b.setPiece trg ps
  let b ← b.setPiece src EMPTYP
  -- Special case -- castling also moves Rook
  let b ←
    if mv.Piece = KING ∧ src = 60 ∧ trg = 62 then
      (b.setPiece 63 EMPTYP).bind (fun b => b.setPiece 61 ROOK_W)
    else if mv.Piece = KING ∧ src = 60 ∧ trg = 58 then
      (b.setPiece 56 EMPTYP).bind (fun b => b.setPiece 59 ROOK_W)
    else if mv.Piece = KING ∧ src = 4 ∧ trg = 6 then
      (b.setPiece 7 EMPTYP).bind (fun b => b.setPiece 5 ROOK_B)
    else if mv.Piece = KING ∧ src = 4 ∧ trg = 2 then
      (b.setPiece 0 EMPTYP).bind (fun b => b.setPiece 3 ROOK_B)
    else pure b
  -- Special case -- pawn promotion
  if mv.Piece = PAWN ∧ (mv.TrgRank = 49 ∨ mv.TrgRank = 56) then do
    let cur ← b.pieceAt trg
    let promoPiece : Piece :=
      if mv.Promote = NONE then { Typ := QUEEN, Color := cur.Color }
      else { Typ := mv.Promote, Color := cur.Color }
    b.setPiece trg promoPiece
  else pure b

/-- First part of the body of `Board.ValidateMove`: castling rights, target occupied by
an own piece, blocked path and pawn rules.  The result is the pair `(ok, msg)` reached
before the last step. -/
def validateRules (b : Board) (mv : Move) (color : Color) : Res (Bool × Str) := do
  let trgSq := mv.TrgSqNum
  let srcSq := mv.SrcSqNum
  -- castling rights
  let shortCastle := mv.IsShortCastle
  let longCastle := mv.IsLongCastle
  let r : Bool × Str :=
    if shortCastle ∧ ¬ b.CanCastleShort color then (false, bytes "Can no longer short castle")
    else if longCastle ∧ ¬ b.CanCastleLong color then (false, bytes "Can no longer long castle")
    else (true, [])
  -- target occupied by a piece of the same colour
  let r ←
    if r.1 then do
      let ps ← b.pieceAt mv.SrcSqNum
      let pt ← b.pieceAt trgSq
      if ps.Color = pt.Color then
        pure (false, SqNumToStr trgSq ++ bytes " is occupied by your own piece")
      else pure r
    else pure r
  -- path blocked
  let r ←
    if r.1 ∧ mv.Piece ≠ KNIGHT then do
      let blk ← b.pieceBlockingPath mv
      if ¬ blk.1.Equals EMPTYP then
        pure (false, bytes "A " ++ blk.1.Name ++ bytes " on " ++ SqNumToStr blk.2 ++
          bytes " is blocking your path")
      else pure r
    else pure r
  -- pawn rules
  if r.1 ∧ mv.Piece = PAWN then do
    let d := mv.MoveDelta
    let ps ← b.pieceAt srcSq
    let pt ← b.pieceAt trgSq
    if ps.Color = WHITE ∧ mv.SrcRank ≠ 50 ∧ d.2 = 2 then
      pure (false, bytes "A pawn can only move two spaces on its first move")
    else if ps.Color = BLACK ∧ mv.SrcRank ≠ 55 ∧ d.2 = -2 then
      pure (false, bytes "A pawn can only move two spaces on its first move")
    else if pt.Typ ≠ NONE ∧ d.1 = 0 then
      pure (false, bytes "Pawns cannot move into an occupied square")
    else if pt.Typ = NONE ∧ d.1 ≠ 0 then
      pure (false, bytes "Pawns can only move diagonally to capture")
    else pure r
  else pure r

/-- Last step of the body of `Board.ValidateMove`, from the pair `r = (ok, msg)` reached
so far: unless the target holds a king, the move is played on the copy of the board and
rejected when the mover is then in check.  The check detection is passed as `inCheck`. -/
def validateKingSafety (inCheck : Board → Color → Res Bool) (b : Board) (mv : Move)
    (color : Color) (r : Bool × Str) : Res (Bool × Str) :=
  -- Check if the move results in a check
  -- Don't consider moves where we actually take the king
  if r.1 then do
    let pt ← b.pieceAt mv.TrgSqNum
    if pt.Typ ≠ KING then do
      let b1 ← b.UpdateBoardWithMove mv
      let chk ← inCheck b1 color
      if chk then pure (false, bytes "Your king would be in check") else pure r
    else pure r
  else pure r

/-- Body of `Board.ValidateMove`, with the check detection it calls in its last step
passed as `inCheck`. -/
def ValidateMoveWith (inCheck : Board → Color → Res Bool) (b : Board) (mv : Move)
    (color : Color) : Res (Bool × Str) :=
  (validateRules b mv color).bind (validateKingSafety inCheck b mv color)

/-- Loop of `Board.IsInCheck` over the enemy moves, with the validation it calls
passed as `validate`. -/
def anyAttack (validate : Board → Move → Color → Res (Bool × Str)) (b : Board)
    (enemy : Color) (kingSq : Int) : List Move → Res Bool
  | [] => .ok false
  | mv :: rest =>
    if mv.TrgSqNum = kingSq then do
      let r ← validate b mv enemy
      if r.1 then pure true else anyAttack validate b enemy kingSq rest
    else anyAttack validate b enemy kingSq rest

/-- Body of `Board.IsInCheck`, with the validation it calls passed as `validate`. -/
def IsInCheckWith (validate : Board → Move → Color → Res (Bool × Str)) (b : Board)
    (c : Color) : Res Bool := do
  let enemyMoves ← b.AllMoves c.Opposite
  let kingSq ← b.FindKing c
  anyAttack validate b c.Opposite kingSq enemyMoves

/-- Method `Board.ValidateMove`.  It and `Board.IsInCheck` call each other; `fuel` bounds
the depth of that recursion, and a call that needs more depth gives `Res.nofuel`. -/
def Board.ValidateMove : Nat → Board → Move → Color → Res (Bool × Str)
  | 0 => ValidateMoveWith (fun _ _ => .nofuel)
  | fuel + 1 => ValidateMoveWith (IsInCheckWith (Board.ValidateMove fuel))

/-- Method `Board.IsInCheck`, with the recursion budget of its calls to `ValidateMove`. -/
def Board.IsInCheck (fuel : Nat) (b : Board) (c : Color) : Res Bool :=
  IsInCheckWith (Board.ValidateMove fuel) b c

/-- Loop of `Board.AllValidMoves`: the moves that pass `ValidateMove`, in order. -/
def validLoop (fuel : Nat) (b : Board) (c : Color) : List Move → Res (List Move)
  | [] => .ok []
  | mv :: rest => do
    let r ← b.ValidateMove fuel mv c
    let tl ← validLoop fuel b c rest
    pure (if r.1 then mv :: tl else tl)

/-- Method `Board.AllValidMoves`. -/
def Board.AllValidMoves (fuel : Nat) (b : Board) (c : Color) : Res (List Move) := do
  let allMoves ← b.AllMoves c
  validLoop fuel b c allMoves

/-- Variable `DefaultBoard`. -/
def DefaultBoard : List Piece :=
  [ROOK_B, KNGT_B, BSHP_B, QUEN_B, KING_B, BSHP_B, KNGT_B, ROOK_B,
   PAWN_B, PAWN_B, PAWN_B, PAWN_B, PAWN_B, PAWN_B, PAWN_B, PAWN_B,
   EMPTYP, EMPTYP, EMPTYP, EMPTYP, EMPTYP, EMPTYP, EMPTYP, EMPTYP,
   EMPTYP, EMPTYP, EMPTYP, EMPTYP, EMPTYP, EMPTYP, EMPTYP, EMPTYP,
   EMPTYP, EMPTYP, EMPTYP, EMPTYP, EMPTYP, EMPTYP, EMPTYP, EMPTYP,
   EMPTYP, EMPTYP, EMPTYP, EMPTYP, EMPTYP, EMPTYP, EMPTYP, EMPTYP,
   PAWN_W, PAWN_W, PAWN_W, PAWN_W, PAWN_W, PAWN_W, PAWN_W, PAWN_W,
   ROOK_W, KNGT_W, BSHP_W, QUEN_W, KING_W, BSHP_W, KNGT_W, ROOK_W]

/-- Function `board.CreateDefault`. -/
def Board.CreateDefault : Board :=
  { Pieces := DefaultBoard, CastleRights := 15 }

/-- Method `Board.PieceCounts`: the number of squares holding each piece value. -/
def Board.PieceCounts (b : Board) (p : Piece) : Int := (b.Pieces.count p : Int)

/-- Loop of `Board.FindMatchingMove` over the candidate moves; the state is the list of
matching moves and the error recorded so far. -/
def matchLoop (fuel : Nat) (b : Board) (wantedMv : Move) (c : Color) :
    List Move → List Move × Option Str → Res (List Move × Option Str)
  | [], st => .ok st
  | mv :: rest, st =>
    if mv.Matches wantedMv then do
      let r ← b.ValidateMove fuel mv c
      if r.1 then
        matchLoop fuel b wantedMv c rest (st.1 ++ [{ mv with Promote := wantedMv.Promote }], st.2)
      else matchLoop fuel b wantedMv c rest (st.1, some r.2)
    else matchLoop fuel b wantedMv c rest st

/-- Method `Board.FindMatchingMove`: the move and the error (`none` for a nil error).
The error built from a validation message carries that message as its text. -/
def Board.FindMatchingMove (fuel : Nat) (b : Board) (wantedMv : Move) (c : Color) :
    Res (Move × Option Str) := do
  let allMoves ← b.AllMoves c
  let st ← matchLoop fuel b wantedMv c allMoves ([], none)
  match st.1 with
  | [m] => pure (m, none)
  | _ :: _ :: _ => pure ({}, some (bytes "Ambiguous move"))
  | [] => if st.2 = none then pure ({}, some (bytes "Illegal move")) else pure ({}, st.2)

/-- Method `Board.UpdateCastleRightsWithMove`; `^x` on a `uint8` is `255 xor x`. -/
def Board.UpdateCastleRightsWithMove (b : Board) (mv : Move) (c : Color) : Board :=
  if mv.Piece = KING ∧ c = WHITE then
    { b with CastleRights :=
        Nat.land b.CastleRights (Nat.xor 255 (Nat.lor CASTLE_WHITE_SHORT CASTLE_WHITE_LONG)) }
  else if mv.Piece = KING ∧ c = BLACK then
    { b with CastleRights :=
        Nat.land b.CastleRights (Nat.xor 255 (Nat.lor CASTLE_BLACK_SHORT CASTLE_BLACK_LONG)) }
  else if mv.Piece = ROOK ∧ c = WHITE then
    if mv.SrcSqNum = 63 then
      { b with CastleRights := Nat.land b.CastleRights (Nat.xor 255 CASTLE_WHITE_SHORT) }
    else if mv.SrcSqNum = 56 then
      { b with CastleRights := Nat.land b.CastleRights (Nat.xor 255 CASTLE_WHITE_LONG) }
    else b
  else if mv.Piece = ROOK ∧ c = BLACK then
    if mv.SrcSqNum = 7 then
      { b with CastleRights := Nat.land b.CastleRights (Nat.xor 255 CASTLE_BLACK_SHORT) }
    else if mv.SrcSqNum = 0 then
      { b with CastleRights := Nat.land b.CastleRights (Nat.xor 255 CASTLE_BLACK_LONG) }
    else b
  else b

/-! ## Go library functions used by the FEN codec -/

/-- Loop producing the decimal digits of `n` in front of `acc`; `fuel` bounds the
number of digits. -/
def digitsLoop : Nat → Nat → Str → Str
  | 0, _, acc => acc
  | fuel + 1, n, acc =>
    if n < 10 then (48 + n) :: acc else digitsLoop fuel (n / 10) ((48 + n % 10) :: acc)

/-- Decimal digits of a natural number. -/
def fmtNat (n : Nat) : Str := digitsLoop (n + 1) n []

/-- Output of the verb `%d` for a Go int. -/
def fmtD (x : Int) : Str := if x < 0 then 45 :: fmtNat x.natAbs else fmtNat x.toNat

/-- Value of a string of decimal digits read from the left, starting from `acc`;
`none` when a byte is not a digit. -/
def parseDigits : Str → Nat → Option Nat
  | [], acc => some acc
  | c :: rest, acc => if 48 ≤ c ∧ c ≤ 57 then parseDigits rest (acc * 10 + (c - 48)) else none

/-- Go's `strconv.Atoi` on a 64-bit platform: the value and whether an error is
returned.  An optional sign is followed by at least one decimal digit; a syntax error
gives the value 0, a value outside the range of an int gives the nearest limit. -/
def Atoi (s : Str) : Int × Bool :=
  let neg := decide (s.head? = some 45)
  let body := if s.head? = some 45 ∨ s.head? = some 43 then s.tail else s
  if body = [] then (0, true)
  else
    match parseDigits body 0 with
    | none => (0, true)
    | some n =>
      if neg then
        if n > 9223372036854775808 then (-9223372036854775808, true) else (-(n : Int), false)
      else
        if n > 9223372036854775807 then (9223372036854775807, true) else ((n : Int), false)

/-- Width in bytes of the white-space character that starts `s`, or 0 when `s` does not
start with one: the characters for which Go's `unicode.IsSpace` holds, in UTF-8.  The
first byte of each of them is never a continuation byte, so a scan of the bytes finds
exactly the white space that Go finds when it decodes the string. -/
def spaceWidth : Str → Nat
  | [] => 0
  | c :: rest =>
    if c = 9 ∨ c = 10 ∨ c = 11 ∨ c = 12 ∨ c = 13 ∨ c = 32 then 1
    else if c = 194 then
      (match rest with
       | d :: _ => if d = 133 ∨ d = 160 then 2 else 0
       | [] => 0)
    else if c = 225 then
      (match rest with
       | d :: e :: _ => if d = 154 ∧ e = 128 then 3 else 0
       | _ => 0)
    else if c = 226 then
      (match rest with
       | d :: e :: _ =>
         if d = 128 ∧ ((128 ≤ e ∧ e ≤ 138) ∨ e = 168 ∨ e = 169 ∨ e = 175) then 3
         else if d = 129 ∧ e = 159 then 3 else 0
       | _ => 0)
    else if c = 227 then
      (match rest with
       | d :: e :: _ => if d = 128 ∧ e = 128 then 3 else 0
       | _ => 0)
    else 0

/-- Scan of `strings.Fields`: `skip` counts the bytes still to drop of the white-space
character being read, `cur` is the field being collected. -/
def fieldsLoop : Str → Nat → Str → List Str
  | [], _, cur => if cur = [] then [] else [cur]
  | _ :: rest, skip + 1, cur => fieldsLoop rest skip cur
  | c :: rest, 0, cur =>
    if spaceWidth (c :: rest) = 0 then fieldsLoop rest 0 (cur ++ [c])
    else (if cur = [] then [] else [cur]) ++ fieldsLoop rest (spaceWidth (c :: rest) - 1) []

/-- Go's `strings.Fields`: the maximal runs of bytes between white space. -/
def Fields (s : Str) : List Str := fieldsLoop s 0 []

/-- Read `s[i]`; an index past the end panics. -/
def strAt (s : Str) (i : Nat) : Res Nat :=
  match s[i]? with
  | some c => .ok c
  | none => .panic

/-! ## parser/parser.go -/

/-- Map `parser.PieceChars`; a missing key gives `NONE`. -/
def PieceChars (c : Nat) : PType :=
  if c = 82 then ROOK -- 'R'
  else if c = 78 then KNIGHT -- 'N'
  else if c = 66 then BISHOP -- 'B'
  else if c = 81 then QUEEN -- 'Q'
  else if c = 75 then KING -- 'K'
  else NONE

/-- Whether `c` is a key of the map `parser.PieceChars`. -/
def isPieceChar (c : Nat) : Bool :=
  decide (c = 82) || decide (c = 78) || decide (c = 66) || decide (c = 81) || decide (c = 75)

def TOKEN_PIECE : Int := 0
def TOKEN_CAPTURE : Int := 1
def TOKEN_SQUARE : Int := 2
def TOKEN_PROMOTE : Int := 3
def TOKEN_SHORT_CASTLE : Int := 4
def TOKEN_LONG_CASTLE : Int := 5
def TOKEN_RANK : Int := 6
def TOKEN_FILE : Int := 7

/-- Struct `parser.Token`; the field `Type` is called `Typ` here. -/
structure Token where
  Typ : Int := 0
  Literal : Str := []
  deriving DecidableEq

/-- Slice `s[i:j]` of a string, for `i ≤ j ≤ len(s)`. -/
def slice (s : Str) (i j : Nat) : Str := (s.drop i).take (j - i)

/-- Function `getNextToken`, called with `idx < len(command)`: the next index, the
token and the error. -/
def getNextToken (idx : Nat) (command : Str) : Res (Nat × Token × Option Str) := do
  let ch ← strAt command idx
  if 97 ≤ ch ∧ ch ≤ 104 then
    let peekCh : Nat := if command.length > idx + 1 then command.getD (idx + 1) 0 else 0
    if 49 ≤ peekCh ∧ peekCh ≤ 56 then
      pure (idx + 1 + 1, { Typ := TOKEN_SQUARE, Literal := slice command idx (idx + 2) }, none)
    else pure (idx + 1, { Typ := TOKEN_FILE, Literal := [ch] }, none)
  else if 49 ≤ ch ∧ ch ≤ 56 then
    pure (idx + 1, { Typ := TOKEN_RANK, Literal := [ch] }, none)
  else if ch = 120 then -- 'x'
    pure (idx + 1, { Typ := TOKEN_CAPTURE, Literal := bytes "x" }, none)
  else if ch = 61 then -- '='
    pure (idx + 1, { Typ := TOKEN_PROMOTE, Literal := bytes "=" }, none)
  else if ch = 111 then -- 'o'
    if command.length > idx + 4 ∧ slice command idx (idx + 5) = bytes "o-o-o" then
      pure (idx + 4 + 1, { Typ := TOKEN_LONG_CASTLE, Literal := slice command idx (idx + 5) }, none)
    else if command.length > idx + 2 ∧ slice command idx (idx + 3) = bytes "o-o" then
      pure (idx + 2 + 1, { Typ := TOKEN_SHORT_CASTLE, Literal := slice command idx (idx + 3) }, none)
    else pure (idx + 1, {}, none)
  else if isPieceChar ch then
    pure (idx + 1, { Typ := TOKEN_PIECE, Literal := [ch] }, none)
  else
    pure (idx + 1, {}, some (bytes "Unrecognized notation '" ++ fmtC ch ++ bytes "'"))

/-- Loop of `tokenizeCommand`; every round moves `idx` forward, so `len(command)`
rounds are enough and `fuel` is never exhausted from there. -/
def tokenizeLoop (command : Str) : Nat → Nat → List Token → Res (List Token × Option Str)
  | 0, idx, tokens => if idx < command.length then .nofuel else .ok (tokens, none)
  | fuel + 1, idx, tokens =>
    if idx < command.length then do
      let r ← getNextToken idx command
      match r.2.2 with
      | some tokenErr => pure (tokens, some tokenErr)
      | none => tokenizeLoop command fuel r.1 (tokens ++ [r.2.1])
    else .ok (tokens, none)

/-- Function `tokenizeCommand`. -/
def tokenizeCommand (command : Str) : Res (List Token × Option Str) :=
  tokenizeLoop command command.length 0 []

/-- Read `token.Literal[0]`; an empty literal panics. -/
def Token.lit0 (t : Token) : Res Nat := strAt t.Literal 0

/-- Function `parseTokensIntoMove`. -/
def parseTokensIntoMove (tokens : List Token) : Res (Move × Option Str) :=
  match tokens with
  | [] => .ok ({}, some (bytes "No input."))
  | [token] =>
    if token.Typ = TOKEN_SQUARE then do
      -- Pawn move (e4)
      let c ← token.lit0
      let mv : Move := { Piece := PAWN, SrcFile := c }
      let mv ← mv.SetTrgFromAlphaNum token.Literal
      pure (mv, none)
    else if token.Typ = TOKEN_SHORT_CASTLE then
      .ok ({ Piece := KING, SrcFile := 101, TrgFile := 103 }, none)
    else if token.Typ = TOKEN_LONG_CASTLE then
      .ok ({ Piece := KING, SrcFile := 101, TrgFile := 99 }, none)
    else .ok ({}, none)
  | [token1, token2] =>
    if token1.Typ = TOKEN_PIECE ∧ token2.Typ = TOKEN_SQUARE then do
      -- Piece move (Ra6)
      let c ← token1.lit0
      let mv : Move := { Piece := PieceChars c }
      let mv ← mv.SetTrgFromAlphaNum token2.Literal
      pure (mv, none)
    else if token1.Typ = TOKEN_SQUARE ∧ token2.Typ = TOKEN_SQUARE then do
      -- Long algebraic notation (e2e4)
      let mv : Move := {}
      let mv ← mv.SetSrcFromAlphaNum token1.Literal
      let mv ← mv.SetTrgFromAlphaNum token2.Literal
      pure (mv, none)
    else if token1.Typ = TOKEN_SQUARE ∧ token2.Typ = TOKEN_PIECE then do
      -- Pawn promotion (e8Q)
      let mv : Move := { Piece := PAWN }
      let mv ← mv.SetTrgFromAlphaNum token1.Literal
      let c ← token2.lit0
      pure ({ mv with Promote := PieceChars c }, none)
    else .ok ({}, none)
  | [token1, token2, token3] =>
    if token3.Typ = TOKEN_SQUARE then do
      let mv : Move := {}
      let mv ← mv.SetTrgFromAlphaNum token3.Literal
      let mv ←
        if token1.Typ = TOKEN_FILE then do
          -- Pawn captures square (exf6)
          let c ← token1.lit0
          pure { mv with Piece := PAWN, SrcFile := c }
        else if token1.Typ = TOKEN_PIECE then do
          -- Piece captures square (Nxf3)
          let c ← token1.lit0
          pure { mv with Piece := PieceChars c }
        else pure mv
      let mv ←
        if token2.Typ = TOKEN_RANK then do
          let c ← token2.lit0
          pure { mv with SrcRank := c }
        else if token2.Typ = TOKEN_FILE then do
          let c ← token2.lit0
          pure { mv with SrcFile := c }
        else pure mv
      pure (mv, none)
    else if token3.Typ = TOKEN_PIECE then do
      let mv : Move := { Piece := PAWN }
      if token1.Typ = TOKEN_SQUARE ∧ token2.Typ = TOKEN_SQUARE then do
        -- Long notation pawn promotion (e7e8Q)
        let mv ← mv.SetSrcFromAlphaNum token1.Literal
        let mv ← mv.SetTrgFromAlphaNum token2.Literal
        let c ← token3.lit0
        pure ({ mv with Promote := PieceChars c }, none)
      else if token1.Typ = TOKEN_SQUARE then do
        -- Pawn promotion (e8=Q)
        let mv ← mv.SetTrgFromAlphaNum token1.Literal
        let c ← token3.lit0
        pure ({ mv with Promote := PieceChars c }, none)
      else pure (mv, none)
    else .ok ({}, none)
  | [token1, token2, _, token4] => do
    let c ← token1.lit0
    let mv : Move := { Piece := PieceChars c }
    let mv ← mv.SetTrgFromAlphaNum token4.Literal
    let mv ←
      if token2.Typ = TOKEN_SQUARE then mv.SetSrcFromAlphaNum token2.Literal
      else if token2.Typ = TOKEN_RANK then do
        let c ← token2.lit0
        pure { mv with SrcRank := c }
      else if token2.Typ = TOKEN_FILE then do
        let c ← token2.lit0
        pure { mv with SrcFile := c }
      else pure mv
    pure (mv, none)
  | _ => .ok ({}, none)

/-- Function `parser.AlgebraicNotationToMove`. -/
def AlgebraicNotationToMove (command : Str) : Res (Move × Option Str) := do
  let r ← tokenizeCommand command
  match r.2 with
  | some err => pure ({}, some err)
  | none => parseTokensIntoMove r.1

/-! ## gamestate/gamestate.go -/

/-- Type `gamestate.Status`, a Go string. -/
abbrev Status := Str

def STATUS_NOT_STARTED : Status := bytes "Ready"
def STATUS_PLAYING : Status := bytes "Playing..."
def STATUS_CHECKMATE_WHITE_WINS : Status := bytes "Checkmate! White wins."
def STATUS_CHECKMATE_BLACK_WINS : Status := bytes "Checkmate! Black wins."
def STATUS_TIMEOUT_WHITE_WINS : Status := bytes "White wins on time!"
def STATUS_TIMEOUT_BLACK_WINS : Status := bytes "Black wins on time!"
def STATUS_DRAW_INSUFFICIENT : Status := bytes "Draw! Insufficient material."
def STATUS_DRAW_STALEMATE : Status := bytes "Draw! Stalemate."
def STATUS_DRAW_REPETITION : Status := bytes "Draw! Threefold repetition."
def STATUS_DRAW_FIFTY_MOVES : Status := bytes "Draw! Fifty move rule."
def STATUS_DRAW_AGREEMENT : Status := bytes "Draw by agreement!"
def STATUS_QUIT : Status := bytes "Quitting..."

/-- Struct `gamestate.GameState`, without the mutex `DrawMutex`. -/
structure GameState where
  Board : Board
  ActiveColor : Color := 0
  enPassantSq : Int := 0
  HalfMoveClock : Int := 0
  FullMoveCount : Int := 0
  Message : Str := []
  Status : Status := []
  MoveHistory : List Move := []
  WhiteTimeRemainingMs : Int := 0
  BlackTimeRemainingMs : Int := 0
  Increment : Int := 0
  WhiteIsHuman : Bool := false
  BlackIsHuman : Bool := false
  BoardHistory : List TChess.Board := []
  deriving DecidableEq

/-- Function `gamestate.CreateDefault`. -/
def CreateDefault : GameState :=
  { Board := Board.CreateDefault, ActiveColor := WHITE, enPassantSq := -1,
    WhiteIsHuman := true, BlackIsHuman := true, BoardHistory := [],
    Status := STATUS_NOT_STARTED }

/-- Method `GameState.AddIncrement`. -/
def GameState.AddIncrement (gs : GameState) : GameState :=
  if gs.ActiveColor = WHITE then
    { gs with WhiteTimeRemainingMs := wrapInt (gs.WhiteTimeRemainingMs + gs.Increment) }
  else { gs with BlackTimeRemainingMs := wrapInt (gs.BlackTimeRemainingMs + gs.Increment) }

/-- Method `GameState.SwitchTurn`. -/
def GameState.SwitchTurn (gs : GameState) : GameState :=
  if gs.ActiveColor = WHITE then { gs with ActiveColor := BLACK }
  else { gs with ActiveColor := WHITE }

/-- Loop of `UpdateStatus` over the squares that records, for each colour, whether the
last bishop seen stands on a light square. -/
def bishopLoop : List (Nat × Piece) → Bool × Bool → Bool × Bool
  | [], st => st
  | ip :: rest, st =>
    if ip.2 = BSHP_W then bishopLoop rest (SquareIsLight ip.1, st.2)
    else if ip.2 = BSHP_B then bishopLoop rest (st.1, SquareIsLight ip.1)
    else bishopLoop rest st

/-- Loop of `UpdateStatus` over `BoardHistory`: `seen` holds the arrangements counted so
far (the map `positionCount`); the result tells whether some count reached three. -/
def repetitionLoop : List Board → List (List Piece) → Bool
  | [], _ => false
  | board :: rest, seen =>
    if (seen.count board.Pieces : Int) + 1 ≥ 3 then true
    else repetitionLoop rest (board.Pieces :: seen)

/-- Part of `UpdateStatus` that follows the computation of the legal moves and of the
check: the status assignments, in the order of the source. -/
def statusAfter (gs : GameState) (validMvs : List Move) (inCheck : Bool) : GameState :=
  let gs : GameState :=
    if validMvs.length = 0 ∧ inCheck then
      if gs.ActiveColor = WHITE then { gs with Status := STATUS_CHECKMATE_BLACK_WINS }
      else { gs with Status := STATUS_CHECKMATE_WHITE_WINS }
    else if validMvs.length = 0 then { gs with Status := STATUS_DRAW_STALEMATE }
    else gs
  let pCnt := gs.Board.PieceCounts
  let gs : GameState :=
    if ¬ inCheck ∧ pCnt EMPTYP = 62 then
      -- king vs. king
      { gs with Status := STATUS_DRAW_INSUFFICIENT }
    else if ¬ inCheck ∧ pCnt EMPTYP = 61 ∧ (pCnt BSHP_W = 1 ∨ pCnt BSHP_B = 1) then
      -- king & bishop vs. king
      { gs with Status := STATUS_DRAW_INSUFFICIENT }
    else if ¬ inCheck ∧ pCnt EMPTYP = 61 ∧ (pCnt KNGT_W = 1 ∨ pCnt KNGT_B = 1) then
      -- king & knight vs. king
      { gs with Status := STATUS_DRAW_INSUFFICIENT }
    else if ¬ inCheck ∧ pCnt EMPTYP = 60 ∧ (pCnt BSHP_W = 1 ∧ pCnt BSHP_B = 1) then
      -- king & bishop vs. king & bishop -- bishops on same sq color
      let onLight := bishopLoop gs.Board.Pieces.enum (false, false)
      if onLight.1 = onLight.2 then { gs with Status := STATUS_DRAW_INSUFFICIENT } else gs
    else gs
  let gs : GameState :=
    if gs.HalfMoveClock = 50 then { gs with Status := STATUS_DRAW_FIFTY_MOVES } else gs
  -- Three-fold repetition
  if repetitionLoop gs.BoardHistory [] then { gs with Status := STATUS_DRAW_REPETITION }
  else gs

/-- Method `GameState.UpdateStatus`. -/
def GameState.UpdateStatus (fuel : Nat) (gs : GameState) : Res GameState := do
  let validMvs ← gs.Board.AllValidMoves fuel gs.ActiveColor
  let inCheck ← gs.Board.IsInCheck fuel gs.ActiveColor
  pure (statusAfter gs validMvs inCheck)

/-- Method `GameState.UpdateMoveCounts`; `++` on a Go int wraps around. -/
def GameState.UpdateMoveCounts (gs : GameState) (mv : Move) (c : Color) : GameState :=
  let gs : GameState :=
    if c = BLACK then
      { gs with HalfMoveClock := wrapInt (gs.HalfMoveClock + 1),
                FullMoveCount := wrapInt (gs.FullMoveCount + 1) }
    else { gs with HalfMoveClock := wrapInt (gs.HalfMoveClock + 1) }
  if mv.Piece = PAWN ∨ mv.Capture then { gs with HalfMoveClock := 0 } else gs

/-- Loop of `ToFen` over the squares: the text written from square `i` on, given the
number `emptyCount` of empty squares not yet written. -/
def toFenLoop : List (Nat × Piece) → Int → Str
  | [], emptyCount => if emptyCount > 0 then fmtD emptyCount else []
  | ip :: rest, emptyCount =>
    let sep : Str × Int :=
      if ip.1 > 0 ∧ ip.1 % 8 = 0 then
        (if emptyCount > 0 then (fmtD emptyCount, 0) else ([], emptyCount)) |>
          fun w => (w.1 ++ bytes "/", w.2)
      else ([], emptyCount)
    if ip.2.Typ = NONE then sep.1 ++ toFenLoop rest (sep.2 + 1)
    else
      (if sep.2 > 0 then sep.1 ++ fmtD sep.2 ++ fmtC (ToFenChar ip.2) ++ toFenLoop rest 0
       else sep.1 ++ fmtC (ToFenChar ip.2) ++ toFenLoop rest sep.2)

/-- Method `GameState.ToFen`. -/
def GameState.ToFen (gs : GameState) : Str :=
  -- Board state
  toFenLoop gs.Board.Pieces.enum 0 ++
  -- Player turn
  (if gs.ActiveColor = WHITE then bytes " w " else bytes " b ") ++
  -- Castle availability
  (if Nat.land gs.Board.CastleRights CASTLE_WHITE_SHORT = CASTLE_WHITE_SHORT
    then bytes "K" else []) ++
  (if Nat.land gs.Board.CastleRights CASTLE_WHITE_LONG = CASTLE_WHITE_LONG
    then bytes "Q" else []) ++
  (if Nat.land gs.Board.CastleRights CASTLE_BLACK_SHORT = CASTLE_BLACK_SHORT
    then bytes "k" else []) ++
  (if Nat.land gs.Board.CastleRights CASTLE_BLACK_LONG = CASTLE_BLACK_LONG
    then bytes "q" else []) ++
  (if gs.Board.CastleRights = 0 then bytes "-" else []) ++
  -- En passant sq
  (if gs.enPassantSq ≥ 0 ∧ gs.enPassantSq < 64
    then bytes " " ++ SqNumToStr gs.enPassantSq ++ bytes " " else bytes " - ") ++
  -- Half move clock
  fmtD gs.HalfMoveClock ++ bytes " " ++
  -- Full move count
  fmtD gs.FullMoveCount

/-- First loop of `LoadFen`, over the board field.  The index `i` of the source is
represented by the unread part `fen[i:]`; the loop returns the board and the unread
part that starts with the space ending the field.  Reading past the end of the string
or writing past square 63 panics. -/
def loadBoardLoop : Str → Int → List Piece → Res (List Piece × Str)
  | [], _, _ => .panic
  | c :: rest, boardIdx, b =>
    if c = 32 then .ok (b, c :: rest)
    else if c ≥ 49 ∧ c ≤ 56 then loadBoardLoop rest (boardIdx + (bsub c 49 : Int) + 1) b
    else if c = 47 then loadBoardLoop rest boardIdx b
    else if 0 ≤ boardIdx ∧ boardIdx < 64 then
      loadBoardLoop rest (boardIdx + 1) (b.set boardIdx.toNat (FromFenChar c))
    else .panic

/-- Second loop of `LoadFen`, over the castling field, again on the unread part. -/
def loadCastleLoop : Str → Nat → Res (Nat × Str)
  | [], _ => .panic
  | c :: rest, castleStatus =>
    if c = 32 then .ok (castleStatus, c :: rest)
    else if c = 45 then loadCastleLoop rest castleStatus
    else if c = 75 then loadCastleLoop rest (Nat.lor castleStatus CASTLE_WHITE_SHORT)
    else if c = 81 then loadCastleLoop rest (Nat.lor castleStatus CASTLE_WHITE_LONG)
    else if c = 107 then loadCastleLoop rest (Nat.lor castleStatus CASTLE_BLACK_SHORT)
    else if c = 113 then loadCastleLoop rest (Nat.lor castleStatus CASTLE_BLACK_LONG)
    else loadCastleLoop rest castleStatus

/-- Method `GameState.LoadFen`: the state and the returned error (`none` for nil).  The
text of the returned error is the prefix chosen by `LoadFen`; the text of the wrapped
`strconv` error is left out. -/
def GameState.LoadFen (gs : GameState) (fen : Str) : Res (GameState × Option Str) := do
  -- Board state
  let r ← loadBoardLoop fen 0 (List.replicate 64 EMPTYP)
  let gs : GameState := { gs with Board := { gs.Board with Pieces := r.1 } }
  -- Active player: the current byte is the space, so advance the index
  let rest := r.2.drop 1
  let c ← strAt rest 0
  let gs : GameState :=
    if c = 119 then { gs with ActiveColor := WHITE }
    else if c = 98 then { gs with ActiveColor := BLACK }
    else gs
  -- Castling: advance the index twice
  let rest := rest.drop 2
  let r ← loadCastleLoop rest 0
  let gs : GameState := { gs with Board := { gs.Board with CastleRights := r.1 } }
  -- En passant square
  let rest := r.2.drop 1
  let c ← strAt rest 0
  let gs ←
    if c = 45 then pure { gs with enPassantSq := -1 }
    else do
      let file ← strAt rest 0
      let rank ← strAt rest 1
      let sq ← StrToSqNum (fmtC file ++ fmtC rank)
      pure { gs with enPassantSq := sq }
  let fields := Fields fen
  -- Half move clock
  let f4 ← (match fields[4]? with | some f => Res.ok f | none => Res.panic)
  let half := Atoi f4
  let retErr : Option Str :=
    if half.2 then some (bytes "Error parsing half move clock: ") else none
  let gs : GameState := { gs with HalfMoveClock := half.1 }
  -- Full move count
  let f5 ← (match fields[5]? with | some f => Res.ok f | none => Res.panic)
  let full := Atoi f5
  let retErr : Option Str :=
    if full.2 then some (bytes "Error parsing full move count: ") else retErr
  pure ({ gs with FullMoveCount := full.1 }, retErr)

/-- First part of `GameState.UpdateStateAfterMove`, up to the switch of the turn: the
board is pushed on the history and updated, the move is recorded, castling rights,
counters and clocks are updated and the turn passes to the other side. -/
def GameState.applyMove (gs : GameState) (mv : Move) : Res GameState := do
  let gs : GameState := { gs with BoardHistory := gs.BoardHistory ++ [gs.Board] }
  let b ← gs.Board.UpdateBoardWithMove mv
  let b : TChess.Board := { b with HiglightSq := mv.TrgSqNum }
  let gs : GameState := { gs with Board := b, MoveHistory := gs.MoveHistory ++ [mv] }
  let gs : GameState := { gs with Board := gs.Board.UpdateCastleRightsWithMove mv gs.ActiveColor }
  let gs := gs.UpdateMoveCounts mv gs.ActiveColor
  let gs := gs.AddIncrement
  pure gs.SwitchTurn

/-- Method `GameState.UpdateStateAfterMove`. -/
def GameState.UpdateStateAfterMove (fuel : Nat) (gs : GameState) (mv : Move) :
    Res GameState := do
  let gs ← gs.applyMove mv
  let gs ← gs.UpdateStatus fuel
  pure { gs with Message := mv.ToStr }

/-- Method `GameState.ParseAndExecuteAlgebraicNotation`: the state and the returned error. -/
def GameState.ParseAndExecuteAlgebraicNotation (fuel : Nat) (gs : GameState) (cmd : Str) :
    Res (GameState × Option Str) := do
  let p ← AlgebraicNotationToMove cmd
  match p.2 with
  | some err => pure ({ gs with Message := err }, some err)
  | none =>
    let m ← gs.Board.FindMatchingMove fuel p.1 gs.ActiveColor
    match m.2 with
    | some err => pure ({ gs with Message := err }, some err)
    | none =>
      let gs ← gs.UpdateStateAfterMove fuel m.1
      pure (gs, none)

/-! ## Predicates and positions used in the statements -/

/-- Test of a returned value: `p` holds of the value of a call that returned. -/
def Res.sat {α : Type} (p : α → Bool) : Res α → Bool
  | .ok a => p a
  | _ => false

/-- Whether a call returned. -/
def Res.isOk {α : Type} (x : Res α) : Bool := x.sat (fun _ => true)

/-- The target square of `mv` holds a king. -/
def capturesKing (b : Board) (mv : Move) : Bool :=
  (b.pieceAt mv.TrgSqNum).sat (fun p => decide (p.Typ = KING))

/-- Board with the given pieces on an otherwise empty board. -/
def boardOf (l : List (Nat × Piece)) (rights : Nat) : Board :=
  { Pieces := l.foldl (fun ps ip => ps.set ip.1 ip.2) (List.replicate 64 EMPTYP),
    CastleRights := rights }

/-- Move of a piece of type `pt` between two squares given by file and rank bytes. -/
def mkMove (pt : PType) (srcFile srcRank trgFile trgRank : Nat) : Move :=
  { Piece := pt, SrcFile := srcFile, SrcRank := srcRank, TrgFile := trgFile, TrgRank := trgRank }

/-- Position in which White, whose king on e1 is attacked by the rook on e8, can take
the black king on a8 with the rook on a1. -/
def kingCaptureBoard : Board :=
  boardOf [(0, KING_B), (4, ROOK_B), (56, ROOK_W), (60, KING_W)] 0

/-- The rook move a1 to a8, flagged as a capture. -/
def rookA1A8 : Move := { mkMove ROOK 97 49 97 56 with Capture := true }

/-- The pawn move e2 to e4. -/
def pawnE2E4 : Move := mkMove PAWN 101 50 101 52

/-- The twelve coloured pieces. -/
def colouredPieces : List Piece :=
  [PAWN_W, PAWN_B, ROOK_W, ROOK_B, KNGT_W, KNGT_B, BSHP_W, BSHP_B, QUEN_W, QUEN_B, KING_W, KING_B]

/-- A square holds the empty piece or one of the twelve coloured pieces. -/
def validSquare (p : Piece) : Prop := p = EMPTYP ∨ p ∈ colouredPieces

instance (p : Piece) : Decidable (validSquare p) := by unfold validSquare; infer_instance

/-- A printable ASCII byte other than the space. -/
def visible (c : Nat) : Prop := 33 ≤ c ∧ c ≤ 126

instance (c : Nat) : Decidable (visible c) := by unfold visible; infer_instance

/-- A decimal digit. -/
def isDigit (c : Nat) : Prop := 48 ≤ c ∧ c ≤ 57

/-- Range of a Go int on a 64-bit platform. -/
def isInt64 (x : Int) : Prop := -9223372036854775808 ≤ x ∧ x ≤ 9223372036854775807

instance (x : Int) : Decidable (isInt64 x) := by unfold isInt64; infer_instance

/-- Text of the castling field written by `ToFen`. -/
def castleText (rights : Nat) : Str :=
  (if Nat.land rights CASTLE_WHITE_SHORT = CASTLE_WHITE_SHORT then bytes "K" else []) ++
  (if Nat.land rights CASTLE_WHITE_LONG = CASTLE_WHITE_LONG then bytes "Q" else []) ++
  (if Nat.land rights CASTLE_BLACK_SHORT = CASTLE_BLACK_SHORT then bytes "k" else []) ++
  (if Nat.land rights CASTLE_BLACK_LONG = CASTLE_BLACK_LONG then bytes "q" else []) ++
  (if rights = 0 then bytes "-" else [])

/-- Text of the en-passant field written by `ToFen`, without the spaces around it. -/
def enPassantText (sq : Int) : Str :=
  if sq ≥ 0 ∧ sq < 64 then SqNumToStr sq else bytes "-"

/-- State of a fresh game after `gs := CreateDefault(); gs.LoadFen(fen)`, for a string that
`LoadFen` reads without a panic (the default state otherwise). -/
def loaded (fen : Str) : GameState :=
  match CreateDefault.LoadFen fen with
  | .ok r => r.1
  | _ => CreateDefault

/-- Successive calls of `UpdateStateAfterMove`, one per move of the list. -/
def playMoves (fuel : Nat) (gs : GameState) : List Move → Res GameState
  | [] => .ok gs
  | mv :: rest => (gs.UpdateStateAfterMove fuel mv).bind (fun gs1 => playMoves fuel gs1 rest)

/-- The material test of `UpdateStatus`, without its condition on the check: king against
king, king and one bishop or one knight against king, or king and bishop against king and
bishop with the bishops found on squares of the same colour. -/
def insufficientMaterial (b : Board) : Bool :=
  decide (b.PieceCounts EMPTYP = 62) ||
  (decide (b.PieceCounts EMPTYP = 61) &&
    (decide (b.PieceCounts BSHP_W = 1) || decide (b.PieceCounts BSHP_B = 1))) ||
  (decide (b.PieceCounts EMPTYP = 61) &&
    (decide (b.PieceCounts KNGT_W = 1) || decide (b.PieceCounts KNGT_B = 1))) ||
  (decide (b.PieceCounts EMPTYP = 60) &&
    (decide (b.PieceCounts BSHP_W = 1) && decide (b.PieceCounts BSHP_B = 1)) &&
    decide ((bishopLoop b.Pieces.enum (false, false)).1 =
      (bishopLoop b.Pieces.enum (false, false)).2))

/-- The stalemate position of `TestStalemate`. -/
def stalemateFen : Str := bytes "6k1/b7/8/8/5p2/7p/7P/7K w - - 0 54"

/-- The same position with a half-move clock of 50. -/
def stalemateFiftyFen : Str := bytes "6k1/b7/8/8/5p2/7p/7P/7K w - - 50 54"

/-- The position of `TestPawnPromotion`. -/
def promotionFen : Str := bytes "6k1/P7/8/4b3/5p2/7p/7P/7K w - - 1 54"

/-- The pawn move a7 to a8 with promotion to a queen, as built in `TestPawnPromotion`. -/
def pawnA7A8Queen : Move := { mkMove PAWN 97 55 97 56 with Promote := QUEEN }

/-- The knight moves g1-f3, g8-f6, f3-g1, f6-g8, twice over. -/
def knightShuffle : List Move :=
  [mkMove KNIGHT 103 49 102 51, mkMove KNIGHT 103 56 102 54,
   mkMove KNIGHT 102 51 103 49, mkMove KNIGHT 102 54 103 56,
   mkMove KNIGHT 103 49 102 51, mkMove KNIGHT 103 56 102 54,
   mkMove KNIGHT 102 51 103 49, mkMove KNIGHT 102 54 103 56]

/-- The arrangement after `k` moves of `knightShuffle`: the white knight is away from
g1 after an odd number of moves in each round of four, the black knight away from g8
after the second and third. -/
def knightPieces (k : Nat) : List Piece :=
  if k % 4 = 0 then DefaultBoard
  else if k % 4 = 1 then (DefaultBoard.set 62 EMPTYP).set 45 KNGT_W
  else if k % 4 = 2 then (((DefaultBoard.set 62 EMPTYP).set 45 KNGT_W).set 6 EMPTYP).set 21 KNGT_B
  else (DefaultBoard.set 6 EMPTYP).set 21 KNGT_B

/-- The board after `k` moves of `knightShuffle`; the highlighted square is the target
of the last move. -/
def knightBoard (k : Nat) : Board :=
  { Pieces := knightPieces k, CastleRights := 15, CapturedPieces := [],
    HiglightSq := if k = 0 then 0 else if k % 4 = 1 then 45 else if k % 4 = 2 then 21
      else if k % 4 = 3 then 62 else 6 }

/-- The knight move number `i` (from 0) of the shuffle g1-f3, g8-f6, f3-g1, f6-g8 repeated
for ever. -/
def knightMove (i : Nat) : Move :=
  if i % 4 = 0 then mkMove KNIGHT 103 49 102 51
  else if i % 4 = 1 then mkMove KNIGHT 103 56 102 54
  else if i % 4 = 2 then mkMove KNIGHT 102 51 103 49
  else mkMove KNIGHT 102 54 103 56

/-- The default state after the first `k` moves of the knight shuffle, the status being
the initial one throughout. -/
def knightState (k : Nat) : GameState :=
  { CreateDefault with
    Board := knightBoard k,
    ActiveColor := if k % 2 = 0 then WHITE else BLACK,
    HalfMoveClock := (k : Int),
    FullMoveCount := ((k / 2 : Nat) : Int),
    Message := if k = 0 then [] else (knightMove (k - 1)).ToStr,
    MoveHistory := (List.range k).map knightMove,
    BoardHistory := (List.range k).map knightBoard }

/-- The state after nine moves of the knight shuffle, with the repetition draw as status. -/
def knightDrawState : GameState := { knightState 9 with Status := STATUS_DRAW_REPETITION }

/-- A state with an en-passant square, partial castling rights and non-zero counters. -/
def sampleState : GameState :=
  { CreateDefault with
    Board := { Board.CreateDefault with CastleRights := 6 },
    ActiveColor := BLACK, enPassantSq := 44, HalfMoveClock := 3, FullMoveCount := 17 }

/-- The moves of `moves` that match the descriptor `wantedMv` and that `ValidateMove`
accepts, in order. -/
def validMatches (fuel : Nat) (b : Board) (wantedMv : Move) (c : Color) (moves : List Move) :
    List Move :=
  moves.filter (fun m => m.Matches wantedMv && (b.ValidateMove fuel m c).sat (fun r => r.1))

/-- The list returned by `AllMoves`, for a board on which it returns (empty otherwise). -/
def movesOf (b : Board) (c : Color) : List Move :=
  match b.AllMoves c with
  | .ok l => l
  | _ => []

/-- The state left by `ParseAndExecuteAlgebraicNotation`, when it returns. -/
def stateAfterCommand (fuel : Nat) (gs : GameState) (cmd : Str) : GameState :=
  match gs.ParseAndExecuteAlgebraicNotation fuel cmd with
  | .ok r => r.1
  | _ => gs

/-- Position with white rooks on a1 and h1, the white king on e2 and the black king on e8. -/
def twoRooksBoard : Board :=
  boardOf [(4, KING_B), (52, KING_W), (56, ROOK_W), (63, ROOK_W)] 0

/-- The descriptor parsed from `Rd1`. -/
def rookToD1 : Move := { Piece := ROOK, TrgFile := 100, TrgRank := 49 }

/-- The descriptor parsed from `Nf3`. -/
def knightToF3 : Move := { Piece := KNIGHT, TrgFile := 102, TrgRank := 51 }

/-- The token alphabet: files a..h, ranks 1..8, 'x', '=', 'o', '-' and the piece letters. -/
def inAlphabet (c : Nat) : Prop :=
  (97 ≤ c ∧ c ≤ 104) ∨ (49 ≤ c ∧ c ≤ 56) ∨ c = 120 ∨ c = 61 ∨ c = 111 ∨ c = 45 ∨
    isPieceChar c = true

instance (c : Nat) : Decidable (inAlphabet c) := by unfold inAlphabet; infer_instance

/-- No white-space character of `strings.Fields` starts at any position of `w`. -/
def noSpace : Str → Bool
  | [] => true
  | c :: rest => decide (spaceWidth (c :: rest) = 0) && noSpace rest

/-- The text `s` is a decimal integer of value `x`: an optional sign `+` or `-`, then one
or more decimal digits of value `n`, with `x = n` (`x = -n` after `-`) in the range of a
Go int. -/
def denotes (s : Str) (x : Int) : Prop :=
  ∃ (digits : Str) (n : Nat), digits ≠ [] ∧ parseDigits digits 0 = some n ∧
    ((s = digits ∧ x = n) ∨ (s = 43 :: digits ∧ x = n) ∨ (s = 45 :: digits ∧ x = -(n : Int))) ∧
    isInt64 x

/-- FEN text whose board, colour, castling and en-passant fields are those that `ToFen`
writes for `gs`, followed by the given half-move and full-move fields. -/
def fenWith (gs : GameState) (half full : Str) : Str :=
  toFenLoop gs.Board.Pieces.enum 0 ++ 32 ::
    ([if gs.ActiveColor = WHITE then 119 else 98] ++ 32 ::
    (castleText gs.Board.CastleRights ++ 32 ::
    (enPassantText gs.enPassantSq ++ 32 :: (half ++ 32 :: full))))

/-- The start position with the byte `X` in place of the black e-pawn. -/
def unknownCharFen : Str := bytes "rnbqkbnr/ppppXppp/8/8/8/8/PPPPPPPP/RNBQKBNR w KQkq - 0 1"

/-- Sign of an integer: the normalised component of a direction. -/
def sgn (x : Int) : Int := if x > 0 then 1 else if x < 0 then -1 else 0

/-- Number of the square with the given file and rank bytes (file a is 97, rank 1 is 49):
a8 is 0, h8 is 7, a1 is 56 and h1 is 63. -/
def squareOf (file rank : Int) : Int := (file - 97) + (56 - rank) * 8

/-- The square `k` steps from the source of `mv` towards its target: file and rank each
move `k` steps in the direction of the target. -/
def Move.pathSquare (mv : Move) (k : Nat) : Int :=
  squareOf ((mv.SrcFile : Int) + (k : Int) * sgn mv.MoveDelta.1)
    ((mv.SrcRank : Int) + (k : Int) * sgn mv.MoveDelta.2)

/-- Number of steps from the source of `mv` to its target along a rank, file or diagonal. -/
def Move.pathLength (mv : Move) : Nat := max mv.MoveDelta.1.natAbs mv.MoveDelta.2.natAbs

/-- Source and target of `mv` lie on a common rank, file or diagonal. -/
def Move.onLine (mv : Move) : Prop :=
  mv.MoveDelta.1 = 0 ∨ mv.MoveDelta.2 = 0 ∨ mv.MoveDelta.1.natAbs = mv.MoveDelta.2.natAbs

instance (mv : Move) : Decidable mv.onLine := by unfold Move.onLine; infer_instance

/-- The square `sq` holds a piece (its type is not `NONE`). -/
def Board.occupied (b : Board) (sq : Int) : Prop := (b.Pieces.getD sq.toNat EMPTYP).Typ ≠ NONE

instance (b : Board) (sq : Int) : Decidable (b.occupied sq) := by
  unfold Board.occupied; infer_instance

/-- The rook move a1 to a3. -/
def rookA1A3 : Move := mkMove ROOK 97 49 97 51

/-- The pawn move e2 to d3. -/
def pawnE2D3 : Move := mkMove PAWN 101 50 100 51

/-- No piece arrangement occurs three times in the list of boards. -/
def noThreefold (hist : List Board) : Prop :=
  ∀ b ∈ hist, (hist.map (fun h => h.Pieces)).count b.Pieces < 3

instance (hist : List Board) : Decidable (noThreefold hist) := by
  unfold noThreefold; infer_instance

/-- The statuses that `UpdateStatus` assigns. -/
def assignedStatuses : List Status :=
  [STATUS_CHECKMATE_WHITE_WINS, STATUS_CHECKMATE_BLACK_WINS, STATUS_DRAW_STALEMATE,
   STATUS_DRAW_INSUFFICIENT, STATUS_DRAW_FIFTY_MOVES, STATUS_DRAW_REPETITION]

/-- The terminal statuses other than `STATUS_QUIT`: checkmates, timeouts and draws. -/
def terminalStatuses : List Status :=
  [STATUS_CHECKMATE_WHITE_WINS, STATUS_CHECKMATE_BLACK_WINS, STATUS_TIMEOUT_WHITE_WINS,
   STATUS_TIMEOUT_BLACK_WINS, STATUS_DRAW_INSUFFICIENT, STATUS_DRAW_STALEMATE,
   STATUS_DRAW_REPETITION, STATUS_DRAW_FIFTY_MOVES, STATUS_DRAW_AGREEMENT]

/-- The stalemate position with a half-move clock of 50, in a game that Black has already
won on time. -/
def timeoutFiftyState : GameState :=
  { loaded stalemateFiftyFen with Status := STATUS_TIMEOUT_BLACK_WINS }

/-- A state late in a game: Black to move, half-move clock 7, full-move count 30. -/
def countersState : GameState :=
  { CreateDefault with ActiveColor := BLACK, HalfMoveClock := 7, FullMoveCount := 30 }

/-- Home square of the king: e1 (60) for White, e8 (4) for Black. -/
def castleKingHome (white : Bool) : Nat := if white then 60 else 4

/-- Home square of the castling rook: h1 (63) or a1 (56) for White, h8 (7) or a8 (0) for
Black. -/
def castleRookHome (white short : Bool) : Nat :=
  if white then (if short then 63 else 56) else (if short then 7 else 0)

/-- Square of the king after castling: g1 (62) or c1 (58), g8 (6) or c8 (2). -/
def castleKingTarget (white short : Bool) : Nat :=
  if white then (if short then 62 else 58) else (if short then 6 else 2)

/-- Square of the rook after castling: f1 (61) or d1 (59), f8 (5) or d8 (3). -/
def castleRookTarget (white short : Bool) : Nat :=
  if white then (if short then 61 else 59) else (if short then 5 else 3)

/-- The piece of type `t` of the given side. -/
def sidePiece (t : PType) (white : Bool) : Piece := ⟨t, if white then WHITE else BLACK⟩

/-- A position in which all four castling moves are possible. -/
def castleBoard : Board :=
  boardOf [(0, ROOK_B), (4, KING_B), (7, ROOK_B), (56, ROOK_W), (60, KING_W), (63, ROOK_W)] 15

/-- The material on the board: the pieces on its non-empty squares, in square order. -/
def Board.material (b : Board) : List Piece := b.Pieces.filter (fun p => decide (p ≠ EMPTYP))

/-- Position with the kings on e1 and e8 and nothing else, White to move. -/
def kingsOnlyState : GameState :=
  { CreateDefault with Board := boardOf [(4, KING_B), (60, KING_W)] 0 }

/-- The list returned by `AllValidMoves`, for a board on which it returns (empty
otherwise). -/
def validMovesOf (fuel : Nat) (b : Board) (c : Color) : List Move :=
  match b.AllValidMoves fuel c with
  | .ok l => l
  | _ => []

/-- Position after White's pawn advance e2-e4 next to the black pawn on d4: en-passant
target e3, Black to move. -/
def enPassantFen : Str := bytes "4k3/8/8/8/3pP3/8/8/4K3 b - e3 0 3"

/-- The en-passant capture d4 takes e3. -/
def pawnD4E3 : Move := mkMove PAWN 100 52 101 51

/-- Text of one rank, read from the left with `e` empty squares pending: a piece is written
as its letter, preceded by the digit of the pending run of empty squares; a run still
pending at the end of the rank is written as its digit.  Every maximal run of empty
squares thus gives exactly one digit. -/
def rankText : List Piece → Nat → Str
  | [], e => if e = 0 then [] else [48 + e]
  | p :: rest, e =>
    if p.Typ = NONE then rankText rest (e + 1)
    else (if e = 0 then [] else [48 + e]) ++ ToFenChar p :: rankText rest 0

/-- The first `n` ranks of a list of squares: successive groups of eight squares. -/
def ranksOf : Nat → List Piece → List (List Piece)
  | 0, _ => []
  | n + 1, ps => ps.take 8 :: ranksOf n (ps.drop 8)

/-- The texts of a list joined by the separator `sep`. -/
def joinWith (sep : Str) : List Str → Str
  | [] => []
  | [x] => x
  | x :: y :: rest => x ++ sep ++ joinWith sep (y :: rest)

/-- Board field of a FEN text: the texts of the eight ranks joined by `/`. -/
def boardText (ps : List Piece) : Str :=
  joinWith [47] ((ranksOf 8 ps).map (fun r => rankText r 0))

/-- Castling field of a FEN text: the letters of `KQkq` whose rights bit is set, in this
order, or `-` when none of the four bits is set. -/
def castleField (rights : Nat) : Str :=
  if ([(0, 75), (1, 81), (2, 107), (3, 113)].filter (fun x => rights.testBit x.1)) = [] then [45]
  else ([(0, 75), (1, 81), (2, 107), (3, 113)].filter (fun x => rights.testBit x.1)).map
    (fun x => x.2)

/-- En-passant field of a FEN text: the name of the square (file letter, rank digit), or
`-` when the number is not that of a square. -/
def epField (sq : Int) : Str :=
  if 0 ≤ sq ∧ sq < 64 then [97 + (sq % 8).toNat, 56 - (sq / 8).toNat] else [45]

/-- Number of squares a rank text stands for: a digit `1..8` counts as that many squares,
any other byte as one. -/
def squaresOf : Str → Nat
  | [] => 0
  | c :: rest => (if 49 ≤ c ∧ c ≤ 56 then c - 48 else 1) + squaresOf rest

/-- No two neighbouring bytes of the text are both digits. -/
def noAdjacentDigits : Str → Bool
  | a :: b :: rest =>
    !(decide (48 ≤ a ∧ a ≤ 57) && decide (48 ≤ b ∧ b ≤ 57)) && noAdjacentDigits (b :: rest)
  | _ => true

/-- A square of the board: file byte in `a..h`, rank byte in `1..8`. -/
def onBoard (file rank : Nat) : Prop := 97 ≤ file ∧ file ≤ 104 ∧ 49 ≤ rank ∧ rank ≤ 56

instance (file rank : Nat) : Decidable (onBoard file rank) := by unfold onBoard; infer_instance

/-- The forward direction of the pawns generated for colour `c`. -/
def forward (c : Color) : Int := if c = BLACK then -1 else 1

/-- The displacements of a slider: a positive multiple `k ≤ 7` of one of its directions. -/
def slideStep (dirs : List (Int × Int)) (d : Int × Int) : Prop :=
  ∃ k : Int, 1 ≤ k ∧ k ≤ 7 ∧ ∃ dir ∈ dirs, d = (dir.1 * k, dir.2 * k)

/-- The displacements of the piece types, in the words of the specification: an L-step
for a knight, a positive multiple `k ≤ 7` of a rook, bishop or queen direction for a
slider, one forward step, two forward steps or one forward-diagonal step for a pawn, and
an adjacent step or the two-file castling step (from e1 for White, from e8 otherwise) for
a king.  No other piece type has a displacement. -/
def legalDisplacement (c : Color) (mv : Move) : Prop :=
  let d := mv.MoveDelta
  if mv.Piece = KNIGHT then
    d ∈ [((1 : Int), (2 : Int)), (1, -2), (-1, 2), (-1, -2), (2, 1), (2, -1), (-2, 1), (-2, -1)]
  else if mv.Piece = ROOK then slideStep [(0, 1), (0, -1), (1, 0), (-1, 0)] d
  else if mv.Piece = BISHOP then slideStep [(1, 1), (1, -1), (-1, 1), (-1, -1)] d
  else if mv.Piece = QUEEN then
    slideStep [(1, 1), (1, -1), (-1, 1), (-1, -1), (0, 1), (0, -1), (1, 0), (-1, 0)] d
  else if mv.Piece = PAWN then
    d = (0, forward c) ∨ d = (0, 2 * forward c) ∨ d = (-1, forward c) ∨ d = (1, forward c)
  else if mv.Piece = KING then
    (max d.1.natAbs d.2.natAbs = 1) ∨
    ((d = (2, 0) ∨ d = (-2, 0)) ∧ mv.SrcFile = 101 ∧ mv.SrcRank = if c = WHITE then 49 else 56)
  else False

/-- Position with a white knight on a1, another on a4, and the two kings. -/
def knightEdgeBoard : Board :=
  boardOf [(4, KING_B), (32, KNGT_W), (56, KNGT_W), (60, KING_W)] 0

/-- Boards reached by play from `b` with `c` to move: each move of the list has to be one
of `AllMoves` for the side to move and be accepted by `ValidateMove`; it is applied as
`UpdateStateAfterMove` applies it to the board (`UpdateBoardWithMove`, the highlight,
`UpdateCastleRightsWithMove`) and the turn passes to the other colour.  The result is
`none` when a move is not generated, is rejected, or a call does not return. -/
def playBoard (fuel : Nat) : Board → Color → List Move → Option Board
  | b, _, [] => some b
  | b, c, mv :: rest =>
    if mv ∈ movesOf b c ∧ (b.ValidateMove fuel mv c).sat (fun r => r.1) = true then
      match b.UpdateBoardWithMove mv with
      | .ok b1 =>
        playBoard fuel (({ b1 with HiglightSq := mv.TrgSqNum } : Board).UpdateCastleRightsWithMove
          mv c) c.Opposite rest
      | _ => none
    else none

/-- The moves 1. d4 d5 2. Bf4 Bf5 3. Qd3 Qd6: c1 and d1 are vacated, the knight stays
on b1. -/
def queenSideOpening : List Move :=
  [mkMove PAWN 100 50 100 52, mkMove PAWN 100 55 100 53,
   mkMove BISHOP 99 49 102 52, mkMove BISHOP 99 56 102 53,
   mkMove QUEEN 100 49 100 51, mkMove QUEEN 100 56 100 54]

/-- The moves 1. Nf3 Nf6 2. g3 Ng4 3. Bg2 Nxf2 4. a3 Nxh1 5. a4 Nxg3: the rook on h1
is taken without ever having moved, and h1, g1 and f1 are left empty. -/
def rookLossOpening : List Move :=
  [mkMove KNIGHT 103 49 102 51, mkMove KNIGHT 103 56 102 54,
   mkMove PAWN 103 50 103 51, mkMove KNIGHT 102 54 103 52,
   mkMove BISHOP 102 49 103 50, { mkMove KNIGHT 103 52 102 50 with Capture := true },
   mkMove PAWN 97 50 97 51, { mkMove KNIGHT 102 50 104 49 with Capture := true },
   mkMove PAWN 97 51 97 52, { mkMove KNIGHT 104 49 103 51 with Capture := true }]

/-- The king move e1-c1. -/
def kingE1C1 : Move := mkMove KING 101 49 99 49

/-- The king move e1-g1. -/
def kingE1G1 : Move := mkMove KING 101 49 103 49

/-- Chess definition of attack, in the words of the specification: the king of colour `c`
on square `k` is attacked from square `s` when `s` holds a piece of the other colour that
is a pawn with `k` one step diagonally in front of it (towards rank 8 for a white pawn,
towards rank 1 for a black one), a knight an L-step away, a rook, bishop or queen on a
common line of its kind with only empty squares between, or the king on an adjacent
square.  Files run with the square number modulo 8, ranks against the square number. -/
def attackedFrom (b : Board) (c : Color) (k s : Nat) : Bool :=
  let p := b.Pieces.getD s EMPTYP
  let dx : Int := ((k % 8 : Nat) : Int) - ((s % 8 : Nat) : Int)
  let dy : Int := ((s / 8 : Nat) : Int) - ((k / 8 : Nat) : Int)
  let n : Nat := max dx.natAbs dy.natAbs
  let free : Bool := (List.range (n - 1)).all (fun j =>
    decide ((b.Pieces.getD ((s : Int) + ((j : Int) + 1) * (sgn dx - 8 * sgn dy)).toNat EMPTYP).Typ
      = NONE))
  decide (p.Color = c.Opposite) &&
  ((decide (p.Typ = PAWN) && decide (dx.natAbs = 1) &&
      decide (dy = if p.Color = BLACK then -1 else 1)) ||
   (decide (p.Typ = KNIGHT) &&
      decide ((dx.natAbs = 1 ∧ dy.natAbs = 2) ∨ (dx.natAbs = 2 ∧ dy.natAbs = 1))) ||
   (decide (p.Typ = ROOK ∨ p.Typ = QUEEN) && decide ((dx = 0 ∨ dy = 0) ∧ 0 < n) && free) ||
   (decide (p.Typ = BISHOP ∨ p.Typ = QUEEN) && decide (dx.natAbs = dy.natAbs ∧ 0 < n) && free) ||
   (decide (p.Typ = KING) && decide (n = 1)))

/-- The king of colour `c` on square `k` is attacked by some piece of the other colour. -/
def attacked (b : Board) (c : Color) (k : Nat) : Bool :=
  (List.range 64).any (attackedFrom b c k)

/-- Position with the white rook on a1, the white knight on b1, the black king on c1 and
the white king on e1; White may still castle long, Black is to move. -/
def castleCheckFen : Str := bytes "8/8/8/8/8/8/8/RNk1K3 b Q - 0 40"

/-- The moves 1. Nf3 h5 2. Ng5 Nc6 3. Nxf7 Nb8 4. Nxh8 Nc6 5. f3 Nb8 6. Kf2 Nc6 7. Kg3 Nb8
8. Kh4 Nc6 9. Kxh5 Nb8 10. Kg6 e6 11. Kh7 Nc6 12. Kxg8 Be7: the white king walks to g8
while the black king stays on e8 and the rook of h8 is taken without having moved. -/
def kingWalk : List Move :=
  [mkMove KNIGHT 103 49 102 51, mkMove PAWN 104 55 104 53,
   mkMove KNIGHT 102 51 103 53, mkMove KNIGHT 98 56 99 54,
   { mkMove KNIGHT 103 53 102 55 with Capture := true }, mkMove KNIGHT 99 54 98 56,
   { mkMove KNIGHT 102 55 104 56 with Capture := true }, mkMove KNIGHT 98 56 99 54,
   mkMove PAWN 102 50 102 51, mkMove KNIGHT 99 54 98 56,
   mkMove KING 101 49 102 50, mkMove KNIGHT 98 56 99 54,
   mkMove KING 102 50 103 51, mkMove KNIGHT 99 54 98 56,
   mkMove KING 103 51 104 52, mkMove KNIGHT 98 56 99 54,
   { mkMove KING 104 52 104 53 with Capture := true }, mkMove KNIGHT 99 54 98 56,
   mkMove KING 104 53 103 54, mkMove PAWN 101 55 101 54,
   mkMove KING 103 54 104 55, mkMove KNIGHT 98 56 99 54,
   { mkMove KING 104 55 103 56 with Capture := true }, mkMove BISHOP 102 56 101 55]

/-- The king move e8-g8. -/
def kingE8G8 : Move := mkMove KING 101 56 103 56

/-! ## Basic facts about `Res` -/

@[simp] theorem Res.bind_eq {α β : Type} (x : Res α) (f : α → Res β) :
    (x >>= f) = Res.bind x f := rfl

@[simp] theorem Res.pure_eq {α : Type} (a : α) : (pure a : Res α) = Res.ok a := rfl

@[simp] theorem Res.ok_bind {α β : Type} (a : α) (f : α → Res β) :
    Res.bind (Res.ok a) f = f a := rfl

@[simp] theorem Res.panic_bind {α β : Type} (f : α → Res β) :
    Res.bind (Res.panic : Res α) f = Res.panic := rfl

@[simp] theorem Res.nofuel_bind {α β : Type} (f : α → Res β) :
    Res.bind (Res.nofuel : Res α) f = Res.nofuel := rfl

theorem Res.bind_eq_ok {α β : Type} {x : Res α} {f : α → Res β} {b : β} :
    Res.bind x f = Res.ok b ↔ ∃ a, x = Res.ok a ∧ f a = Res.ok b := by
  cases x <;> simp

/-! ## The recursion between `ValidateMove` and `IsInCheck` is one level deep -/

theorem findKingLoop_spec (c : Color) (l : List Piece) (n : Nat) :
    findKingLoop c (List.enumFrom n l) = -1 ∨
    ∃ i : Nat, findKingLoop c (List.enumFrom n l) = (i : Int) ∧ n ≤ i ∧ i < n + l.length ∧
      (l.getD (i - n) EMPTYP).Typ = KING ∧ (l.getD (i - n) EMPTYP).Color = c := by
  induction l generalizing n with
  | nil => left; rfl
  | cons p ps ih =>
    simp only [List.enumFrom_cons, findKingLoop]
    by_cases h : p.Typ = KING ∧ p.Color = c
    · right
      refine ⟨n, ?_, le_refl _, by simp, ?_, ?_⟩
      · simp [h]
      · simpa using h.1
      · simpa using h.2
    · rw [if_neg h]
      rcases ih (n + 1) with h1 | ⟨i, h1, h2, h3, h4, h5⟩
      · left; exact h1
      · right
        refine ⟨i, h1, by omega, by simp; omega, ?_, ?_⟩
        · have : i - n = (i - (n + 1)) + 1 := by omega
          rw [this]; simpa using h4
        · have : i - n = (i - (n + 1)) + 1 := by omega
          rw [this]; simpa using h5

theorem FindKing_holds_king {b : Board} {c : Color} {k : Int} (h : b.FindKing c = Res.ok k)
    {p : Piece} (hp : b.pieceAt k = Res.ok p) : p.Typ = KING := by
  unfold Board.FindKing at h
  rcases findKingLoop_spec c b.Pieces 0 with h1 | ⟨i, h1, _, _, h4, _⟩
  · simp [List.enum, h1] at h
  · simp only [List.enum, h1] at h
    split at h
    · cases h
    · injection h with h
      subst h
      unfold Board.pieceAt at hp
      split at hp
      · injection hp with hp
        subst hp
        simpa using h4
      · cases hp

theorem validateKingSafety_king (ic1 ic2 : Board → Color → Res Bool) (b : Board) (mv : Move)
    (c : Color) (r : Bool × Str) (h : ∀ p, b.pieceAt mv.TrgSqNum = Res.ok p → p.Typ = KING) :
    validateKingSafety ic1 b mv c r = validateKingSafety ic2 b mv c r := by
  unfold validateKingSafety
  by_cases hr : r.1 = true
  · simp only [hr, if_true]
    cases hp : b.pieceAt mv.TrgSqNum with
    | ok p => simp [h p hp]
    | panic => rfl
    | nofuel => rfl
  · simp [hr]

theorem ValidateMoveWith_king (ic1 ic2 : Board → Color → Res Bool) (b : Board) (mv : Move)
    (c : Color) (h : ∀ p, b.pieceAt mv.TrgSqNum = Res.ok p → p.Typ = KING) :
    ValidateMoveWith ic1 b mv c = ValidateMoveWith ic2 b mv c := by
  unfold ValidateMoveWith
  congr 1
  funext r
  exact validateKingSafety_king ic1 ic2 b mv c r h

theorem anyAttack_congr (v1 v2 : Board → Move → Color → Res (Bool × Str)) (b : Board)
    (e : Color) (k : Int) (l : List Move)
    (h : ∀ mv ∈ l, mv.TrgSqNum = k → v1 b mv e = v2 b mv e) :
    anyAttack v1 b e k l = anyAttack v2 b e k l := by
  induction l with
  | nil => rfl
  | cons mv rest ih =>
    have ih1 := ih (fun m hm => h m (List.mem_cons_of_mem _ hm))
    unfold anyAttack
    by_cases hk : mv.TrgSqNum = k
    · simp only [hk, if_true]
      rw [h mv (List.mem_cons_self _ _) hk, ih1]
    · simp only [hk, if_false]
      exact ih1

/-- The check detection never needs recursion budget: the moves it validates all
target the king's square, for which `ValidateMove` skips its last step. -/
theorem IsInCheck_fuel (n m : Nat) (b : Board) (c : Color) :
    b.IsInCheck n c = b.IsInCheck m c := by
  unfold Board.IsInCheck IsInCheckWith
  simp only [Res.bind_eq]
  cases hm : b.AllMoves c.Opposite with
  | ok moves =>
    simp only [Res.ok_bind]
    cases hk : b.FindKing c with
    | ok k =>
      simp only [Res.ok_bind]
      apply anyAttack_congr
      intro mv _ hmv
      have hking : ∀ p, b.pieceAt mv.TrgSqNum = Res.ok p → p.Typ = KING := by
        intro p hp
        rw [hmv] at hp
        exact FindKing_holds_king hk hp
      cases n <;> cases m <;> exact ValidateMoveWith_king _ _ b mv _ hking
    | panic => rfl
    | nofuel => rfl
  | panic => rfl
  | nofuel => rfl

/-- One level of recursion budget is all `ValidateMove` ever uses. -/
theorem ValidateMove_fuel (n m : Nat) (b : Board) (mv : Move) (c : Color) :
    b.ValidateMove (n + 1) mv c = b.ValidateMove (m + 1) mv c := by
  show ValidateMoveWith (IsInCheckWith (Board.ValidateMove n)) b mv c =
    ValidateMoveWith (IsInCheckWith (Board.ValidateMove m)) b mv c
  unfold ValidateMoveWith
  congr 1
  funext r
  unfold validateKingSafety
  have e : ∀ b1 : Board, IsInCheckWith (Board.ValidateMove n) b1 c =
      IsInCheckWith (Board.ValidateMove m) b1 c := fun b1 => IsInCheck_fuel n m b1 c
  simp only [e]

theorem Res.sat_iff {α : Type} {p : α → Bool} {x : Res α} :
    x.sat p = true ↔ ∃ a, x = Res.ok a ∧ p a = true := by
  cases x <;> simp [Res.sat]

theorem validLoop_fuel (n m : Nat) (b : Board) (c : Color) (l : List Move) :
    validLoop (n + 1) b c l = validLoop (m + 1) b c l := by
  induction l with
  | nil => rfl
  | cons mv rest ih => simp only [validLoop, ih, ValidateMove_fuel n m]

theorem AllValidMoves_fuel (n m : Nat) (b : Board) (c : Color) :
    b.AllValidMoves (n + 1) c = b.AllValidMoves (m + 1) c := by
  unfold Board.AllValidMoves
  simp only [validLoop_fuel n m]

theorem validLoop_mem {fuel : Nat} {b : Board} {c : Color} {l mvs : List Move} {mv : Move}
    (h : validLoop fuel b c l = Res.ok mvs) (hm : mv ∈ mvs) :
    mv ∈ l ∧ ∃ msg, b.ValidateMove fuel mv c = Res.ok (true, msg) := by
  induction l generalizing mvs with
  | nil =>
    simp only [validLoop] at h
    injection h with h
    subst h
    cases hm
  | cons m rest ih =>
    simp only [validLoop, Res.bind_eq, Res.pure_eq] at h
    obtain ⟨r, hr, h⟩ := Res.bind_eq_ok.mp h
    obtain ⟨tl, htl, h⟩ := Res.bind_eq_ok.mp h
    injection h with h
    by_cases hr1 : r.1 = true
    · rw [if_pos hr1] at h
      subst h
      rcases List.mem_cons.mp hm with hm | hm
      · subst hm
        refine ⟨List.mem_cons_self _ _, r.2, ?_⟩
        rw [hr, ← hr1]
      · obtain ⟨h1, h2⟩ := ih htl hm
        exact ⟨List.mem_cons_of_mem _ h1, h2⟩
    · rw [if_neg hr1] at h
      subst h
      obtain ⟨h1, h2⟩ := ih htl hm
      exact ⟨List.mem_cons_of_mem _ h1, h2⟩

theorem ValidateMove_accepts_safe {fuel : Nat} {b : Board} {mv : Move} {c : Color} {msg : Str}
    (h : b.ValidateMove (fuel + 1) mv c = Res.ok (true, msg))
    (hk : capturesKing b mv = false) :
    ∃ b1, b.UpdateBoardWithMove mv = Res.ok b1 ∧ b1.IsInCheck fuel c = Res.ok false := by
  have h : ValidateMoveWith (IsInCheckWith (Board.ValidateMove fuel)) b mv c =
      Res.ok (true, msg) := h
  unfold ValidateMoveWith at h
  obtain ⟨r, _, h⟩ := Res.bind_eq_ok.mp h
  unfold validateKingSafety at h
  by_cases hr1 : r.1 = true
  · simp only [hr1, if_true, Res.bind_eq, Res.pure_eq] at h
    obtain ⟨pt, hpt, h⟩ := Res.bind_eq_ok.mp h
    have hnk : pt.Typ ≠ KING := by
      simpa [capturesKing, hpt, Res.sat] using hk
    rw [if_pos hnk] at h
    obtain ⟨b1, hb1, h⟩ := Res.bind_eq_ok.mp h
    obtain ⟨chk, hchk, h⟩ := Res.bind_eq_ok.mp h
    refine ⟨b1, hb1, ?_⟩
    cases chk with
    | true => simp at h
    | false => exact hchk
  · simp only [hr1] at h
    injection h with h
    rw [h] at hr1
    exact absurd rfl hr1

/-- C1 (amended): every move in `AllValidMoves(c)` whose target square does not hold a
king is king-safe: `UpdateBoardWithMove` applies it and, on the resulting board,
`IsInCheck(c)` is false. -/
theorem C1_valid_moves_are_king_safe (fuel : Nat) (b : Board) (c : Color) (mvs : List Move)
    (mv : Move) (hall : b.AllValidMoves (fuel + 1) c = Res.ok mvs) (hmem : mv ∈ mvs)
    (hk : capturesKing b mv = false) :
    ∃ b1, b.UpdateBoardWithMove mv = Res.ok b1 ∧ b1.IsInCheck (fuel + 1) c = Res.ok false := by
  unfold Board.AllValidMoves at hall
  obtain ⟨l, _, hall⟩ := Res.bind_eq_ok.mp hall
  obtain ⟨_, msg, hv⟩ := validLoop_mem hall hmem
  obtain ⟨b1, h1, h2⟩ := ValidateMove_accepts_safe hv hk
  exact ⟨b1, h1, by rw [IsInCheck_fuel (fuel + 1) fuel]; exact h2⟩

set_option maxRecDepth 100000 in
/-- C1, instance: on the default board the pawn move e2-e4 is in the legal move list
of White and leaves the white king safe. -/
theorem C1_witness :
    ∃ b1, Board.CreateDefault.UpdateBoardWithMove pawnE2E4 = Res.ok b1 ∧
      b1.IsInCheck 1 WHITE = Res.ok false :=
  match h : Board.CreateDefault.AllValidMoves 1 WHITE with
  | .ok mvs =>
    C1_valid_moves_are_king_safe 0 Board.CreateDefault WHITE mvs pawnE2E4 h
      (by
        have e : (Board.CreateDefault.AllValidMoves 1 WHITE).sat
            (fun l => decide (pawnE2E4 ∈ l)) = true := by decide!
        rw [h] at e
        simpa [Res.sat] using e)
      (by decide!)
  | .panic => absurd h (by decide!)
  | .nofuel => absurd h (by decide!)

set_option maxRecDepth 100000 in
/-- C1, as stated, fails: on a board with exactly one king of each colour the rook move
a1-a8, which takes the black king, is in `AllValidMoves(WHITE)`, and on the board
obtained by applying it `IsInCheck(WHITE)` is true. -/
theorem C1_counterexample :
    kingCaptureBoard.Pieces.length = 64 ∧
    kingCaptureBoard.Pieces.count KING_W = 1 ∧
    (kingCaptureBoard.Pieces.filter (fun p => decide (p.Typ = KING))).length = 2 ∧
    kingCaptureBoard.Pieces.count KING_B = 1 ∧
    (kingCaptureBoard.AllValidMoves 1 WHITE).sat (fun mvs => decide (rookA1A8 ∈ mvs)) = true ∧
    (kingCaptureBoard.UpdateBoardWithMove rookA1A8).bind (fun b1 => b1.IsInCheck 1 WHITE) =
      Res.ok true := by
  decide!

set_option maxRecDepth 100000 in
/-- C2: on the default board `AllValidMoves(WHITE)` holds exactly 20 moves, 16 of pawns
and 4 of knights, and no king, rook, bishop, queen or castling move. -/
theorem C2_default_board_twenty_moves (fuel : Nat) :
    ∃ mvs, Board.CreateDefault.AllValidMoves (fuel + 1) WHITE = Res.ok mvs ∧
      mvs.length = 20 ∧
      (mvs.filter (fun m => decide (m.Piece = PAWN))).length = 16 ∧
      (mvs.filter (fun m => decide (m.Piece = KNIGHT))).length = 4 ∧
      ∀ m ∈ mvs, m.Piece ≠ KING ∧ m.Piece ≠ ROOK ∧ m.Piece ≠ BISHOP ∧ m.Piece ≠ QUEEN ∧
        m.IsShortCastle = false ∧ m.IsLongCastle = false := by
  rw [AllValidMoves_fuel fuel 0]
  have e : (Board.CreateDefault.AllValidMoves (0 + 1) WHITE).sat (fun mvs =>
      decide (mvs.length = 20) &&
      decide ((mvs.filter (fun m => decide (m.Piece = PAWN))).length = 16) &&
      decide ((mvs.filter (fun m => decide (m.Piece = KNIGHT))).length = 4) &&
      mvs.all (fun m => decide (m.Piece ≠ KING ∧ m.Piece ≠ ROOK ∧ m.Piece ≠ BISHOP ∧
        m.Piece ≠ QUEEN ∧ m.IsShortCastle = false ∧ m.IsLongCastle = false))) = true := by
    decide!
  obtain ⟨mvs, h, hp⟩ := Res.sat_iff.mp e
  simp only [Bool.and_eq_true, decide_eq_true_eq, List.all_eq_true] at hp
  exact ⟨mvs, h, hp.1.1.1, hp.1.1.2, hp.1.2, hp.2⟩

/-! ## The FEN codec: decoding an encoded state -/

theorem fmtD_digit (e : Nat) (h1 : 1 ≤ e) (h8 : e ≤ 8) : fmtD (e : Int) = [48 + e] := by
  interval_cases e <;> rfl

theorem loadBoardLoop_digit (e : Nat) (h8 : e ≤ 8) (rest : Str) (idx : Int) (b : List Piece) :
    loadBoardLoop ((if (e : Int) > 0 then fmtD (e : Int) else []) ++ rest) idx b =
      loadBoardLoop rest (idx + (e : Int)) b := by
  rcases Nat.eq_zero_or_pos e with h0 | h1
  · subst h0; simp
  · have hpos : (e : Int) > 0 := by exact_mod_cast h1
    rw [if_pos hpos, fmtD_digit e h1 h8]
    have hb : ((bsub (48 + e) 49 : Nat) : Int) + 1 = (e : Int) := by
      have : bsub (48 + e) 49 = e - 1 := by unfold bsub; omega
      rw [this]; omega
    have h32 : ¬ (48 + e = 32) := by omega
    have hr : 48 + e ≥ 49 ∧ 48 + e ≤ 56 := by omega
    simp only [List.singleton_append, loadBoardLoop, if_neg h32, if_pos hr]
    rw [add_assoc, hb]
    rfl

theorem loadBoardLoop_piece (p : Piece) (hp : p ∈ colouredPieces) (rest : Str) (idx : Nat)
    (h : idx < 64) (b : List Piece) :
    loadBoardLoop (fmtC (ToFenChar p) ++ rest) (idx : Int) b =
      loadBoardLoop rest ((idx + 1 : Nat) : Int) (b.set idx p) := by
  simp only [colouredPieces, List.mem_cons, List.mem_singleton, List.not_mem_nil, or_false] at hp
  have hidx : (idx : Int) < 64 := by exact_mod_cast h
  rcases hp with h | h | h | h | h | h | h | h | h | h | h | h <;> subst h <;>
    simp [loadBoardLoop, fmtC, ToFenChar, FromFenChar, hidx, PAWN_W, PAWN_B, ROOK_W, ROOK_B, KNGT_W, KNGT_B, BSHP_W, BSHP_B, QUEN_W, QUEN_B, KING_W, KING_B, PAWN, ROOK, KNIGHT, BISHOP, QUEEN, KING, WHITE, BLACK]

theorem replicate_split (pre : List Piece) (i : Nat) (hi : i < 64) :
    pre ++ List.replicate (64 - i) EMPTYP =
      (pre ++ [EMPTYP]) ++ List.replicate (64 - (i + 1)) EMPTYP := by
  have : 64 - i = (64 - (i + 1)) + 1 := by omega
  rw [this, List.replicate_succ]
  simp

theorem set_split (pre : List Piece) (i : Nat) (hl : pre.length = i) (hi : i < 64) (p : Piece) :
    (pre ++ List.replicate (64 - i) EMPTYP).set i p =
      (pre ++ [p]) ++ List.replicate (64 - (i + 1)) EMPTYP := by
  have : 64 - i = (64 - (i + 1)) + 1 := by omega
  rw [this, List.replicate_succ]
  subst hl
  simp

theorem validSquare_empty {p : Piece} (hv : validSquare p) (h : p.Typ = NONE) : p = EMPTYP := by
  rcases hv with h1 | h1
  · exact h1
  · simp only [colouredPieces, List.mem_cons, List.mem_singleton, List.not_mem_nil, or_false] at h1
    rcases h1 with h | h | h | h | h | h | h | h | h | h | h | h <;> subst h <;>
      simp [PAWN_W, PAWN_B, ROOK_W, ROOK_B, KNGT_W, KNGT_B, BSHP_W, BSHP_B, QUEN_W, QUEN_B,
        KING_W, KING_B, PAWN, ROOK, KNIGHT, BISHOP, QUEEN, KING, NONE] at h

theorem validSquare_coloured {p : Piece} (hv : validSquare p) (h : ¬ p.Typ = NONE) :
    p ∈ colouredPieces := by
  rcases hv with h1 | h1
  · subst h1; exact absurd rfl h
  · exact h1

theorem toFenLoop_cons_nat (i : Nat) (p : Piece) (rest : List (Nat × Piece)) (e : Nat) :
    toFenLoop ((i, p) :: rest) (e : Int) =
      (if i > 0 ∧ i % 8 = 0 then (if (e : Int) > 0 then fmtD (e : Int) else []) ++ [47] else []) ++
      (if p.Typ = NONE then
        toFenLoop rest (((if i > 0 ∧ i % 8 = 0 then 0 else e) + 1 : Nat) : Int)
       else
        (if (((if i > 0 ∧ i % 8 = 0 then 0 else e) : Nat) : Int) > 0
          then fmtD (((if i > 0 ∧ i % 8 = 0 then 0 else e) : Nat) : Int) else []) ++
        fmtC (ToFenChar p) ++ toFenLoop rest ((0 : Nat) : Int)) := by
  have hb : bytes "/" = [47] := rfl
  rcases Nat.eq_zero_or_pos e with h0 | h1
  · subst h0
    by_cases hflush : i > 0 ∧ i % 8 = 0 <;> by_cases hty : p.Typ = NONE <;>
      simp [toFenLoop, hflush, hty, hb]
  · have hpos : (e : Int) > 0 := by exact_mod_cast h1
    by_cases hflush : i > 0 ∧ i % 8 = 0 <;> by_cases hty : p.Typ = NONE <;>
      simp [toFenLoop, hflush, hty, hb, hpos]

theorem loadBoardLoop_toFenLoop (ps : List Piece) :
    ∀ (i e : Nat) (pre : List Piece) (tl : Str),
      (∀ p ∈ ps, validSquare p) → pre.length = i → i + ps.length = 64 → e ≤ i → e ≤ 8 →
      (i % 8 ≠ 0 ∨ i = 0 → e ≤ i % 8) →
      loadBoardLoop (toFenLoop (List.enumFrom i ps) (e : Int) ++ 32 :: tl) ((i : Int) - (e : Int))
        (pre ++ List.replicate (64 - i) EMPTYP) = Res.ok (pre ++ ps, 32 :: tl) := by
  induction ps with
  | nil =>
    intro i e pre tl _ hl hi _ h8 _
    simp only [List.enumFrom_nil, toFenLoop]
    rw [loadBoardLoop_digit e h8]
    have : 64 - i = 0 := by simp at hi; omega
    simp [this, loadBoardLoop]
  | cons p ps ih =>
    intro i e pre tl hv hl hi hei h8 hinv
    have hi64 : i < 64 := by simp at hi; omega
    have hvp : validSquare p := hv p (List.mem_cons_self _ _)
    have hvps : ∀ q ∈ ps, validSquare q := fun q hq => hv q (List.mem_cons_of_mem _ hq)
    have hlen : i + 1 + ps.length = 64 := by simp at hi; omega
    rw [List.enumFrom_cons, toFenLoop_cons_nat]
    -- the pending count once a new rank has been started
    generalize he1 : (if i > 0 ∧ i % 8 = 0 then 0 else e) = e1
    have he1i : e1 ≤ i := by rw [← he1]; split <;> omega
    have he18 : e1 ≤ 8 := by rw [← he1]; split <;> omega
    have he1inv : e1 ≤ i % 8 := by
      rw [← he1]; split
      · omega
      · rename_i hn
        apply hinv
        by_cases h0 : i = 0
        · right; exact h0
        · left; intro h8'; exact hn ⟨Nat.pos_of_ne_zero h0, h8'⟩
    -- the parser after the separator
    have hsep : ∀ (rest : Str) (b : List Piece),
        loadBoardLoop ((if i > 0 ∧ i % 8 = 0
          then (if (e : Int) > 0 then fmtD (e : Int) else []) ++ [47] else []) ++ rest)
          ((i : Int) - (e : Int)) b = loadBoardLoop rest ((i : Int) - (e1 : Int)) b := by
      intro rest b
      by_cases hflush : i > 0 ∧ i % 8 = 0
      · rw [if_pos hflush, List.append_assoc, loadBoardLoop_digit e h8]
        rw [if_pos hflush] at he1
        subst he1
        simp [loadBoardLoop]
      · rw [if_neg hflush]
        rw [if_neg hflush] at he1
        subst he1
        rfl
    rw [List.append_assoc, hsep]
    by_cases hty : p.Typ = NONE
    · have hp : p = EMPTYP := validSquare_empty hvp hty
      rw [if_pos hty, replicate_split pre i hi64]
      have hidx : (i : Int) - (e1 : Int) = ((i + 1 : Nat) : Int) - ((e1 + 1 : Nat) : Int) := by
        push_cast; ring
      rw [hidx, ih (i + 1) (e1 + 1) (pre ++ [EMPTYP]) tl hvps (by simp [hl]) hlen (by omega)
        (by omega) (by intro _; omega)]
      simp [hp]
    · have hp : p ∈ colouredPieces := validSquare_coloured hvp hty
      rw [if_neg hty, List.append_assoc, List.append_assoc, loadBoardLoop_digit e1 he18]
      have hidx : (i : Int) - (e1 : Int) + (e1 : Int) = ((i : Nat) : Int) := by ring
      rw [hidx, loadBoardLoop_piece p hp _ i hi64, set_split pre i hl hi64]
      have hidx2 : ((i + 1 : Nat) : Int) = ((i + 1 : Nat) : Int) - ((0 : Nat) : Int) := by simp
      rw [hidx2, ih (i + 1) 0 (pre ++ [p]) tl hvps (by simp [hl]) hlen (by omega)
        (by omega) (by intro _; omega)]
      simp

theorem loadBoardLoop_ToFen (ps : List Piece) (tl : Str) (hv : ∀ p ∈ ps, validSquare p)
    (hl : ps.length = 64) :
    loadBoardLoop (toFenLoop ps.enum 0 ++ 32 :: tl) 0 (List.replicate 64 EMPTYP) =
      Res.ok (ps, 32 :: tl) := by
  have h := loadBoardLoop_toFenLoop ps 0 0 [] tl hv rfl (by omega) (le_refl _) (by omega)
    (by intro _; omega)
  simpa [List.enum] using h
theorem spaceWidth_visible {c : Nat} (h : visible c) (rest : Str) : spaceWidth (c :: rest) = 0 := by
  unfold visible at h
  unfold spaceWidth
  have h1 : ¬ (c = 9 ∨ c = 10 ∨ c = 11 ∨ c = 12 ∨ c = 13 ∨ c = 32) := by omega
  have h2 : ¬ c = 194 := by omega
  have h3 : ¬ c = 225 := by omega
  have h4 : ¬ c = 226 := by omega
  have h5 : ¬ c = 227 := by omega
  simp only [if_neg h1, if_neg h2, if_neg h3, if_neg h4, if_neg h5]

theorem fieldsLoop_cons_zero (c : Nat) (rest cur : Str) :
    fieldsLoop (c :: rest) 0 cur =
      if spaceWidth (c :: rest) = 0 then fieldsLoop rest 0 (cur ++ [c])
      else (if cur = [] then [] else [cur]) ++ fieldsLoop rest (spaceWidth (c :: rest) - 1) [] := by
  simp [fieldsLoop]

theorem fieldsLoop_word (w : Str) : ∀ (cur rest : Str), (∀ c ∈ w, visible c) →
    fieldsLoop (w ++ 32 :: rest) 0 cur =
      (if cur ++ w = [] then [] else [cur ++ w]) ++ fieldsLoop rest 0 [] := by
  induction w with
  | nil =>
    intro cur rest _
    have : spaceWidth (32 :: rest) = 1 := by simp [spaceWidth]
    rw [List.nil_append, fieldsLoop_cons_zero, this]
    simp
  | cons c w ih =>
    intro cur rest hv
    have hc : visible c := hv c (List.mem_cons_self _ _)
    have hw : ∀ d ∈ w, visible d := fun d hd => hv d (List.mem_cons_of_mem _ hd)
    rw [List.cons_append, fieldsLoop_cons_zero, if_pos (spaceWidth_visible hc _),
      ih (cur ++ [c]) rest hw]
    simp

theorem fieldsLoop_last (w : Str) : ∀ (cur : Str), (∀ c ∈ w, visible c) →
    fieldsLoop w 0 cur = (if cur ++ w = [] then [] else [cur ++ w]) := by
  induction w with
  | nil => intro cur _; simp [fieldsLoop]
  | cons c w ih =>
    intro cur hv
    have hc : visible c := hv c (List.mem_cons_self _ _)
    have hw : ∀ d ∈ w, visible d := fun d hd => hv d (List.mem_cons_of_mem _ hd)
    rw [fieldsLoop_cons_zero, if_pos (spaceWidth_visible hc _), ih (cur ++ [c]) hw]
    simp

theorem Fields_six (a b c d e f : Str) (ha : ∀ x ∈ a, visible x) (hb : ∀ x ∈ b, visible x)
    (hc : ∀ x ∈ c, visible x) (hd : ∀ x ∈ d, visible x) (he : ∀ x ∈ e, visible x)
    (hf : ∀ x ∈ f, visible x) (na : a ≠ []) (nb : b ≠ []) (nc : c ≠ []) (nd : d ≠ [])
    (ne : e ≠ []) (nf : f ≠ []) :
    Fields (a ++ 32 :: (b ++ 32 :: (c ++ 32 :: (d ++ 32 :: (e ++ 32 :: f))))) =
      [a, b, c, d, e, f] := by
  unfold Fields
  rw [fieldsLoop_word a _ _ ha, fieldsLoop_word b _ _ hb, fieldsLoop_word c _ _ hc,
    fieldsLoop_word d _ _ hd, fieldsLoop_word e _ _ he, fieldsLoop_last f _ hf]
  simp [na, nb, nc, nd, ne, nf]



theorem parseDigits_digitsLoop (fuel : Nat) : ∀ n, n < fuel →
    ∃ m, ∀ (acc : Str) (a : Nat),
      parseDigits (digitsLoop fuel n acc) a = parseDigits acc (a * m + n) := by
  induction fuel with
  | zero => intro n h; omega
  | succ f ih =>
    intro n hn
    by_cases h10 : n < 10
    · refine ⟨10, fun acc a => ?_⟩
      have h1 : 48 ≤ 48 + n ∧ 48 + n ≤ 57 := by omega
      simp only [digitsLoop, if_pos h10, parseDigits, if_pos h1]
      congr 1
      omega
    · obtain ⟨m, hm⟩ := ih (n / 10) (by omega)
      refine ⟨m * 10, fun acc a => ?_⟩
      have h1 : 48 ≤ 48 + n % 10 ∧ 48 + n % 10 ≤ 57 := by omega
      simp only [digitsLoop, if_neg h10, hm, parseDigits, if_pos h1]
      congr 1
      have : (a * m + n / 10) * 10 = a * (m * 10) + (n / 10) * 10 := by ring
      omega

theorem parseDigits_fmtNat (n : Nat) : parseDigits (fmtNat n) 0 = some n := by
  obtain ⟨m, hm⟩ := parseDigits_digitsLoop (n + 1) n (by omega)
  unfold fmtNat
  rw [hm]
  simp [parseDigits]

theorem digitsLoop_digits (fuel : Nat) : ∀ (n : Nat) (acc : Str), (∀ c ∈ acc, isDigit c) →
    ∀ c ∈ digitsLoop fuel n acc, isDigit c := by
  induction fuel with
  | zero => intro n acc h; simpa [digitsLoop] using h
  | succ f ih =>
    intro n acc h
    by_cases h10 : n < 10
    · simp only [digitsLoop, if_pos h10]
      intro c hc
      rcases List.mem_cons.mp hc with hc | hc
      · subst hc; unfold isDigit; omega
      · exact h c hc
    · simp only [digitsLoop, if_neg h10]
      apply ih
      intro c hc
      rcases List.mem_cons.mp hc with hc | hc
      · subst hc; unfold isDigit; omega
      · exact h c hc

theorem digitsLoop_ne_nil (fuel : Nat) : ∀ (n : Nat) (acc : Str), acc ≠ [] ∨ 0 < fuel →
    digitsLoop fuel n acc ≠ [] := by
  induction fuel with
  | zero => intro n acc h; rcases h with h | h; simpa [digitsLoop] using h; omega
  | succ f ih =>
    intro n acc _
    by_cases h10 : n < 10
    · simp [digitsLoop, h10]
    · simp only [digitsLoop, if_neg h10]
      exact ih _ _ (Or.inl (by simp))

theorem fmtNat_digits (n : Nat) : ∀ c ∈ fmtNat n, isDigit c :=
  digitsLoop_digits _ _ _ (by simp)

theorem fmtNat_ne_nil (n : Nat) : fmtNat n ≠ [] :=
  digitsLoop_ne_nil _ _ _ (Or.inr (by omega))

theorem fmtD_visible (x : Int) : ∀ c ∈ fmtD x, visible c := by
  intro c hc
  unfold fmtD at hc
  split at hc
  · rcases List.mem_cons.mp hc with hc | hc
    · subst hc; unfold visible; omega
    · have := fmtNat_digits _ c hc; unfold isDigit at this; unfold visible; omega
  · have := fmtNat_digits _ c hc; unfold isDigit at this; unfold visible; omega

theorem fmtD_ne_nil (x : Int) : fmtD x ≠ [] := by
  unfold fmtD
  split
  · simp
  · exact fmtNat_ne_nil _

theorem Atoi_fmtD (x : Int) (hlo : -9223372036854775808 ≤ x) (hhi : x ≤ 9223372036854775807) :
    Atoi (fmtD x) = (x, false) := by
  unfold fmtD
  by_cases hneg : x < 0
  · rw [if_pos hneg]
    have hne : fmtNat x.natAbs ≠ [] := fmtNat_ne_nil _
    have hle : ¬ x.natAbs > 9223372036854775808 := by omega
    simp only [Atoi, List.head?_cons, List.tail_cons, true_or, if_true, decide_True,
      if_neg hne, parseDigits_fmtNat, if_neg hle]
    congr 1
    omega
  · rw [if_neg hneg]
    have hne : fmtNat x.toNat ≠ [] := fmtNat_ne_nil _
    have hle : ¬ x.toNat > 9223372036854775807 := by omega
    obtain ⟨c, cs, hcs⟩ := List.exists_cons_of_ne_nil hne
    have hd : isDigit c := fmtNat_digits x.toNat c (by rw [hcs]; exact List.mem_cons_self _ _)
    unfold isDigit at hd
    have h45 : ¬ (c = 45) := by omega
    have h43 : ¬ (c = 43) := by omega
    have hbody : Atoi (fmtNat x.toNat) = ((x.toNat : Int), false) := by
      unfold Atoi
      rw [hcs]
      simp only [List.head?_cons, Option.some.injEq, h45, h43, or_self, if_false, decide_False]
      rw [← hcs]
      simp only [if_neg hne, parseDigits_fmtNat, if_neg hle]
      simp
    rw [hbody]
    congr 1
    omega

theorem ToFenChar_visible {p : Piece} (hp : p ∈ colouredPieces) :
    ∀ c ∈ fmtC (ToFenChar p), visible c := by
  simp only [colouredPieces, List.mem_cons, List.mem_singleton, List.not_mem_nil, or_false] at hp
  rcases hp with h | h | h | h | h | h | h | h | h | h | h | h <;> subst h <;>
    simp [fmtC, ToFenChar, visible, PAWN_W, PAWN_B, ROOK_W, ROOK_B, KNGT_W, KNGT_B, BSHP_W,
      BSHP_B, QUEN_W, QUEN_B, KING_W, KING_B, PAWN, ROOK, KNIGHT, BISHOP, QUEEN, KING, WHITE, BLACK]

theorem count_visible (e : Nat) :
    ∀ c ∈ (if (e : Int) > 0 then fmtD (e : Int) else []), visible c := by
  intro c hc
  split at hc
  · exact fmtD_visible _ c hc
  · cases hc

theorem toFenLoop_visible (ps : List Piece) :
    ∀ (i e : Nat), (∀ p ∈ ps, validSquare p) → e ≤ 8 → (i % 8 ≠ 0 ∨ i = 0 → e ≤ i % 8) →
      ∀ c ∈ toFenLoop (List.enumFrom i ps) (e : Int), visible c := by
  induction ps with
  | nil =>
    intro i e _ h8 _
    simp only [List.enumFrom_nil, toFenLoop]
    exact count_visible e
  | cons p ps ih =>
    intro i e hv h8 hinv
    have hvp : validSquare p := hv p (List.mem_cons_self _ _)
    have hvps : ∀ q ∈ ps, validSquare q := fun q hq => hv q (List.mem_cons_of_mem _ hq)
    rw [List.enumFrom_cons, toFenLoop_cons_nat]
    generalize he1 : (if i > 0 ∧ i % 8 = 0 then 0 else e) = e1
    have he18 : e1 ≤ 8 := by rw [← he1]; split <;> omega
    have he1inv : e1 ≤ i % 8 := by
      rw [← he1]; split
      · omega
      · rename_i hn
        apply hinv
        by_cases h0 : i = 0
        · right; exact h0
        · left; intro h8'; exact hn ⟨Nat.pos_of_ne_zero h0, h8'⟩
    intro c hc
    rcases List.mem_append.mp hc with hc | hc
    · split at hc
      · rcases List.mem_append.mp hc with hc | hc
        · exact count_visible e c hc
        · simp only [List.mem_singleton] at hc
          subst hc; unfold visible; omega
      · cases hc
    · by_cases hty : p.Typ = NONE
      · rw [if_pos hty] at hc
        exact ih (i + 1) (e1 + 1) hvps (by omega) (by intro _; omega) c hc
      · rw [if_neg hty] at hc
        rcases List.mem_append.mp hc with hc | hc
        · rcases List.mem_append.mp hc with hc | hc
          · exact count_visible e1 c hc
          · exact ToFenChar_visible (validSquare_coloured hvp hty) c hc
        · exact ih (i + 1) 0 hvps (by omega) (by intro _; omega) c hc

theorem toFenLoop_ne_nil (ps : List Piece) :
    ∀ (i e : Nat), (0 < e ∨ ps ≠ []) → e ≤ 8 → (i % 8 ≠ 0 ∨ i = 0 → e ≤ i % 8) →
      toFenLoop (List.enumFrom i ps) (e : Int) ≠ [] := by
  induction ps with
  | nil =>
    intro i e h h8 _
    have he : 0 < e := by rcases h with h | h; exact h; exact absurd rfl h
    have hpos : (e : Int) > 0 := by exact_mod_cast he
    simp only [List.enumFrom_nil, toFenLoop, if_pos hpos]
    exact fmtD_ne_nil _
  | cons p ps ih =>
    intro i e _ h8 hinv
    rw [List.enumFrom_cons, toFenLoop_cons_nat]
    generalize he1 : (if i > 0 ∧ i % 8 = 0 then 0 else e) = e1
    have he1inv : e1 ≤ i % 8 := by
      rw [← he1]; split
      · omega
      · rename_i hn
        apply hinv
        by_cases h0 : i = 0
        · right; exact h0
        · left; intro h8'; exact hn ⟨Nat.pos_of_ne_zero h0, h8'⟩
    by_cases hty : p.Typ = NONE
    · rw [if_pos hty]
      have := ih (i + 1) (e1 + 1) (Or.inl (by omega)) (by omega) (by intro _; omega)
      exact List.append_ne_nil_of_right_ne_nil _ this
    · rw [if_neg hty]
      have : fmtC (ToFenChar p) ≠ [] := by unfold fmtC; split <;> simp
      exact List.append_ne_nil_of_right_ne_nil _
        (List.append_ne_nil_of_left_ne_nil (List.append_ne_nil_of_right_ne_nil _ this) _)

theorem ToFen_eq (gs : GameState) :
    gs.ToFen = toFenLoop gs.Board.Pieces.enum 0 ++ 32 ::
      ([if gs.ActiveColor = WHITE then 119 else 98] ++ 32 ::
      (castleText gs.Board.CastleRights ++ 32 ::
      (enPassantText gs.enPassantSq ++ 32 ::
      (fmtD gs.HalfMoveClock ++ 32 :: fmtD gs.FullMoveCount)))) := by
  have h1 : bytes " w " = [32, 119, 32] := rfl
  have h2 : bytes " b " = [32, 98, 32] := rfl
  have h3 : bytes " " = [32] := rfl
  have h4 : bytes " - " = 32 :: (bytes "-" ++ [32]) := rfl
  unfold GameState.ToFen castleText enPassantText
  rw [h1, h2, h3, h4]
  by_cases hc : gs.ActiveColor = WHITE <;>
    by_cases he : gs.enPassantSq ≥ 0 ∧ gs.enPassantSq < 64 <;>
    simp only [hc, he, and_self, if_true, if_false, List.append_assoc, List.cons_append,
      List.nil_append, List.singleton_append]

theorem castleText_spec (r : Nat) (hr : r < 16) :
    (∀ c ∈ castleText r, visible c) ∧ castleText r ≠ [] ∧
    ∀ tl, loadCastleLoop (castleText r ++ 32 :: tl) 0 = Res.ok (r, 32 :: tl) := by
  interval_cases r <;> refine ⟨by decide, by decide, fun tl => rfl⟩

theorem enPassantText_square (sq : Int) (h0 : 0 ≤ sq) (h64 : sq < 64) :
    ∃ f r, enPassantText sq = [f, r] ∧ visible f ∧ visible r ∧ f ≠ 45 ∧
      StrToSqNum (fmtC f ++ fmtC r) = Res.ok sq := by
  interval_cases sq <;> exact ⟨_, _, rfl, by decide, by decide, by decide, rfl⟩

theorem enPassantText_spec (sq : Int) (h : sq = -1 ∨ (0 ≤ sq ∧ sq < 64)) :
    (∀ c ∈ enPassantText sq, visible c) ∧ enPassantText sq ≠ [] := by
  rcases h with h | ⟨h0, h64⟩
  · subst h
    exact ⟨by decide, by decide⟩
  · obtain ⟨f, r, he, hf, hr, _, _⟩ := enPassantText_square sq h0 h64
    rw [he]
    refine ⟨?_, by simp⟩
    intro c hc
    simp only [List.mem_cons, List.mem_singleton, List.not_mem_nil, or_false] at hc
    rcases hc with hc | hc <;> subst hc <;> assumption

/-- C3: FEN round trip.  For a game state whose 64 squares each hold the empty piece or
one of the twelve coloured pieces, whose active colour is WHITE or BLACK, whose castling
rights use only the four low bits and whose en-passant square is -1 or in 0..63,
`LoadFen(ToFen(gs))` (run on any receiver) returns no error and yields the same piece
array, active colour, castling rights, en-passant square, half-move clock and full-move
count.  The two counters are Go ints. -/
theorem C3_fen_round_trip (gs0 gs : GameState)
    (hlen : gs.Board.Pieces.length = 64)
    (hsq : ∀ p ∈ gs.Board.Pieces, validSquare p)
    (hcol : gs.ActiveColor = WHITE ∨ gs.ActiveColor = BLACK)
    (hrights : gs.Board.CastleRights < 16)
    (hep : gs.enPassantSq = -1 ∨ (0 ≤ gs.enPassantSq ∧ gs.enPassantSq < 64))
    (hhalf : isInt64 gs.HalfMoveClock) (hfull : isInt64 gs.FullMoveCount) :
    ∃ gs1, gs0.LoadFen gs.ToFen = Res.ok (gs1, none) ∧
      gs1.Board.Pieces = gs.Board.Pieces ∧
      gs1.ActiveColor = gs.ActiveColor ∧
      gs1.Board.CastleRights = gs.Board.CastleRights ∧
      gs1.enPassantSq = gs.enPassantSq ∧
      gs1.HalfMoveClock = gs.HalfMoveClock ∧
      gs1.FullMoveCount = gs.FullMoveCount := by
  obtain ⟨hcv, hcn, hcl⟩ := castleText_spec gs.Board.CastleRights hrights
  obtain ⟨hev, hen⟩ := enPassantText_spec gs.enPassantSq hep
  have hbv : ∀ c ∈ toFenLoop gs.Board.Pieces.enum 0, visible c := by
    have := toFenLoop_visible gs.Board.Pieces 0 0 hsq (by omega) (by intro _; omega)
    simpa [List.enum] using this
  have hbn : toFenLoop gs.Board.Pieces.enum 0 ≠ [] := by
    have := toFenLoop_ne_nil gs.Board.Pieces 0 0
      (Or.inr (by intro h; rw [h] at hlen; simp at hlen)) (by omega) (by intro _; omega)
    simpa [List.enum] using this
  have hwv : ∀ c ∈ [if gs.ActiveColor = WHITE then 119 else 98], visible c := by
    intro c hc
    simp only [List.mem_singleton] at hc
    subst hc
    split <;> decide
  have hfields := Fields_six _ _ _ _ _ _ hbv hwv hcv hev (fmtD_visible gs.HalfMoveClock)
    (fmtD_visible gs.FullMoveCount) hbn (by simp) hcn hen (fmtD_ne_nil _) (fmtD_ne_nil _)
  have hA1 := Atoi_fmtD gs.HalfMoveClock hhalf.1 hhalf.2
  have hA2 := Atoi_fmtD gs.FullMoveCount hfull.1 hfull.2
  unfold GameState.LoadFen
  rw [ToFen_eq] 
  rw [hfields]
  rw [loadBoardLoop_ToFen gs.Board.Pieces _ hsq hlen]
  have hs0 : ∀ (c : Nat) (tl : Str), strAt (c :: tl) 0 = Res.ok c := fun _ _ => by simp [strAt]
  have hs1 : ∀ (c d : Nat) (tl : Str), strAt (c :: d :: tl) 1 = Res.ok d :=
    fun _ _ _ => by simp [strAt]
  simp only [Res.bind_eq, Res.pure_eq, Res.ok_bind, List.drop_succ_cons, List.drop_zero,
    List.singleton_append, hs0, hcl]
  have hg4 : ∀ (a b c d e f : Str), [a, b, c, d, e, f][4]? = some e := fun _ _ _ _ _ _ => rfl
  have hg5 : ∀ (a b c d e f : Str), [a, b, c, d, e, f][5]? = some f := fun _ _ _ _ _ _ => rfl
  simp only [hg4, hg5, Res.ok_bind, hA1, hA2]
  have hW : ¬ (BLACK = WHITE) := by decide
  rcases hep with h | ⟨h0, h64⟩
  · have he : enPassantText gs.enPassantSq = [45] := by rw [h]; rfl
    rw [he]
    simp only [List.singleton_append, hs0, Res.ok_bind, if_true]
    refine ⟨_, rfl, ?_⟩
    rcases hcol with hc | hc <;> simp [hc, hW, h]
  · obtain ⟨f, r, he, _, _, h45, hsqn⟩ := enPassantText_square gs.enPassantSq h0 h64
    rw [he]
    simp only [List.cons_append, List.nil_append, hs0, hs1, Res.ok_bind, if_neg h45, hsqn]
    refine ⟨_, rfl, ?_⟩
    rcases hcol with hc | hc <;> simp [hc, hW]


/-- C3, instance: a state with Black to move, rights `Qk`, en-passant square e3 and
counters 3 and 17 is read back from its own FEN text. -/
theorem C3_witness :
    ∃ gs1, CreateDefault.LoadFen sampleState.ToFen = Res.ok (gs1, none) ∧
      gs1.Board.Pieces = sampleState.Board.Pieces ∧
      gs1.ActiveColor = sampleState.ActiveColor ∧
      gs1.Board.CastleRights = sampleState.Board.CastleRights ∧
      gs1.enPassantSq = sampleState.enPassantSq ∧
      gs1.HalfMoveClock = sampleState.HalfMoveClock ∧
      gs1.FullMoveCount = sampleState.FullMoveCount :=
  C3_fen_round_trip CreateDefault sampleState (by decide) (by decide) (by decide) (by decide)
    (by decide) (by decide) (by decide)

/-! ## Game status -/

theorem statusAfter_no_moves (gs : GameState) (chk : Bool)
    (h50 : gs.HalfMoveClock ≠ 50)
    (hrep : repetitionLoop gs.BoardHistory [] = false)
    (hmat : chk = false → insufficientMaterial gs.Board = false) :
    (statusAfter gs [] chk).Status =
      (if chk then
        (if gs.ActiveColor = WHITE then STATUS_CHECKMATE_BLACK_WINS
         else STATUS_CHECKMATE_WHITE_WINS)
       else STATUS_DRAW_STALEMATE) := by
  cases chk with
  | true =>
    by_cases hw : gs.ActiveColor = WHITE <;>
      simp [statusAfter, hw, h50, hrep]
  | false =>
    have hm := hmat rfl
    simp only [insufficientMaterial, Bool.or_eq_false_iff, Bool.and_eq_false_iff,
      decide_eq_false_iff_not] at hm
    obtain ⟨⟨⟨h1, h2⟩, h3⟩, h4⟩ := hm
    have c2 : ¬ (gs.Board.PieceCounts EMPTYP = 61 ∧
        (gs.Board.PieceCounts BSHP_W = 1 ∨ gs.Board.PieceCounts BSHP_B = 1)) := by tauto
    have c3 : ¬ (gs.Board.PieceCounts EMPTYP = 61 ∧
        (gs.Board.PieceCounts KNGT_W = 1 ∨ gs.Board.PieceCounts KNGT_B = 1)) := by tauto
    by_cases c4 : gs.Board.PieceCounts EMPTYP = 60 ∧
        gs.Board.PieceCounts BSHP_W = 1 ∧ gs.Board.PieceCounts BSHP_B = 1
    · have hne : ¬ (bishopLoop gs.Board.Pieces.enum (false, false)).1 =
          (bishopLoop gs.Board.Pieces.enum (false, false)).2 := by tauto
      simp [statusAfter, h50, hrep, h1, c2, c3, c4, hne]
    · simp [statusAfter, h50, hrep, h1, c2, c3, c4]

/-- C4 (amended): when the side to move has no legal move, the half-move clock is not 50,
no arrangement occurs three times in the board history and, if the side to move is not in
check, the material is not one of the insufficient-material patterns, the status after
`UpdateStatus` is the checkmate won by the other side if the side to move is in check
(`CheckmateBlackWins` when White is to move, `CheckmateWhiteWins` otherwise) and
`DrawStalemate` if it is not. -/
theorem C4_no_legal_move_status (fuel : Nat) (gs : GameState) (chk : Bool)
    (hmv : gs.Board.AllValidMoves (fuel + 1) gs.ActiveColor = Res.ok [])
    (hchk : gs.Board.IsInCheck (fuel + 1) gs.ActiveColor = Res.ok chk)
    (h50 : gs.HalfMoveClock ≠ 50)
    (hrep : repetitionLoop gs.BoardHistory [] = false)
    (hmat : chk = false → insufficientMaterial gs.Board = false) :
    ∃ gs1, gs.UpdateStatus (fuel + 1) = Res.ok gs1 ∧
      gs1.Status =
        (if chk then
          (if gs.ActiveColor = WHITE then STATUS_CHECKMATE_BLACK_WINS
           else STATUS_CHECKMATE_WHITE_WINS)
         else STATUS_DRAW_STALEMATE) := by
  refine ⟨statusAfter gs [] chk, ?_, statusAfter_no_moves gs chk h50 hrep hmat⟩
  unfold GameState.UpdateStatus
  rw [hmv, hchk]
  rfl

set_option maxRecDepth 100000 in
/-- C4, instance: `LoadFen("6k1/b7/8/8/5p2/7p/7P/7K w - - 0 54")` followed by
`UpdateStatus` gives `DrawStalemate`. -/
theorem C4_witness :
    CreateDefault.LoadFen stalemateFen = Res.ok (loaded stalemateFen, none) ∧
    ∃ gs1, (loaded stalemateFen).UpdateStatus 1 = Res.ok gs1 ∧
      gs1.Status = STATUS_DRAW_STALEMATE :=
  ⟨by decide!,
   C4_no_legal_move_status 0 (loaded stalemateFen) false (by decide!) (by decide!) (by decide!)
    (by decide!) (fun _ => by decide!)⟩

set_option maxRecDepth 100000 in
/-- C4, as stated, fails: the stalemate position with a half-move clock of 50 has both
kings, no legal move for White and no check, and `UpdateStatus` gives the fifty-move
draw, not the stalemate. -/
theorem C4_counterexample :
    (loaded stalemateFiftyFen).Board.Pieces.count KING_W = 1 ∧
    (loaded stalemateFiftyFen).Board.Pieces.count KING_B = 1 ∧
    (loaded stalemateFiftyFen).ActiveColor = WHITE ∧
    (loaded stalemateFiftyFen).Board.AllValidMoves 1 WHITE = Res.ok [] ∧
    (loaded stalemateFiftyFen).Board.IsInCheck 1 WHITE = Res.ok false ∧
    ((loaded stalemateFiftyFen).UpdateStatus 1).sat
      (fun gs => decide (gs.Status = STATUS_DRAW_FIFTY_MOVES)) = true ∧
    STATUS_DRAW_FIFTY_MOVES ≠ STATUS_DRAW_STALEMATE := by
  decide!

set_option maxRecDepth 100000 in
theorem knightState_step1 :
    (knightState 0).UpdateStateAfterMove 1 (mkMove KNIGHT 103 49 102 51) =
      Res.ok (knightState 1) := by
  decide!

set_option maxRecDepth 100000 in
theorem knightState_step2 :
    (knightState 1).UpdateStateAfterMove 1 (mkMove KNIGHT 103 56 102 54) =
      Res.ok (knightState 2) := by
  decide!

set_option maxRecDepth 100000 in
theorem knightState_step3 :
    (knightState 2).UpdateStateAfterMove 1 (mkMove KNIGHT 102 51 103 49) =
      Res.ok (knightState 3) := by
  decide!

set_option maxRecDepth 100000 in
theorem knightState_step4 :
    (knightState 3).UpdateStateAfterMove 1 (mkMove KNIGHT 102 54 103 56) =
      Res.ok (knightState 4) := by
  decide!

set_option maxRecDepth 100000 in
theorem knightState_step5 :
    (knightState 4).UpdateStateAfterMove 1 (mkMove KNIGHT 103 49 102 51) =
      Res.ok (knightState 5) := by
  decide!

set_option maxRecDepth 100000 in
theorem knightState_step6 :
    (knightState 5).UpdateStateAfterMove 1 (mkMove KNIGHT 103 56 102 54) =
      Res.ok (knightState 6) := by
  decide!

set_option maxRecDepth 100000 in
theorem knightState_step7 :
    (knightState 6).UpdateStateAfterMove 1 (mkMove KNIGHT 102 51 103 49) =
      Res.ok (knightState 7) := by
  decide!

set_option maxRecDepth 100000 in
theorem knightState_step8 :
    (knightState 7).UpdateStateAfterMove 1 (mkMove KNIGHT 102 54 103 56) =
      Res.ok (knightState 8) := by
  decide!

set_option maxRecDepth 100000 in
theorem knightState_step9 :
    (knightState 8).UpdateStateAfterMove 1 (mkMove KNIGHT 103 49 102 51) =
      Res.ok knightDrawState := by
  decide!

set_option maxRecDepth 100000 in
/-- C5, evaluation: from the default start the eight knight moves bring the start
arrangement back (it stands twice in the board history and a third time on the board),
and `Status` is still the initial one, not the repetition draw; the draw is set by a
ninth move, g1-f3. -/
theorem C5_repetition_set_one_move_late :
    (playMoves 1 CreateDefault knightShuffle).sat (fun gs =>
      decide (gs.Board.Pieces = DefaultBoard) &&
      decide ((gs.BoardHistory.map (fun b => b.Pieces)).count DefaultBoard = 2) &&
      decide (gs.Status = STATUS_NOT_STARTED) &&
      decide (gs.Status ≠ STATUS_DRAW_REPETITION)) = true ∧
    (playMoves 1 CreateDefault (knightShuffle ++ [mkMove KNIGHT 103 49 102 51])).sat (fun gs =>
      decide (gs.Status = STATUS_DRAW_REPETITION)) = true := by
  have h0 : CreateDefault = knightState 0 := by decide!
  have h8 : playMoves 1 CreateDefault knightShuffle = Res.ok (knightState 8) := by
    rw [h0, knightShuffle]
    rw [playMoves, knightState_step1, Res.ok_bind, playMoves, knightState_step2, Res.ok_bind,
      playMoves, knightState_step3, Res.ok_bind, playMoves, knightState_step4, Res.ok_bind,
      playMoves, knightState_step5, Res.ok_bind, playMoves, knightState_step6, Res.ok_bind,
      playMoves, knightState_step7, Res.ok_bind, playMoves, knightState_step8, Res.ok_bind,
      playMoves]
  have h9 : playMoves 1 CreateDefault (knightShuffle ++ [mkMove KNIGHT 103 49 102 51]) =
      Res.ok knightDrawState := by
    rw [h0, knightShuffle]
    simp only [List.cons_append, List.nil_append]
    rw [playMoves, knightState_step1, Res.ok_bind, playMoves, knightState_step2, Res.ok_bind,
      playMoves, knightState_step3, Res.ok_bind, playMoves, knightState_step4, Res.ok_bind,
      playMoves, knightState_step5, Res.ok_bind, playMoves, knightState_step6, Res.ok_bind,
      playMoves, knightState_step7, Res.ok_bind, playMoves, knightState_step8, Res.ok_bind,
      playMoves, knightState_step9, Res.ok_bind, playMoves]
  rw [h8, h9]
  exact ⟨by decide!, by decide!⟩

set_option maxRecDepth 100000 in
/-- C6, evaluation: in the position of `TestPawnPromotion`, which holds one king of each
colour, the command `a8K` is executed without an error and leaves two white kings on
the board. -/
theorem C6_promotion_to_king_adds_a_king :
    (loaded promotionFen).Board.Pieces.count KING_W = 1 ∧
    (loaded promotionFen).Board.Pieces.count KING_B = 1 ∧
    ((loaded promotionFen).ParseAndExecuteAlgebraicNotation 1 (bytes "a8K")).sat (fun r =>
      decide (r.2 = none) && decide (r.1.Board.Pieces.count KING_W = 2) &&
      decide (r.1.Board.Pieces.count KING_B = 1)) = true := by
  decide!

/-! ## Promotion -/

theorem sqNum_range (f r : Nat) (hf : 97 ≤ f ∧ f ≤ 104) (hr : 49 ≤ r ∧ r ≤ 56) :
    badd (bsub f 97) (bmul (bsub 56 r) 8) = (f - 97) + (56 - r) * 8 := by
  unfold badd bsub bmul
  omega

theorem getD_set_same (l : List Piece) (i : Nat) (p : Piece) (h : i < l.length) :
    (l.set i p).getD i EMPTYP = p := by
  simp [List.getD_eq_getElem?_getD, List.getElem?_set, h]

theorem getD_set_other (l : List Piece) (i j : Nat) (p : Piece) (h : i ≠ j) :
    (l.set i p).getD j EMPTYP = l.getD j EMPTYP := by
  simp [List.getD_eq_getElem?_getD, List.getElem?_set, h]

theorem UpdateBoardWithMove_promotion (b : Board) (mv : Move)
    (hlen : b.Pieces.length = 64) (hp : mv.Piece = PAWN)
    (hrank : mv.TrgRank = 49 ∨ mv.TrgRank = 56)
    (hsf : 97 ≤ mv.SrcFile ∧ mv.SrcFile ≤ 104) (hsr : 49 ≤ mv.SrcRank ∧ mv.SrcRank ≤ 56)
    (htf : 97 ≤ mv.TrgFile ∧ mv.TrgFile ≤ 104)
    (hne : mv.SrcSqNum ≠ mv.TrgSqNum) :
    ∃ p b1, b.pieceAt mv.SrcSqNum = Res.ok p ∧ b.UpdateBoardWithMove mv = Res.ok b1 ∧
      b1.pieceAt mv.SrcSqNum = Res.ok EMPTYP ∧
      b1.pieceAt mv.TrgSqNum =
        Res.ok { Typ := if mv.Promote = NONE then QUEEN else mv.Promote, Color := p.Color } := by
  have htr : 49 ≤ mv.TrgRank ∧ mv.TrgRank ≤ 56 := by omega
  obtain ⟨i, hi, hi64⟩ : ∃ i : Nat, mv.SrcSqNum = (i : Int) ∧ i < 64 := by
    refine ⟨_, by unfold Move.SrcSqNum; rfl, ?_⟩
    rw [sqNum_range _ _ hsf hsr]; omega
  obtain ⟨j, hj, hj64⟩ : ∃ j : Nat, mv.TrgSqNum = (j : Int) ∧ j < 64 := by
    refine ⟨_, by unfold Move.TrgSqNum; rfl, ?_⟩
    rw [sqNum_range _ _ htf htr]; omega
  have hij : i ≠ j := by
    intro h; apply hne; rw [hi, hj, h]
  have hk : ¬ mv.Piece = KING := by rw [hp]; decide
  have hri : (0 : Int) ≤ (i : Int) ∧ (i : Int) < 64 := by omega
  have hrj : (0 : Int) ≤ (j : Int) ∧ (j : Int) < 64 := by omega
  have hpk : ¬ (PAWN = KING) := by decide
  have hlen1 : i < (b.Pieces.set j (b.Pieces.getD i EMPTYP)).length := by simp [hlen, hi64]
  have hlen2 : j < ((b.Pieces.set j (b.Pieces.getD i EMPTYP)).set i EMPTYP).length := by
    simp [hlen, hj64]
  have hcur : ((b.Pieces.set j (b.Pieces.getD i EMPTYP)).set i EMPTYP).getD j EMPTYP =
      b.Pieces.getD i EMPTYP := by
    rw [getD_set_other _ _ _ _ hij, getD_set_same _ _ _ (by rw [hlen]; exact hj64)]
  refine ⟨b.Pieces.getD i EMPTYP, ?_⟩
  unfold Board.UpdateBoardWithMove
  by_cases hcap : b.Pieces.getD j EMPTYP ≠ EMPTYP
  · simp only [hi, hj, Board.pieceAt, Board.setPiece, hri, hrj, and_self, if_true, Res.bind_eq,
      Res.pure_eq, Res.ok_bind, hpk, false_and, if_false, hp, true_and, hrank, Int.toNat_ofNat,
      hcap, ne_eq, not_false_eq_true, hcur]
    refine ⟨_, rfl, ?_, ?_⟩
    · show Res.ok ((((b.Pieces.set j (b.Pieces.getD i EMPTYP)).set i EMPTYP).set j _).getD i
        EMPTYP) = _
      rw [getD_set_other _ _ _ _ (Ne.symm hij), getD_set_same _ _ _ hlen1]
    · show Res.ok ((((b.Pieces.set j (b.Pieces.getD i EMPTYP)).set i EMPTYP).set j _).getD j
        EMPTYP) = _
      rw [getD_set_same _ _ _ hlen2]
      split <;> rfl
  · simp only [hi, hj, Board.pieceAt, Board.setPiece, hri, hrj, and_self, if_true, Res.bind_eq,
      Res.pure_eq, Res.ok_bind, hpk, false_and, if_false, hp, true_and, hrank, Int.toNat_ofNat,
      hcap, ne_eq, not_true_eq_false, not_not, hcur]
    refine ⟨_, rfl, ?_, ?_⟩
    · show Res.ok ((((b.Pieces.set j (b.Pieces.getD i EMPTYP)).set i EMPTYP).set j _).getD i
        EMPTYP) = _
      rw [getD_set_other _ _ _ _ (Ne.symm hij), getD_set_same _ _ _ hlen1]
    · show Res.ok ((((b.Pieces.set j (b.Pieces.getD i EMPTYP)).set i EMPTYP).set j _).getD j
        EMPTYP) = _
      rw [getD_set_same _ _ _ hlen2]
      split <;> rfl

set_option maxRecDepth 100000 in
/-- C7: promotion.  For every board and every pawn move with on-board coordinates,
distinct source and target squares and target rank '1' or '8', `UpdateBoardWithMove`
leaves the source square empty and puts on the target square a piece of the colour of the
moved piece whose type is `mv.Promote`, or QUEEN when `mv.Promote` is NONE.  Through the
whole state update: `LoadFen("6k1/P7/8/4b3/5p2/7p/7P/7K w - - 1 54")`, then
`UpdateStateAfterMove` of the pawn move a7-a8 with `Promote = QUEEN`, then `ToFen` gives
`"Q5k1/8/8/4b3/5p2/7p/7P/7K b - - 0 54"`. -/
theorem C7_promotion :
    (∀ (b : Board) (mv : Move), b.Pieces.length = 64 → mv.Piece = PAWN →
      (mv.TrgRank = 49 ∨ mv.TrgRank = 56) →
      (97 ≤ mv.SrcFile ∧ mv.SrcFile ≤ 104) → (49 ≤ mv.SrcRank ∧ mv.SrcRank ≤ 56) →
      (97 ≤ mv.TrgFile ∧ mv.TrgFile ≤ 104) → mv.SrcSqNum ≠ mv.TrgSqNum →
      ∃ p b1, b.pieceAt mv.SrcSqNum = Res.ok p ∧ b.UpdateBoardWithMove mv = Res.ok b1 ∧
        b1.pieceAt mv.SrcSqNum = Res.ok EMPTYP ∧
        b1.pieceAt mv.TrgSqNum =
          Res.ok { Typ := if mv.Promote = NONE then QUEEN else mv.Promote, Color := p.Color }) ∧
    ((CreateDefault.LoadFen promotionFen).bind
      (fun r => r.1.UpdateStateAfterMove 1 pawnA7A8Queen)).sat
      (fun gs => decide (gs.ToFen = bytes "Q5k1/8/8/4b3/5p2/7p/7P/7K b - - 0 54")) = true :=
  ⟨fun b mv hlen hp hrank hsf hsr htf hne =>
      UpdateBoardWithMove_promotion b mv hlen hp hrank hsf hsr htf hne,
   by decide!⟩

set_option maxRecDepth 100000 in
/-- C7, instance: in the position of `TestPawnPromotion` the move a7-a8 with promotion to
a queen leaves a7 empty and a white queen on a8. -/
theorem C7_witness :
    ∃ p b1, (loaded promotionFen).Board.pieceAt pawnA7A8Queen.SrcSqNum = Res.ok p ∧
      (loaded promotionFen).Board.UpdateBoardWithMove pawnA7A8Queen = Res.ok b1 ∧
      b1.pieceAt pawnA7A8Queen.SrcSqNum = Res.ok EMPTYP ∧
      b1.pieceAt pawnA7A8Queen.TrgSqNum =
        Res.ok { Typ := if pawnA7A8Queen.Promote = NONE then QUEEN else pawnA7A8Queen.Promote,
                 Color := p.Color } :=
  C7_promotion.1 (loaded promotionFen).Board pawnA7A8Queen (by decide!) (by decide)
    (by decide) (by decide) (by decide) (by decide) (by decide)

/-! ## Matching a descriptor against the legal moves -/

theorem Res.isOk_iff {α : Type} {x : Res α} : x.isOk = true ↔ ∃ a, x = Res.ok a := by
  cases x <;> simp [Res.isOk, Res.sat]

theorem matchLoop_spec (fuel : Nat) (b : Board) (w : Move) (c : Color) (moves : List Move) :
    ∀ st : List Move × Option Str,
      (∀ m ∈ moves, m.Matches w = true → (b.ValidateMove fuel m c).isOk = true) →
      ∃ e, matchLoop fuel b w c moves st =
        Res.ok (st.1 ++ (validMatches fuel b w c moves).map
          (fun m => { m with Promote := w.Promote }), e) ∧
        (validMatches fuel b w c moves = [] → st.2 ≠ none → e ≠ none) := by
  induction moves with
  | nil =>
    intro st _
    exact ⟨st.2, by simp [matchLoop, validMatches], fun _ h => h⟩
  | cons mv rest ih =>
    intro st hret
    have hrest : ∀ m ∈ rest, m.Matches w = true → (b.ValidateMove fuel m c).isOk = true :=
      fun m hm => hret m (List.mem_cons_of_mem _ hm)
    by_cases hmatch : mv.Matches w = true
    · obtain ⟨r, hr⟩ := Res.isOk_iff.mp (hret mv (List.mem_cons_self _ _) hmatch)
      by_cases hr1 : r.1 = true
      · obtain ⟨e, he, hne⟩ := ih (st.1 ++ [{ mv with Promote := w.Promote }], st.2) hrest
        refine ⟨e, ?_, ?_⟩
        · simp only [matchLoop, hmatch, if_true, hr, Res.bind_eq, Res.ok_bind, hr1, he]
          simp [validMatches, List.filter_cons, hmatch, hr, Res.sat, hr1]
        · intro h
          simp [validMatches, List.filter_cons, hmatch, hr, Res.sat, hr1] at h
      · obtain ⟨e, he, hne⟩ := ih (st.1, some r.2) hrest
        refine ⟨e, ?_, ?_⟩
        · simp only [matchLoop, hmatch, if_true, hr, Res.bind_eq, Res.ok_bind, hr1, he]
          simp [validMatches, List.filter_cons, hmatch, hr, Res.sat, hr1]
        · intro h _
          have h1 : validMatches fuel b w c rest = [] := by
            simpa [validMatches, List.filter_cons, hmatch, hr, Res.sat, hr1] using h
          exact hne h1 (by simp)
    · obtain ⟨e, he, hne⟩ := ih st hrest
      refine ⟨e, ?_, ?_⟩
      · simp only [matchLoop, hmatch, if_false, he]
        simp [validMatches, List.filter_cons, hmatch]
      · intro h h2
        have h1 : validMatches fuel b w c rest = [] := by
          simpa [validMatches, List.filter_cons, hmatch] using h
        exact hne h1 h2

theorem FindMatchingMove_spec (fuel : Nat) (b : Board) (c : Color) (w : Move)
    (allMoves : List Move) (hall : b.AllMoves c = Res.ok allMoves)
    (hret : ∀ m ∈ allMoves, m.Matches w = true → (b.ValidateMove fuel m c).isOk = true) :
    ∃ e, b.FindMatchingMove fuel w c =
      (match validMatches fuel b w c allMoves with
       | [m] => Res.ok ({ m with Promote := w.Promote }, none)
       | _ :: _ :: _ => Res.ok ({}, some (bytes "Ambiguous move"))
       | [] => Res.ok ({}, some e)) := by
  obtain ⟨e, he, hne⟩ := matchLoop_spec fuel b w c allMoves ([], none) hret
  unfold Board.FindMatchingMove
  simp only [hall, Res.bind_eq, Res.ok_bind, he, List.nil_append, Res.pure_eq]
  cases hvm : validMatches fuel b w c allMoves with
  | nil =>
    cases e with
    | none => exact ⟨bytes "Illegal move", by simp⟩
    | some e1 => exact ⟨e1, by simp⟩
  | cons m1 tl =>
    cases tl with
    | nil => exact ⟨[], by simp⟩
    | cons m2 tl2 => exact ⟨[], by simp⟩

/-- C10: atomicity on error.  If `ParseAndExecuteAlgebraicNotation` returns an error, the
state it leaves is the state it was given with only `Message` changed, to the text of the
error: board (pieces, castling rights, captured list), active colour, en-passant square,
counters, both histories, remaining times and status are the same. -/
theorem C10_error_leaves_state_unchanged (fuel : Nat) (gs gs1 : GameState) (cmd e : Str)
    (h : gs.ParseAndExecuteAlgebraicNotation fuel cmd = Res.ok (gs1, some e)) :
    gs1 = { gs with Message := e } := by
  unfold GameState.ParseAndExecuteAlgebraicNotation at h
  simp only [Res.bind_eq, Res.pure_eq] at h
  obtain ⟨p, _, h⟩ := Res.bind_eq_ok.mp h
  cases hp2 : p.2 with
  | some err =>
    simp only [hp2] at h
    injection h with h
    injection h with h1 h2
    injection h2 with h2
    rw [← h1, h2]
  | none =>
    simp only [hp2] at h
    obtain ⟨m, _, h⟩ := Res.bind_eq_ok.mp h
    cases hm2 : m.2 with
    | some err =>
      simp only [hm2] at h
      injection h with h
      injection h with h1 h2
      injection h2 with h2
      rw [← h1, h2]
    | none =>
      simp only [hm2] at h
      obtain ⟨g, _, h⟩ := Res.bind_eq_ok.mp h
      injection h with h
      injection h with _ h2
      cases h2

set_option maxRecDepth 100000 in
/-- C10, instance: on the default state the command `e5` is answered by the error
"Illegal move", and the state is the default state with that message. -/
theorem C10_witness :
    CreateDefault.ParseAndExecuteAlgebraicNotation 1 (bytes "e5") =
      Res.ok (stateAfterCommand 1 CreateDefault (bytes "e5"), some (bytes "Illegal move")) ∧
    stateAfterCommand 1 CreateDefault (bytes "e5") =
      { CreateDefault with Message := bytes "Illegal move" } :=
  ⟨by decide!,
   C10_error_leaves_state_unchanged 1 CreateDefault _ (bytes "e5") (bytes "Illegal move")
    (by decide!)⟩

/-! ## Notation parser -/

theorem isPieceChar_cases {P : Nat} (h : isPieceChar P = true) :
    P = 82 ∨ P = 78 ∨ P = 66 ∨ P = 81 ∨ P = 75 := by
  simpa [isPieceChar, or_assoc] using h

theorem PieceChars_ne_NONE {P : Nat} (h : isPieceChar P = true) : PieceChars P ≠ NONE := by
  rcases isPieceChar_cases h with h | h | h | h | h <;> subst h <;> decide

theorem parse_piece_target (P tf tr : Nat)
    (hP : isPieceChar P = true) (htf : 97 ≤ tf ∧ tf ≤ 104) (htr : 49 ≤ tr ∧ tr ≤ 56) :
    AlgebraicNotationToMove [P, tf, tr] =
      Res.ok ({ Piece := PieceChars P, TrgFile := tf, TrgRank := tr }, none) := by
  have hc := isPieceChar_cases hP
  have h1 : ¬ (97 ≤ P ∧ P ≤ 104) := by omega
  have h2 : ¬ (49 ≤ P ∧ P ≤ 56) := by omega
  have h3 : ¬ P = 120 := by omega
  have h4 : ¬ P = 61 := by omega
  have h5 : ¬ P = 111 := by omega
  have htf1 : ¬ (49 ≤ tf ∧ tf ≤ 56) := by omega
  simp [AlgebraicNotationToMove, tokenizeCommand, tokenizeLoop, getNextToken, strAt, slice,
    parseTokensIntoMove, Move.SetSrcFromAlphaNum, Move.SetTrgFromAlphaNum, Token.lit0, bytes,
    TOKEN_SQUARE, TOKEN_PIECE, TOKEN_FILE, TOKEN_RANK, TOKEN_CAPTURE, TOKEN_PROMOTE, PAWN, NONE,
    hP, htf, htr, h1, h2, h3, h4, h5, htf1]

theorem parse_piece_takes (P tf tr : Nat)
    (hP : isPieceChar P = true) (htf : 97 ≤ tf ∧ tf ≤ 104) (htr : 49 ≤ tr ∧ tr ≤ 56) :
    AlgebraicNotationToMove [P, 120, tf, tr] =
      Res.ok ({ Piece := PieceChars P, TrgFile := tf, TrgRank := tr }, none) := by
  have hc := isPieceChar_cases hP
  have h1 : ¬ (97 ≤ P ∧ P ≤ 104) := by omega
  have h2 : ¬ (49 ≤ P ∧ P ≤ 56) := by omega
  have h3 : ¬ P = 120 := by omega
  have h4 : ¬ P = 61 := by omega
  have h5 : ¬ P = 111 := by omega
  have htf1 : ¬ (49 ≤ tf ∧ tf ≤ 56) := by omega
  simp [AlgebraicNotationToMove, tokenizeCommand, tokenizeLoop, getNextToken, strAt, slice,
    parseTokensIntoMove, Move.SetSrcFromAlphaNum, Move.SetTrgFromAlphaNum, Token.lit0, bytes,
    TOKEN_SQUARE, TOKEN_PIECE, TOKEN_FILE, TOKEN_RANK, TOKEN_CAPTURE, TOKEN_PROMOTE, PAWN, NONE,
    hP, htf, htr, h1, h2, h3, h4, h5, htf1]

theorem parse_piece_file (P sf tf tr : Nat)
    (hP : isPieceChar P = true) (hsf : 97 ≤ sf ∧ sf ≤ 104) (htf : 97 ≤ tf ∧ tf ≤ 104)
    (htr : 49 ≤ tr ∧ tr ≤ 56) :
    AlgebraicNotationToMove [P, sf, tf, tr] =
      Res.ok ({ Piece := PieceChars P, SrcFile := sf, TrgFile := tf, TrgRank := tr }, none) := by
  have hc := isPieceChar_cases hP
  have h1 : ¬ (97 ≤ P ∧ P ≤ 104) := by omega
  have h2 : ¬ (49 ≤ P ∧ P ≤ 56) := by omega
  have h3 : ¬ P = 120 := by omega
  have h4 : ¬ P = 61 := by omega
  have h5 : ¬ P = 111 := by omega
  have hsf1 : ¬ (49 ≤ sf ∧ sf ≤ 56) := by omega
  have htf1 : ¬ (49 ≤ tf ∧ tf ≤ 56) := by omega
  simp [AlgebraicNotationToMove, tokenizeCommand, tokenizeLoop, getNextToken, strAt, slice,
    parseTokensIntoMove, Move.SetSrcFromAlphaNum, Move.SetTrgFromAlphaNum, Token.lit0, bytes,
    TOKEN_SQUARE, TOKEN_PIECE, TOKEN_FILE, TOKEN_RANK, TOKEN_CAPTURE, TOKEN_PROMOTE, PAWN, NONE,
    hP, hsf, htf, htr, h1, h2, h3, h4, h5, hsf1, htf1]

theorem parse_piece_file_takes (P sf tf tr : Nat)
    (hP : isPieceChar P = true) (hsf : 97 ≤ sf ∧ sf ≤ 104) (htf : 97 ≤ tf ∧ tf ≤ 104)
    (htr : 49 ≤ tr ∧ tr ≤ 56) :
    AlgebraicNotationToMove [P, sf, 120, tf, tr] =
      Res.ok ({ Piece := PieceChars P, SrcFile := sf, TrgFile := tf, TrgRank := tr }, none) := by
  have hc := isPieceChar_cases hP
  have h1 : ¬ (97 ≤ P ∧ P ≤ 104) := by omega
  have h2 : ¬ (49 ≤ P ∧ P ≤ 56) := by omega
  have h3 : ¬ P = 120 := by omega
  have h4 : ¬ P = 61 := by omega
  have h5 : ¬ P = 111 := by omega
  have hsf1 : ¬ (49 ≤ sf ∧ sf ≤ 56) := by omega
  have htf1 : ¬ (49 ≤ tf ∧ tf ≤ 56) := by omega
  simp [AlgebraicNotationToMove, tokenizeCommand, tokenizeLoop, getNextToken, strAt, slice,
    parseTokensIntoMove, Move.SetSrcFromAlphaNum, Move.SetTrgFromAlphaNum, Token.lit0, bytes,
    TOKEN_SQUARE, TOKEN_PIECE, TOKEN_FILE, TOKEN_RANK, TOKEN_CAPTURE, TOKEN_PROMOTE, PAWN, NONE,
    hP, hsf, htf, htr, h1, h2, h3, h4, h5, hsf1, htf1]

theorem parse_piece_rank (P sr tf tr : Nat)
    (hP : isPieceChar P = true) (hsr : 49 ≤ sr ∧ sr ≤ 56) (htf : 97 ≤ tf ∧ tf ≤ 104)
    (htr : 49 ≤ tr ∧ tr ≤ 56) :
    AlgebraicNotationToMove [P, sr, tf, tr] =
      Res.ok ({ Piece := PieceChars P, SrcRank := sr, TrgFile := tf, TrgRank := tr }, none) := by
  have hc := isPieceChar_cases hP
  have h1 : ¬ (97 ≤ P ∧ P ≤ 104) := by omega
  have h2 : ¬ (49 ≤ P ∧ P ≤ 56) := by omega
  have h3 : ¬ P = 120 := by omega
  have h4 : ¬ P = 61 := by omega
  have h5 : ¬ P = 111 := by omega
  have hsr1 : ¬ (97 ≤ sr ∧ sr ≤ 104) := by omega
  have hsr2 : ¬ sr = 120 := by omega
  have hsr3 : ¬ sr = 61 := by omega
  have hsr4 : ¬ sr = 111 := by omega
  have htf1 : ¬ (49 ≤ tf ∧ tf ≤ 56) := by omega
  simp [AlgebraicNotationToMove, tokenizeCommand, tokenizeLoop, getNextToken, strAt, slice,
    parseTokensIntoMove, Move.SetSrcFromAlphaNum, Move.SetTrgFromAlphaNum, Token.lit0, bytes,
    TOKEN_SQUARE, TOKEN_PIECE, TOKEN_FILE, TOKEN_RANK, TOKEN_CAPTURE, TOKEN_PROMOTE, PAWN, NONE,
    hP, hsr, htf, htr, h1, h2, h3, h4, h5, hsr1, hsr2, hsr3, hsr4, htf1]

theorem parse_piece_rank_takes (P sr tf tr : Nat)
    (hP : isPieceChar P = true) (hsr : 49 ≤ sr ∧ sr ≤ 56) (htf : 97 ≤ tf ∧ tf ≤ 104)
    (htr : 49 ≤ tr ∧ tr ≤ 56) :
    AlgebraicNotationToMove [P, sr, 120, tf, tr] =
      Res.ok ({ Piece := PieceChars P, SrcRank := sr, TrgFile := tf, TrgRank := tr }, none) := by
  have hc := isPieceChar_cases hP
  have h1 : ¬ (97 ≤ P ∧ P ≤ 104) := by omega
  have h2 : ¬ (49 ≤ P ∧ P ≤ 56) := by omega
  have h3 : ¬ P = 120 := by omega
  have h4 : ¬ P = 61 := by omega
  have h5 : ¬ P = 111 := by omega
  have hsr1 : ¬ (97 ≤ sr ∧ sr ≤ 104) := by omega
  have hsr2 : ¬ sr = 120 := by omega
  have hsr3 : ¬ sr = 61 := by omega
  have hsr4 : ¬ sr = 111 := by omega
  have htf1 : ¬ (49 ≤ tf ∧ tf ≤ 56) := by omega
  simp [AlgebraicNotationToMove, tokenizeCommand, tokenizeLoop, getNextToken, strAt, slice,
    parseTokensIntoMove, Move.SetSrcFromAlphaNum, Move.SetTrgFromAlphaNum, Token.lit0, bytes,
    TOKEN_SQUARE, TOKEN_PIECE, TOKEN_FILE, TOKEN_RANK, TOKEN_CAPTURE, TOKEN_PROMOTE, PAWN, NONE,
    hP, hsr, htf, htr, h1, h2, h3, h4, h5, hsr1, hsr2, hsr3, hsr4, htf1]

theorem parse_piece_square_takes (P sf sr tf tr : Nat)
    (hP : isPieceChar P = true) (hsf : 97 ≤ sf ∧ sf ≤ 104) (hsr : 49 ≤ sr ∧ sr ≤ 56)
    (htf : 97 ≤ tf ∧ tf ≤ 104) (htr : 49 ≤ tr ∧ tr ≤ 56) :
    AlgebraicNotationToMove [P, sf, sr, 120, tf, tr] =
      Res.ok ({ Piece := PieceChars P, SrcFile := sf, SrcRank := sr, TrgFile := tf,
                TrgRank := tr }, none) := by
  have hc := isPieceChar_cases hP
  have h1 : ¬ (97 ≤ P ∧ P ≤ 104) := by omega
  have h2 : ¬ (49 ≤ P ∧ P ≤ 56) := by omega
  have h3 : ¬ P = 120 := by omega
  have h4 : ¬ P = 61 := by omega
  have h5 : ¬ P = 111 := by omega
  have hsf1 : ¬ (49 ≤ sf ∧ sf ≤ 56) := by omega
  have hsr1 : ¬ (97 ≤ sr ∧ sr ≤ 104) := by omega
  have hsr2 : ¬ sr = 120 := by omega
  have hsr3 : ¬ sr = 61 := by omega
  have hsr4 : ¬ sr = 111 := by omega
  have htf1 : ¬ (49 ≤ tf ∧ tf ≤ 56) := by omega
  simp [AlgebraicNotationToMove, tokenizeCommand, tokenizeLoop, getNextToken, strAt, slice,
    parseTokensIntoMove, Move.SetSrcFromAlphaNum, Move.SetTrgFromAlphaNum, Token.lit0, bytes,
    TOKEN_SQUARE, TOKEN_PIECE, TOKEN_FILE, TOKEN_RANK, TOKEN_CAPTURE, TOKEN_PROMOTE, PAWN, NONE,
    hP, hsf, hsr, htf, htr, h1, h2, h3, h4, h5, hsf1, hsr1, hsr2, hsr3, hsr4, htf1]

theorem parse_pawn_push (tf tr : Nat)
    (htf : 97 ≤ tf ∧ tf ≤ 104) (htr : 49 ≤ tr ∧ tr ≤ 56) :
    AlgebraicNotationToMove [tf, tr] =
      Res.ok ({ Piece := PAWN, SrcFile := tf, TrgFile := tf, TrgRank := tr }, none) := by
  have htf1 : ¬ (49 ≤ tf ∧ tf ≤ 56) := by omega
  simp [AlgebraicNotationToMove, tokenizeCommand, tokenizeLoop, getNextToken, strAt, slice,
    parseTokensIntoMove, Move.SetSrcFromAlphaNum, Move.SetTrgFromAlphaNum, Token.lit0, bytes,
    TOKEN_SQUARE, TOKEN_PIECE, TOKEN_FILE, TOKEN_RANK, TOKEN_CAPTURE, TOKEN_PROMOTE, PAWN, NONE,
    htf, htr, htf1]

theorem parse_pawn_takes (sf tf tr : Nat)
    (hsf : 97 ≤ sf ∧ sf ≤ 104) (htf : 97 ≤ tf ∧ tf ≤ 104) (htr : 49 ≤ tr ∧ tr ≤ 56) :
    AlgebraicNotationToMove [sf, 120, tf, tr] =
      Res.ok ({ Piece := PAWN, SrcFile := sf, TrgFile := tf, TrgRank := tr }, none) := by
  have hsf1 : ¬ (49 ≤ sf ∧ sf ≤ 56) := by omega
  have htf1 : ¬ (49 ≤ tf ∧ tf ≤ 56) := by omega
  simp [AlgebraicNotationToMove, tokenizeCommand, tokenizeLoop, getNextToken, strAt, slice,
    parseTokensIntoMove, Move.SetSrcFromAlphaNum, Move.SetTrgFromAlphaNum, Token.lit0, bytes,
    TOKEN_SQUARE, TOKEN_PIECE, TOKEN_FILE, TOKEN_RANK, TOKEN_CAPTURE, TOKEN_PROMOTE, PAWN, NONE,
    hsf, htf, htr, hsf1, htf1]

theorem parse_promotion (tf tr P : Nat)
    (htf : 97 ≤ tf ∧ tf ≤ 104) (htr : 49 ≤ tr ∧ tr ≤ 56) (hP : isPieceChar P = true) :
    AlgebraicNotationToMove [tf, tr, P] =
      Res.ok ({ Piece := PAWN, TrgFile := tf, TrgRank := tr, Promote := PieceChars P }, none) := by
  have hc := isPieceChar_cases hP
  have htf1 : ¬ (49 ≤ tf ∧ tf ≤ 56) := by omega
  have h1 : ¬ (97 ≤ P ∧ P ≤ 104) := by omega
  have h2 : ¬ (49 ≤ P ∧ P ≤ 56) := by omega
  have h3 : ¬ P = 120 := by omega
  have h4 : ¬ P = 61 := by omega
  have h5 : ¬ P = 111 := by omega
  simp [AlgebraicNotationToMove, tokenizeCommand, tokenizeLoop, getNextToken, strAt, slice,
    parseTokensIntoMove, Move.SetSrcFromAlphaNum, Move.SetTrgFromAlphaNum, Token.lit0, bytes,
    TOKEN_SQUARE, TOKEN_PIECE, TOKEN_FILE, TOKEN_RANK, TOKEN_CAPTURE, TOKEN_PROMOTE, PAWN, NONE,
    htf, htr, hP, htf1, h1, h2, h3, h4, h5]

theorem parse_promotion_equals (tf tr P : Nat)
    (htf : 97 ≤ tf ∧ tf ≤ 104) (htr : 49 ≤ tr ∧ tr ≤ 56) (hP : isPieceChar P = true) :
    AlgebraicNotationToMove [tf, tr, 61, P] =
      Res.ok ({ Piece := PAWN, TrgFile := tf, TrgRank := tr, Promote := PieceChars P }, none) := by
  have hc := isPieceChar_cases hP
  have htf1 : ¬ (49 ≤ tf ∧ tf ≤ 56) := by omega
  have h1 : ¬ (97 ≤ P ∧ P ≤ 104) := by omega
  have h2 : ¬ (49 ≤ P ∧ P ≤ 56) := by omega
  have h3 : ¬ P = 120 := by omega
  have h4 : ¬ P = 61 := by omega
  have h5 : ¬ P = 111 := by omega
  simp [AlgebraicNotationToMove, tokenizeCommand, tokenizeLoop, getNextToken, strAt, slice,
    parseTokensIntoMove, Move.SetSrcFromAlphaNum, Move.SetTrgFromAlphaNum, Token.lit0, bytes,
    TOKEN_SQUARE, TOKEN_PIECE, TOKEN_FILE, TOKEN_RANK, TOKEN_CAPTURE, TOKEN_PROMOTE, PAWN, NONE,
    htf, htr, hP, htf1, h1, h2, h3, h4, h5]

theorem parse_promotion_long (sf sr tf tr P : Nat)
    (hsf : 97 ≤ sf ∧ sf ≤ 104) (hsr : 49 ≤ sr ∧ sr ≤ 56) (htf : 97 ≤ tf ∧ tf ≤ 104)
    (htr : 49 ≤ tr ∧ tr ≤ 56) (hP : isPieceChar P = true) :
    AlgebraicNotationToMove [sf, sr, tf, tr, P] =
      Res.ok ({ Piece := PAWN, SrcFile := sf, SrcRank := sr, TrgFile := tf, TrgRank := tr,
                Promote := PieceChars P }, none) := by
  have hc := isPieceChar_cases hP
  have hsf1 : ¬ (49 ≤ sf ∧ sf ≤ 56) := by omega
  have hsr1 : ¬ (97 ≤ sr ∧ sr ≤ 104) := by omega
  have hsr2 : ¬ sr = 120 := by omega
  have hsr3 : ¬ sr = 61 := by omega
  have hsr4 : ¬ sr = 111 := by omega
  have htf1 : ¬ (49 ≤ tf ∧ tf ≤ 56) := by omega
  have h1 : ¬ (97 ≤ P ∧ P ≤ 104) := by omega
  have h2 : ¬ (49 ≤ P ∧ P ≤ 56) := by omega
  have h3 : ¬ P = 120 := by omega
  have h4 : ¬ P = 61 := by omega
  have h5 : ¬ P = 111 := by omega
  simp [AlgebraicNotationToMove, tokenizeCommand, tokenizeLoop, getNextToken, strAt, slice,
    parseTokensIntoMove, Move.SetSrcFromAlphaNum, Move.SetTrgFromAlphaNum, Token.lit0, bytes,
    TOKEN_SQUARE, TOKEN_PIECE, TOKEN_FILE, TOKEN_RANK, TOKEN_CAPTURE, TOKEN_PROMOTE, PAWN, NONE,
    hsf, hsr, htf, htr, hP, hsf1, hsr1, hsr2, hsr3, hsr4, htf1, h1, h2, h3, h4, h5]

theorem parse_long_coordinate (sf sr tf tr : Nat)
    (hsf : 97 ≤ sf ∧ sf ≤ 104) (hsr : 49 ≤ sr ∧ sr ≤ 56) (htf : 97 ≤ tf ∧ tf ≤ 104)
    (htr : 49 ≤ tr ∧ tr ≤ 56) :
    AlgebraicNotationToMove [sf, sr, tf, tr] =
      Res.ok ({ Piece := NONE, SrcFile := sf, SrcRank := sr, TrgFile := tf, TrgRank := tr }, none) := by
  have hsf1 : ¬ (49 ≤ sf ∧ sf ≤ 56) := by omega
  have hsr1 : ¬ (97 ≤ sr ∧ sr ≤ 104) := by omega
  have hsr2 : ¬ sr = 120 := by omega
  have hsr3 : ¬ sr = 61 := by omega
  have hsr4 : ¬ sr = 111 := by omega
  have htf1 : ¬ (49 ≤ tf ∧ tf ≤ 56) := by omega
  simp [AlgebraicNotationToMove, tokenizeCommand, tokenizeLoop, getNextToken, strAt, slice,
    parseTokensIntoMove, Move.SetSrcFromAlphaNum, Move.SetTrgFromAlphaNum, Token.lit0, bytes,
    TOKEN_SQUARE, TOKEN_PIECE, TOKEN_FILE, TOKEN_RANK, TOKEN_CAPTURE, TOKEN_PROMOTE, PAWN, NONE,
    hsf, hsr, htf, htr, hsf1, hsr1, hsr2, hsr3, hsr4, htf1]

theorem slice_getD (s : Str) (i n : Nat) (l : Str) (h : slice s i (i + n) = l)
    (hl : l.length = n) (k : Nat) (hk : k < n) : s.getD (i + k) 0 = l.getD k 0 := by
  subst h
  unfold slice
  simp only [List.getD_eq_getElem?_getD, Nat.add_sub_cancel_left]
  rw [List.getElem?_take_of_lt hk, List.getElem?_drop]

theorem strAt_getD (s : Str) (i : Nat) (h : i < s.length) : strAt s i = Res.ok (s.getD i 0) := by
  unfold strAt
  simp [List.getD_eq_getElem?_getD, List.getElem?_eq_getElem h]

theorem getNextToken_step (cmd : Str) (idx : Nat) (h : idx < cmd.length) :
    ∃ n tok err, getNextToken idx cmd = Res.ok (n, tok, err) ∧
      (err = none → idx < n ∧ ∀ j, idx ≤ j → j < n → inAlphabet (cmd.getD j 0)) := by
  unfold getNextToken
  rw [strAt_getD cmd idx h]
  simp only [Res.bind_eq, Res.ok_bind, Res.pure_eq]
  generalize hch : cmd.getD idx 0 = ch
  have one : ∀ j, idx ≤ j → j < idx + 1 → inAlphabet ch → inAlphabet (cmd.getD j 0) := by
    intro j h1 h2 h3
    have : j = idx := by omega
    rw [this, hch]; exact h3
  by_cases c1 : 97 ≤ ch ∧ ch ≤ 104
  · rw [if_pos c1]
    by_cases c2 : 49 ≤ (if cmd.length > idx + 1 then cmd.getD (idx + 1) 0 else 0) ∧
        (if cmd.length > idx + 1 then cmd.getD (idx + 1) 0 else 0) ≤ 56
    · rw [if_pos c2]
      refine ⟨_, _, _, rfl, fun _ => ⟨by omega, ?_⟩⟩
      intro j h1 h2
      by_cases hj : j = idx
      · rw [hj, hch]; exact Or.inl c1
      · have hj1 : j = idx + 1 := by omega
        by_cases hlen : cmd.length > idx + 1
        · rw [if_pos hlen] at c2
          rw [hj1]; exact Or.inr (Or.inl c2)
        · rw [if_neg hlen] at c2; omega
    · rw [if_neg c2]
      exact ⟨_, _, _, rfl, fun _ => ⟨by omega, fun j h1 h2 => one j h1 h2 (Or.inl c1)⟩⟩
  · rw [if_neg c1]
    by_cases c3 : 49 ≤ ch ∧ ch ≤ 56
    · rw [if_pos c3]
      exact ⟨_, _, _, rfl, fun _ => ⟨by omega, fun j h1 h2 => one j h1 h2 (Or.inr (Or.inl c3))⟩⟩
    · rw [if_neg c3]
      by_cases c4 : ch = 120
      · rw [if_pos c4]
        exact ⟨_, _, _, rfl, fun _ => ⟨by omega,
          fun j h1 h2 => one j h1 h2 (Or.inr (Or.inr (Or.inl c4)))⟩⟩
      · rw [if_neg c4]
        by_cases c5 : ch = 61
        · rw [if_pos c5]
          exact ⟨_, _, _, rfl, fun _ => ⟨by omega,
            fun j h1 h2 => one j h1 h2 (Or.inr (Or.inr (Or.inr (Or.inl c5))))⟩⟩
        · rw [if_neg c5]
          by_cases c6 : ch = 111
          · rw [if_pos c6]
            by_cases c7 : cmd.length > idx + 4 ∧ slice cmd idx (idx + 5) = bytes "o-o-o"
            · rw [if_pos c7]
              refine ⟨_, _, _, rfl, fun _ => ⟨by omega, ?_⟩⟩
              intro j h1 h2
              obtain ⟨k, hk⟩ : ∃ k, j = idx + k := ⟨j - idx, by omega⟩
              have hk5 : k < 5 := by omega
              rw [hk, slice_getD cmd idx 5 _ c7.2 (by decide) k hk5]
              interval_cases k <;> simp [inAlphabet, bytes, isPieceChar]
            · rw [if_neg c7]
              by_cases c8 : cmd.length > idx + 2 ∧ slice cmd idx (idx + 3) = bytes "o-o"
              · rw [if_pos c8]
                refine ⟨_, _, _, rfl, fun _ => ⟨by omega, ?_⟩⟩
                intro j h1 h2
                obtain ⟨k, hk⟩ : ∃ k, j = idx + k := ⟨j - idx, by omega⟩
                have hk3 : k < 3 := by omega
                rw [hk, slice_getD cmd idx 3 _ c8.2 (by decide) k hk3]
                interval_cases k <;> simp [inAlphabet, bytes, isPieceChar]
              · rw [if_neg c8]
                exact ⟨_, _, _, rfl, fun _ => ⟨by omega, fun j h1 h2 =>
                  one j h1 h2 (Or.inr (Or.inr (Or.inr (Or.inr (Or.inl c6)))))⟩⟩
          · rw [if_neg c6]
            by_cases c9 : isPieceChar ch = true
            · rw [if_pos c9]
              exact ⟨_, _, _, rfl, fun _ => ⟨by omega, fun j h1 h2 =>
                one j h1 h2 (Or.inr (Or.inr (Or.inr (Or.inr (Or.inr (Or.inr c9))))))⟩⟩
            · rw [if_neg c9]
              exact ⟨_, _, _, rfl, fun h => by cases h⟩

theorem tokenizeLoop_rejects (cmd : Str) : ∀ (fuel idx : Nat) (toks : List Token),
    cmd.length ≤ fuel + idx →
    (∃ j, idx ≤ j ∧ j < cmd.length ∧ ¬ inAlphabet (cmd.getD j 0)) →
    ∃ toks1 e, tokenizeLoop cmd fuel idx toks = Res.ok (toks1, some e) := by
  intro fuel
  induction fuel with
  | zero =>
    intro idx toks hf ⟨j, h1, h2, _⟩
    omega
  | succ f ih =>
    intro idx toks hf ⟨j, h1, h2, h3⟩
    have hidx : idx < cmd.length := by omega
    obtain ⟨n, tok, err, hg, hstep⟩ := getNextToken_step cmd idx hidx
    simp only [tokenizeLoop, if_pos hidx, hg, Res.bind_eq, Res.ok_bind, Res.pure_eq]
    cases err with
    | some e => exact ⟨_, _, rfl⟩
    | none =>
      obtain ⟨hn, hal⟩ := hstep rfl
      have hjn : n ≤ j := by
        by_contra hlt
        exact h3 (hal j h1 (by omega))
      exact ih n (toks ++ [tok]) (by omega) ⟨j, hjn, h2, h3⟩

set_option maxRecDepth 100000 in
/-- C11: the parser is not total. The capture-promotion `exd8Q` (four tokens: the fourth
literal `Q` is handed to `SetTrgFromAlphaNum`, which reads its second byte) and `oe4` (the
lone `o` yields the zero token, whose empty literal is indexed at 0) both end in a run-time
panic instead of a returned move or error. -/
theorem C11_parser_panics :
    AlgebraicNotationToMove (bytes "exd8Q") = Res.panic ∧
    AlgebraicNotationToMove (bytes "oe4") = Res.panic := by decide

set_option maxRecDepth 100000 in
/-- C12: commands whose characters all tokenize but whose token sequence matches no grammar
pattern (`x`, `ed7`, `exd8=Q`) return the zero-valued move together with a nil error, not a
parse error. -/
theorem C12_unmatched_tokens_no_error :
    AlgebraicNotationToMove (bytes "x") = Res.ok (({} : Move), none) ∧
    AlgebraicNotationToMove (bytes "ed7") = Res.ok (({} : Move), none) ∧
    AlgebraicNotationToMove (bytes "exd8=Q") = Res.ok (({} : Move), none) := by decide

/-- C13: a command string containing a byte outside the token alphabet is answered by a
non-nil error and the zero-valued move. -/
theorem C13_unknown_character_rejected (cmd : Str) (h : ∃ c ∈ cmd, ¬ inAlphabet c) :
    ∃ e, AlgebraicNotationToMove cmd = Res.ok (({} : Move), some e) := by
  obtain ⟨c, hc, hbad⟩ := h
  obtain ⟨j, hj, hget⟩ := List.getElem_of_mem hc
  have hex : ∃ j, 0 ≤ j ∧ j < cmd.length ∧ ¬ inAlphabet (cmd.getD j 0) := by
    refine ⟨j, Nat.zero_le _, hj, ?_⟩
    have : cmd.getD j 0 = c := by
      simp [List.getD_eq_getElem?_getD, List.getElem?_eq_getElem hj, hget]
    rw [this]; exact hbad
  obtain ⟨toks1, e, ht⟩ := tokenizeLoop_rejects cmd cmd.length 0 [] (by omega) hex
  refine ⟨e, ?_⟩
  unfold AlgebraicNotationToMove tokenizeCommand
  simp only [ht, Res.bind_eq, Res.ok_bind, Res.pure_eq]

/-- C13, instance: `e4+` contains the byte `+`, which is outside the token alphabet. -/
theorem C13_witness :
    ∃ e, AlgebraicNotationToMove (bytes "e4+") = Res.ok (({} : Move), some e) :=
  C13_unknown_character_rejected (bytes "e4+") (by decide)

/-- C14: long coordinate notation. For every source square (file `sf` in a..h, rank `sr` in
1..8) and target square (`tf`, `tr`), the four-character command parses without an error to
the descriptor with that source and target, `Piece = NONE` and `Promote = NONE`. -/
theorem C14_long_coordinate (sf sr tf tr : Nat)
    (hsf : 97 ≤ sf ∧ sf ≤ 104) (hsr : 49 ≤ sr ∧ sr ≤ 56)
    (htf : 97 ≤ tf ∧ tf ≤ 104) (htr : 49 ≤ tr ∧ tr ≤ 56) :
    AlgebraicNotationToMove [sf, sr, tf, tr] =
      Res.ok ({ Piece := NONE, SrcRank := sr, SrcFile := sf, TrgRank := tr, TrgFile := tf,
                Promote := NONE, Capture := false }, none) :=
  parse_long_coordinate sf sr tf tr hsf hsr htf htr

/-- C14, instance: `e2e4` parses to source e2 and target e4. -/
theorem C14_witness :
    AlgebraicNotationToMove (bytes "e2e4") =
      Res.ok ({ Piece := NONE, SrcRank := 50, SrcFile := 101, TrgRank := 52, TrgFile := 101,
                Promote := NONE, Capture := false }, none) :=
  C14_long_coordinate 101 50 101 52 (by decide) (by decide) (by decide) (by decide)

set_option maxRecDepth 100000 in
/-- C15: castling literals. `o-o` parses to a king move from file e to file g and `o-o-o`
to a king move from file e to file c; both leave `SrcRank` and `TrgRank` zero and `Promote`
equal to `NONE`, and return no error. -/
theorem C15_castling_literals :
    AlgebraicNotationToMove (bytes "o-o") =
      Res.ok ({ Piece := KING, SrcRank := 0, SrcFile := 101, TrgRank := 0, TrgFile := 103,
                Promote := NONE, Capture := false }, none) ∧
    AlgebraicNotationToMove (bytes "o-o-o") =
      Res.ok ({ Piece := KING, SrcRank := 0, SrcFile := 101, TrgRank := 0, TrgFile := 99,
                Promote := NONE, Capture := false }, none) := by decide

/-- C16: piece-move grammar. For every piece letter `P` of R, N, B, Q, K, every target
square (`tf`, `tr`), every source file `sf` and every source rank `sr`, the commands
`P t`, `P x t`, `P sf t`, `P sf x t`, `P sr t`, `P sr x t` and `P sf sr x t` parse without
an error to a descriptor whose `Piece` is the type of `P` in `PieceChars` (which is not
`NONE`), whose target is `t`, whose `SrcFile` and `SrcRank` are the supplied ones (zero when
not supplied) and whose `Promote` is `NONE`. -/
theorem C16_piece_move_grammar (P sf sr tf tr : Nat) (hP : isPieceChar P = true)
    (hsf : 97 ≤ sf ∧ sf ≤ 104) (hsr : 49 ≤ sr ∧ sr ≤ 56)
    (htf : 97 ≤ tf ∧ tf ≤ 104) (htr : 49 ≤ tr ∧ tr ≤ 56) :
    PieceChars P ≠ NONE ∧
    AlgebraicNotationToMove [P, tf, tr] =
      Res.ok ({ Piece := PieceChars P, SrcRank := 0, SrcFile := 0, TrgRank := tr,
                TrgFile := tf, Promote := NONE, Capture := false }, none) ∧
    AlgebraicNotationToMove [P, 120, tf, tr] =
      Res.ok ({ Piece := PieceChars P, SrcRank := 0, SrcFile := 0, TrgRank := tr,
                TrgFile := tf, Promote := NONE, Capture := false }, none) ∧
    AlgebraicNotationToMove [P, sf, tf, tr] =
      Res.ok ({ Piece := PieceChars P, SrcRank := 0, SrcFile := sf, TrgRank := tr,
                TrgFile := tf, Promote := NONE, Capture := false }, none) ∧
    AlgebraicNotationToMove [P, sf, 120, tf, tr] =
      Res.ok ({ Piece := PieceChars P, SrcRank := 0, SrcFile := sf, TrgRank := tr,
                TrgFile := tf, Promote := NONE, Capture := false }, none) ∧
    AlgebraicNotationToMove [P, sr, tf, tr] =
      Res.ok ({ Piece := PieceChars P, SrcRank := sr, SrcFile := 0, TrgRank := tr,
                TrgFile := tf, Promote := NONE, Capture := false }, none) ∧
    AlgebraicNotationToMove [P, sr, 120, tf, tr] =
      Res.ok ({ Piece := PieceChars P, SrcRank := sr, SrcFile := 0, TrgRank := tr,
                TrgFile := tf, Promote := NONE, Capture := false }, none) ∧
    AlgebraicNotationToMove [P, sf, sr, 120, tf, tr] =
      Res.ok ({ Piece := PieceChars P, SrcRank := sr, SrcFile := sf, TrgRank := tr,
                TrgFile := tf, Promote := NONE, Capture := false }, none) :=
  ⟨PieceChars_ne_NONE hP, parse_piece_target P tf tr hP htf htr,
    parse_piece_takes P tf tr hP htf htr, parse_piece_file P sf tf tr hP hsf htf htr,
    parse_piece_file_takes P sf tf tr hP hsf htf htr, parse_piece_rank P sr tf tr hP hsr htf htr,
    parse_piece_rank_takes P sr tf tr hP hsr htf htr,
    parse_piece_square_takes P sf sr tf tr hP hsf hsr htf htr⟩

/-- C16, instances: `Bf5`, `Rxf8`, `Rdf8` (source file d), `R1a3` (source rank 1), `N3xc5`
(source rank 3) and `Qh4xe1` (source h4). -/
theorem C16_witness :
    AlgebraicNotationToMove (bytes "Bf5") =
      Res.ok ({ Piece := BISHOP, SrcRank := 0, SrcFile := 0, TrgRank := 53, TrgFile := 102,
                Promote := NONE, Capture := false }, none) ∧
    AlgebraicNotationToMove (bytes "Rxf8") =
      Res.ok ({ Piece := ROOK, SrcRank := 0, SrcFile := 0, TrgRank := 56, TrgFile := 102,
                Promote := NONE, Capture := false }, none) ∧
    AlgebraicNotationToMove (bytes "Rdf8") =
      Res.ok ({ Piece := ROOK, SrcRank := 0, SrcFile := 100, TrgRank := 56, TrgFile := 102,
                Promote := NONE, Capture := false }, none) ∧
    AlgebraicNotationToMove (bytes "R1a3") =
      Res.ok ({ Piece := ROOK, SrcRank := 49, SrcFile := 0, TrgRank := 51, TrgFile := 97,
                Promote := NONE, Capture := false }, none) ∧
    AlgebraicNotationToMove (bytes "N3xc5") =
      Res.ok ({ Piece := KNIGHT, SrcRank := 51, SrcFile := 0, TrgRank := 53, TrgFile := 99,
                Promote := NONE, Capture := false }, none) ∧
    AlgebraicNotationToMove (bytes "Qh4xe1") =
      Res.ok ({ Piece := QUEEN, SrcRank := 52, SrcFile := 104, TrgRank := 49, TrgFile := 101,
                Promote := NONE, Capture := false }, none) :=
  ⟨(C16_piece_move_grammar 66 97 49 102 53 (by decide) (by decide) (by decide) (by decide)
      (by decide)).2.1,
    (C16_piece_move_grammar 82 97 49 102 56 (by decide) (by decide) (by decide) (by decide)
      (by decide)).2.2.1,
    (C16_piece_move_grammar 82 100 49 102 56 (by decide) (by decide) (by decide) (by decide)
      (by decide)).2.2.2.1,
    (C16_piece_move_grammar 82 97 49 97 51 (by decide) (by decide) (by decide) (by decide)
      (by decide)).2.2.2.2.2.1,
    (C16_piece_move_grammar 78 97 51 99 53 (by decide) (by decide) (by decide) (by decide)
      (by decide)).2.2.2.2.2.2.1,
    (C16_piece_move_grammar 81 104 52 101 49 (by decide) (by decide) (by decide) (by decide)
      (by decide)).2.2.2.2.2.2.2⟩

/-- C17: pawn forms. For every square `t` with file `tf` and rank `tr`, the bare command
`t` parses to `Piece = PAWN`, `SrcFile = tf`, target `t`; for every file `sf` the capture
command `sf x t` parses to `Piece = PAWN`, `SrcFile = sf`, target `t`. In both `SrcRank`
is zero, `Promote` is `NONE` and no error is returned. -/
theorem C17_pawn_forms (sf tf tr : Nat) (hsf : 97 ≤ sf ∧ sf ≤ 104)
    (htf : 97 ≤ tf ∧ tf ≤ 104) (htr : 49 ≤ tr ∧ tr ≤ 56) :
    AlgebraicNotationToMove [tf, tr] =
      Res.ok ({ Piece := PAWN, SrcRank := 0, SrcFile := tf, TrgRank := tr, TrgFile := tf,
                Promote := NONE, Capture := false }, none) ∧
    AlgebraicNotationToMove [sf, 120, tf, tr] =
      Res.ok ({ Piece := PAWN, SrcRank := 0, SrcFile := sf, TrgRank := tr, TrgFile := tf,
                Promote := NONE, Capture := false }, none) :=
  ⟨parse_pawn_push tf tr htf htr, parse_pawn_takes sf tf tr hsf htf htr⟩

/-- C17, instances: `e1` and `cxd7`. -/
theorem C17_witness :
    AlgebraicNotationToMove (bytes "e1") =
      Res.ok ({ Piece := PAWN, SrcRank := 0, SrcFile := 101, TrgRank := 49, TrgFile := 101,
                Promote := NONE, Capture := false }, none) ∧
    AlgebraicNotationToMove (bytes "cxd7") =
      Res.ok ({ Piece := PAWN, SrcRank := 0, SrcFile := 99, TrgRank := 55, TrgFile := 100,
                Promote := NONE, Capture := false }, none) :=
  ⟨(C17_pawn_forms 99 101 49 (by decide) (by decide) (by decide)).1,
    (C17_pawn_forms 99 100 55 (by decide) (by decide) (by decide)).2⟩

/-- C18: promotion forms. For every square `t` and piece letter `P` of R, N, B, Q, K the
commands `t P` and `t = P` parse to the same descriptor: `Piece = PAWN`, target `t`,
`Promote` the type of `P` in `PieceChars` (not `NONE`), no source file or rank. For every
source square `s` the command `s t P` parses to `Piece = PAWN`, source `s`, target `t` and
the same `Promote`. No error is returned. -/
theorem C18_promotion_forms (P sf sr tf tr : Nat) (hP : isPieceChar P = true)
    (hsf : 97 ≤ sf ∧ sf ≤ 104) (hsr : 49 ≤ sr ∧ sr ≤ 56)
    (htf : 97 ≤ tf ∧ tf ≤ 104) (htr : 49 ≤ tr ∧ tr ≤ 56) :
    PieceChars P ≠ NONE ∧
    AlgebraicNotationToMove [tf, tr, P] =
      Res.ok ({ Piece := PAWN, SrcRank := 0, SrcFile := 0, TrgRank := tr, TrgFile := tf,
                Promote := PieceChars P, Capture := false }, none) ∧
    AlgebraicNotationToMove [tf, tr, 61, P] = AlgebraicNotationToMove [tf, tr, P] ∧
    AlgebraicNotationToMove [sf, sr, tf, tr, P] =
      Res.ok ({ Piece := PAWN, SrcRank := sr, SrcFile := sf, TrgRank := tr, TrgFile := tf,
                Promote := PieceChars P, Capture := false }, none) :=
  ⟨PieceChars_ne_NONE hP, parse_promotion tf tr P htf htr hP,
    (parse_promotion_equals tf tr P htf htr hP).trans (parse_promotion tf tr P htf htr hP).symm,
    parse_promotion_long sf sr tf tr P hsf hsr htf htr hP⟩

/-- C18, instances: `e8Q`, `g8=R` and `e7e8Q`. -/
theorem C18_witness :
    AlgebraicNotationToMove (bytes "e8Q") =
      Res.ok ({ Piece := PAWN, SrcRank := 0, SrcFile := 0, TrgRank := 56, TrgFile := 101,
                Promote := QUEEN, Capture := false }, none) ∧
    AlgebraicNotationToMove (bytes "g8=R") = AlgebraicNotationToMove (bytes "g8R") ∧
    AlgebraicNotationToMove (bytes "g8R") =
      Res.ok ({ Piece := PAWN, SrcRank := 0, SrcFile := 0, TrgRank := 56, TrgFile := 103,
                Promote := ROOK, Capture := false }, none) ∧
    AlgebraicNotationToMove (bytes "e7e8Q") =
      Res.ok ({ Piece := PAWN, SrcRank := 55, SrcFile := 101, TrgRank := 56, TrgFile := 101,
                Promote := QUEEN, Capture := false }, none) :=
  ⟨(C18_promotion_forms 81 101 55 101 56 (by decide) (by decide) (by decide) (by decide)
      (by decide)).2.1,
    (C18_promotion_forms 82 101 55 103 56 (by decide) (by decide) (by decide) (by decide)
      (by decide)).2.2.1,
    (C18_promotion_forms 82 101 55 103 56 (by decide) (by decide) (by decide) (by decide)
      (by decide)).2.1,
    (C18_promotion_forms 81 101 55 101 56 (by decide) (by decide) (by decide) (by decide)
      (by decide)).2.2.2⟩

/-! ## Reading the fields of a FEN text -/

theorem spaceWidth_append_space (c : Nat) (t rest : Str) (h : spaceWidth (c :: t) = 0) :
    spaceWidth (c :: (t ++ 32 :: rest)) = 0 := by
  rcases t with _ | ⟨d, _ | ⟨e, t⟩⟩ <;> rcases rest with _ | ⟨r, rest⟩ <;>
    simp only [spaceWidth, List.nil_append, List.cons_append] at h ⊢ <;>
    split_ifs at h ⊢ <;> simp_all

theorem fieldsLoop_word_noSpace (w : Str) : ∀ (cur rest : Str), noSpace w = true →
    fieldsLoop (w ++ 32 :: rest) 0 cur =
      (if cur ++ w = [] then [] else [cur ++ w]) ++ fieldsLoop rest 0 [] := by
  induction w with
  | nil =>
    intro cur rest _
    have : spaceWidth (32 :: rest) = 1 := by simp [spaceWidth]
    rw [List.nil_append, fieldsLoop_cons_zero, this]
    simp
  | cons c w ih =>
    intro cur rest hv
    simp only [noSpace, Bool.and_eq_true, decide_eq_true_eq] at hv
    rw [List.cons_append, fieldsLoop_cons_zero,
      if_pos (spaceWidth_append_space c w rest hv.1), ih (cur ++ [c]) rest hv.2]
    simp

theorem fieldsLoop_last_noSpace (w : Str) : ∀ (cur : Str), noSpace w = true →
    fieldsLoop w 0 cur = (if cur ++ w = [] then [] else [cur ++ w]) := by
  induction w with
  | nil => intro cur _; simp [fieldsLoop]
  | cons c w ih =>
    intro cur hv
    simp only [noSpace, Bool.and_eq_true, decide_eq_true_eq] at hv
    rw [fieldsLoop_cons_zero, if_pos hv.1, ih (cur ++ [c]) hv.2]
    simp

theorem noSpace_of_visible (w : Str) (h : ∀ c ∈ w, visible c) : noSpace w = true := by
  induction w with
  | nil => rfl
  | cons c w ih =>
    simp only [noSpace, Bool.and_eq_true, decide_eq_true_eq]
    exact ⟨spaceWidth_visible (h c (List.mem_cons_self _ _)) _,
      ih (fun d hd => h d (List.mem_cons_of_mem _ hd))⟩

theorem Fields_six_noSpace (a b c d e f : Str) (ha : noSpace a = true) (hb : noSpace b = true)
    (hc : noSpace c = true) (hd : noSpace d = true) (he : noSpace e = true)
    (hf : noSpace f = true) (na : a ≠ []) (nb : b ≠ []) (nc : c ≠ []) (nd : d ≠ [])
    (ne : e ≠ []) (nf : f ≠ []) :
    Fields (a ++ 32 :: (b ++ 32 :: (c ++ 32 :: (d ++ 32 :: (e ++ 32 :: f))))) =
      [a, b, c, d, e, f] := by
  unfold Fields
  rw [fieldsLoop_word_noSpace a _ _ ha, fieldsLoop_word_noSpace b _ _ hb,
    fieldsLoop_word_noSpace c _ _ hc, fieldsLoop_word_noSpace d _ _ hd,
    fieldsLoop_word_noSpace e _ _ he, fieldsLoop_last_noSpace f _ hf]
  simp [na, nb, nc, nd, ne, nf]

theorem parseDigits_head (c : Nat) (l : Str) (a n : Nat)
    (h : parseDigits (c :: l) a = some n) : 48 ≤ c ∧ c ≤ 57 := by
  by_contra hc
  simp [parseDigits, hc] at h

theorem Atoi_of_denotes (s : Str) (x : Int) (h : denotes s x) : Atoi s = (x, false) := by
  obtain ⟨digits, n, hne, hp, hs, hr⟩ := h
  obtain ⟨c, l, rfl⟩ := List.exists_cons_of_ne_nil hne
  have hc := parseDigits_head c l 0 n hp
  have h45 : ¬ c = 45 := by omega
  have h43 : ¬ c = 43 := by omega
  unfold isInt64 at hr
  rcases hs with ⟨rfl, rfl⟩ | ⟨rfl, rfl⟩ | ⟨rfl, rfl⟩
  · have hn : ¬ n > 9223372036854775807 := by omega
    simp [Atoi, h45, h43, hp, hn]
  · have hn : ¬ n > 9223372036854775807 := by omega
    simp [Atoi, hp, hn]
  · have hn : ¬ n > 9223372036854775808 := by omega
    simp [Atoi, hp, hn]

theorem denotes_of_Atoi (s : Str) (h : (Atoi s).2 = false) : denotes s (Atoi s).1 := by
  unfold Atoi at h ⊢
  simp only at h ⊢
  by_cases hb : (if s.head? = some 45 ∨ s.head? = some 43 then s.tail else s) = []
  · rw [if_pos hb] at h; cases h
  · rw [if_neg hb] at h ⊢
    generalize hbody : (if s.head? = some 45 ∨ s.head? = some 43 then s.tail else s) = body
      at h hb ⊢
    cases hp : parseDigits body 0 with
    | none => rw [hp] at h; cases h
    | some n =>
      rw [hp] at h
      simp only at h ⊢
      obtain ⟨c, l, rfl⟩ := List.exists_cons_of_ne_nil hb
      have hc := parseDigits_head c l 0 n hp
      by_cases h45 : s.head? = some 45
      · have hs : s = 45 :: c :: l := by
          rcases s with _ | ⟨a, t⟩
          · simp at h45
          · simp only [List.head?_cons, Option.some.injEq] at h45
            subst h45
            simp only [List.head?_cons, true_or, if_true, List.tail_cons] at hbody
            rw [hbody]
        simp only [h45, decide_True, if_true] at h ⊢
        by_cases hn : n > 9223372036854775808
        · rw [if_pos hn] at h; cases h
        · rw [if_neg hn]
          exact ⟨c :: l, n, hb, hp, Or.inr (Or.inr ⟨hs, rfl⟩), by unfold isInt64; omega⟩
      · simp only [h45, decide_False, Bool.false_eq_true, if_false] at h ⊢
        by_cases hn : n > 9223372036854775807
        · rw [if_pos hn] at h; cases h
        · rw [if_neg hn]
          by_cases h43 : s.head? = some 43
          · have hs : s = 43 :: c :: l := by
              rcases s with _ | ⟨a, t⟩
              · simp at h43
              · simp only [List.head?_cons, Option.some.injEq] at h43
                subst h43
                simp only [List.head?_cons, or_true, if_true, List.tail_cons] at hbody
                rw [hbody]
            exact ⟨c :: l, n, hb, hp, Or.inr (Or.inl ⟨hs, rfl⟩), by unfold isInt64; omega⟩
          · have hs : s = c :: l := by simpa [h45, h43] using hbody
            exact ⟨c :: l, n, hb, hp, Or.inl ⟨hs, rfl⟩, by unfold isInt64; omega⟩

theorem Atoi_error_iff (s : Str) : (Atoi s).2 = true ↔ ¬ ∃ x, denotes s x := by
  constructor
  · rintro h ⟨x, hx⟩
    rw [Atoi_of_denotes s x hx] at h
    cases h
  · intro h
    by_contra hf
    exact h ⟨_, denotes_of_Atoi s (by simpa using hf)⟩

set_option maxRecDepth 100000 in
/-- C19: a six-field FEN string whose board field contains the byte `X`, which is no digit,
no `/` and none of the twelve piece letters, is read by `LoadFen` without an error: the
lookup `FromFenChar['X']` yields the empty piece, which is stored on e7, and the other 63
squares are those of the start position. -/
theorem C19_unknown_board_character_accepted :
    (Fields unknownCharFen).length = 6 ∧
    88 ∈ (Fields unknownCharFen).headD [] ∧
    (CreateDefault.LoadFen unknownCharFen).sat (fun r =>
      decide (r.2 = none) &&
      decide (r.1.Board.Pieces = DefaultBoard.set 12 EMPTYP)) = true := by
  decide!

theorem validateKingSafety_rejected (ic : Board → Color → Res Bool) (b : Board) (mv : Move)
    (c : Color) (r : Bool × Str) (h : r.1 = false) : validateKingSafety ic b mv c r = Res.ok r := by
  unfold validateKingSafety
  simp [h, Res.pure_eq]

theorem ValidateMove_of_rules (fuel : Nat) (b : Board) (mv : Move) (c : Color) (msg : Str)
    (h : validateRules b mv c = Res.ok (false, msg)) :
    b.ValidateMove fuel mv c = Res.ok (false, msg) := by
  cases fuel <;>
    simp only [Board.ValidateMove, ValidateMoveWith, h, Res.ok_bind] <;>
    exact validateKingSafety_rejected _ b mv c _ rfl

/-- C30: castling is gated by the rights flag.  For every board, colour `c` and recursion
budget, the king move from e1 to g1 or from e8 to g8 is rejected with the reason
`Can no longer short castle` when `CanCastleShort(c)` is false, and the king move from e1
to c1 or from e8 to c8 is rejected with `Can no longer long castle` when
`CanCastleLong(c)` is false, whatever the squares hold. -/
theorem C30_castling_needs_rights (fuel : Nat) (b : Board) (c : Color) (mv : Move)
    (short : Bool) (hk : mv.Piece = KING) (hsf : mv.SrcFile = 101)
    (htf : mv.TrgFile = if short then 103 else 99)
    (hrank : (mv.SrcRank = 49 ∧ mv.TrgRank = 49) ∨ (mv.SrcRank = 56 ∧ mv.TrgRank = 56))
    (hbit : (if short then b.CanCastleShort c else b.CanCastleLong c) = false) :
    b.ValidateMove fuel mv c =
      Res.ok (false, if short then bytes "Can no longer short castle"
        else bytes "Can no longer long castle") := by
  apply ValidateMove_of_rules
  cases short
  · simp only [Bool.false_eq_true, if_false] at htf hbit ⊢
    have hs : mv.IsShortCastle = false := by
      rcases hrank with ⟨h1, h2⟩ | ⟨h1, h2⟩ <;>
        simp [Move.IsShortCastle, Move.SrcSqNum, Move.TrgSqNum, hk, hsf, htf, h1, h2, badd, bsub,
          bmul]
    have hl : mv.IsLongCastle = true := by
      rcases hrank with ⟨h1, h2⟩ | ⟨h1, h2⟩ <;>
        simp [Move.IsLongCastle, Move.SrcSqNum, Move.TrgSqNum, hk, hsf, htf, h1, h2, badd, bsub,
          bmul]
    simp [validateRules, hs, hl, hbit, Res.pure_eq, Res.bind_eq]
  · simp only [if_true] at htf hbit ⊢
    have hs : mv.IsShortCastle = true := by
      rcases hrank with ⟨h1, h2⟩ | ⟨h1, h2⟩ <;>
        simp [Move.IsShortCastle, Move.SrcSqNum, Move.TrgSqNum, hk, hsf, htf, h1, h2, badd, bsub,
          bmul]
    simp [validateRules, hs, hbit, Res.pure_eq, Res.bind_eq]

/-- C30, instance: on the start position with the castling rights cleared, White's king move
from e1 to g1 is rejected. -/
theorem C30_witness :
    ({ Board.CreateDefault with CastleRights := 0 } : Board).ValidateMove 1
      (mkMove KING 101 49 103 49) WHITE =
      Res.ok (false, bytes "Can no longer short castle") :=
  C30_castling_needs_rights 1 { Board.CreateDefault with CastleRights := 0 } WHITE
    (mkMove KING 101 49 103 49) true (by decide) (by decide) (by decide) (by decide) (by decide)

/-! ## The walk of `FirstPieceInDirection` -/

theorem firstPieceLoop_beyond (b : Board) (s : Int) (hs : s ≠ 0) :
    ∀ (N : Nat) (q : Int), 0 ≤ q → q < 64 → (if s > 0 then 64 - q else q + 1) ≤ (N : Int) →
      ∃ p sq, firstPieceLoop b s N q = Res.ok (p, sq) ∧ (s > 0 → q < sq) ∧ (s < 0 → sq < q) := by
  intro N
  induction N with
  | zero =>
    intro q h0 h64 hm
    split at hm <;> omega
  | succ N ih =>
    intro q h0 h64 hm
    unfold firstPieceLoop
    simp only [if_pos h64]
    by_cases h1 : q + s > 0 ∧ q + s < 64 ∧ (b.Pieces.getD (q + s).toNat EMPTYP).Typ ≠ NONE
    · rw [if_pos h1]
      exact ⟨_, _, rfl, by omega, by omega⟩
    · rw [if_neg h1]
      by_cases h2 : q + s < 0 ∨ q + s ≥ 64
      · rw [if_pos h2]
        exact ⟨_, _, rfl, by omega, by omega⟩
      · rw [if_neg h2]
        have hm2 : (if s > 0 then 64 - (q + s) else (q + s) + 1) ≤ (N : Int) := by
          split at hm <;> split <;> push_cast at hm <;> omega
        obtain ⟨p, sq, h, ha, hb⟩ := ih (q + s) (by omega) (by omega) hm2
        exact ⟨p, sq, h, fun hp => by have := ha hp; omega, fun hn => by have := hb hn; omega⟩

theorem firstPieceLoop_walk (b : Board) (s : Int) (hs : s ≠ 0) (pos : Nat → Int) (n : Nat)
    (hpos : ∀ k, pos (k + 1) = pos k + s)
    (hbetween : ∀ k : Nat, 0 < k → k < n → 0 < pos k ∧ pos k < 64)
    (htrg : 0 ≤ pos n ∧ pos n < 64) :
    ∀ (d j N : Nat), j + d = n → 0 < d → 0 ≤ pos j → pos j < 64 →
      (if s > 0 then 64 - pos j else pos j + 1) ≤ (N : Int) →
      ∃ p sq, firstPieceLoop b s N (pos j) = Res.ok (p, sq) ∧
        ((∃ k, j < k ∧ k < n ∧ sq = pos k ∧ p = b.Pieces.getD sq.toNat EMPTYP ∧ p.Typ ≠ NONE ∧
            ∀ i, j < i → i < k → (b.Pieces.getD (pos i).toNat EMPTYP).Typ = NONE) ∨
         ((∀ k, j < k → k < n → (b.Pieces.getD (pos k).toNat EMPTYP).Typ = NONE) ∧
            (s > 0 → pos n ≤ sq) ∧ (s < 0 → sq ≤ pos n))) := by
  intro d
  induction d with
  | zero => intro j N _ h; omega
  | succ d ih =>
    intro j N hjd _ h0 h64 hm
    cases N with
    | zero => split at hm <;> omega
    | succ N =>
      have hm2 : (if s > 0 then 64 - (pos j + s) else (pos j + s) + 1) ≤ (N : Int) := by
        split at hm <;> split <;> push_cast at hm <;> omega
      unfold firstPieceLoop
      simp only [if_pos h64]
      rw [← hpos j]
      rw [← hpos j] at hm2
      by_cases hd : d = 0
      · -- the next square is the target
        have hn : j + 1 = n := by omega
        rw [hn] at hm2 ⊢
        by_cases h1 : pos n > 0 ∧ pos n < 64 ∧ (b.Pieces.getD (pos n).toNat EMPTYP).Typ ≠ NONE
        · rw [if_pos h1]
          refine ⟨_, _, rfl, Or.inr ⟨fun k h1 h2 => by omega, fun _ => le_refl _, fun _ => le_refl _⟩⟩
        · rw [if_neg h1]
          have h2 : ¬ (pos n < 0 ∨ pos n ≥ 64) := by omega
          rw [if_neg h2]
          obtain ⟨p, sq, h, ha, hb⟩ := firstPieceLoop_beyond b s hs N (pos n) htrg.1 htrg.2 hm2
          refine ⟨p, sq, h, Or.inr ⟨fun k h1 h2 => by omega, fun hp => ?_, fun hn => ?_⟩⟩
          · have := ha hp; omega
          · have := hb hn; omega
      · have hb1 := hbetween (j + 1) (by omega) (by omega)
        by_cases h1 : (b.Pieces.getD (pos (j + 1)).toNat EMPTYP).Typ ≠ NONE
        · rw [if_pos ⟨hb1.1, hb1.2, h1⟩]
          exact ⟨_, _, rfl, Or.inl ⟨j + 1, by omega, by omega, rfl, rfl, h1,
            fun i h1 h2 => by omega⟩⟩
        · have h1a : ¬ (pos (j + 1) > 0 ∧ pos (j + 1) < 64 ∧
              (b.Pieces.getD (pos (j + 1)).toNat EMPTYP).Typ ≠ NONE) := fun h => h1 h.2.2
          have h2 : ¬ (pos (j + 1) < 0 ∨ pos (j + 1) ≥ 64) := by omega
          rw [if_neg h1a, if_neg h2]
          have h1e : (b.Pieces.getD (pos (j + 1)).toNat EMPTYP).Typ = NONE := by
            by_contra hc; exact h1 hc
          obtain ⟨p, sq, h, hcase⟩ := ih (j + 1) N (by omega) (by omega) (by omega) hb1.2 hm2
          refine ⟨p, sq, h, ?_⟩
          rcases hcase with ⟨k, hk1, hk2, hk3, hk4, hk5, hk6⟩ | ⟨hk1, hk2, hk3⟩
          · refine Or.inl ⟨k, by omega, hk2, hk3, hk4, hk5, fun i hi1 hi2 => ?_⟩
            by_cases hij : i = j + 1
            · rw [hij]; exact h1e
            · exact hk6 i (by omega) hi2
          · refine Or.inr ⟨fun k hk hkn => ?_, hk2, hk3⟩
            by_cases hij : k = j + 1
            · rw [hij]; exact h1e
            · exact hk1 k (by omega) hkn

theorem SrcSqNum_eq (mv : Move) (hsf : 97 ≤ mv.SrcFile ∧ mv.SrcFile ≤ 104)
    (hsr : 49 ≤ mv.SrcRank ∧ mv.SrcRank ≤ 56) :
    mv.SrcSqNum = squareOf mv.SrcFile mv.SrcRank := by
  unfold Move.SrcSqNum squareOf
  rw [sqNum_range _ _ hsf hsr]
  simp only [Int.ofNat_eq_coe]
  omega

theorem TrgSqNum_eq (mv : Move) (htf : 97 ≤ mv.TrgFile ∧ mv.TrgFile ≤ 104)
    (htr : 49 ≤ mv.TrgRank ∧ mv.TrgRank ≤ 56) :
    mv.TrgSqNum = squareOf mv.TrgFile mv.TrgRank := by
  unfold Move.TrgSqNum squareOf
  rw [sqNum_range _ _ htf htr]
  simp only [Int.ofNat_eq_coe]
  omega

theorem sgn_cases (x : Int) : (x < 0 ∧ sgn x = -1) ∨ (x = 0 ∧ sgn x = 0) ∨ (0 < x ∧ sgn x = 1) := by
  unfold sgn
  rcases lt_trichotomy x 0 with h | h | h
  · left; refine ⟨h, ?_⟩; rw [if_neg (by omega), if_pos h]
  · right; left; refine ⟨h, ?_⟩; rw [if_neg (by omega), if_neg (by omega)]
  · right; right; refine ⟨h, ?_⟩; rw [if_pos h]

theorem pathSquare_succ (mv : Move) (k : Nat) :
    mv.pathSquare (k + 1) = mv.pathSquare k + (sgn mv.MoveDelta.1 - sgn mv.MoveDelta.2 * 8) := by
  unfold Move.pathSquare squareOf
  push_cast
  ring

theorem path_geometry (mv : Move) (hsf : 97 ≤ mv.SrcFile ∧ mv.SrcFile ≤ 104)
    (hsr : 49 ≤ mv.SrcRank ∧ mv.SrcRank ≤ 56) (htf : 97 ≤ mv.TrgFile ∧ mv.TrgFile ≤ 104)
    (htr : 49 ≤ mv.TrgRank ∧ mv.TrgRank ≤ 56) (hline : mv.onLine)
    (hne : mv.SrcFile ≠ mv.TrgFile ∨ mv.SrcRank ≠ mv.TrgRank) :
    sgn mv.MoveDelta.1 - sgn mv.MoveDelta.2 * 8 ≠ 0 ∧ 0 < mv.pathLength ∧
    mv.pathSquare 0 = mv.SrcSqNum ∧ mv.pathSquare mv.pathLength = mv.TrgSqNum ∧
    0 ≤ mv.SrcSqNum ∧ mv.SrcSqNum < 64 ∧ 0 ≤ mv.TrgSqNum ∧ mv.TrgSqNum < 64 ∧
    (sgn mv.MoveDelta.1 - sgn mv.MoveDelta.2 * 8 > 0 → mv.SrcSqNum < mv.TrgSqNum) ∧
    (sgn mv.MoveDelta.1 - sgn mv.MoveDelta.2 * 8 < 0 → mv.TrgSqNum < mv.SrcSqNum) ∧
    ∀ k : Nat, 0 < k → k < mv.pathLength →
      0 < mv.pathSquare k ∧ mv.pathSquare k < 64 ∧
      (sgn mv.MoveDelta.1 - sgn mv.MoveDelta.2 * 8 > 0 →
        mv.SrcSqNum < mv.pathSquare k ∧ mv.pathSquare k < mv.TrgSqNum) ∧
      (sgn mv.MoveDelta.1 - sgn mv.MoveDelta.2 * 8 < 0 →
        mv.TrgSqNum < mv.pathSquare k ∧ mv.pathSquare k < mv.SrcSqNum) := by
  rw [SrcSqNum_eq mv hsf hsr, TrgSqNum_eq mv htf htr]
  unfold Move.onLine at hline
  unfold Move.pathLength Move.pathSquare squareOf
  simp only [Move.MoveDelta] at hline ⊢
  rcases sgn_cases ((mv.TrgFile : Int) - (mv.SrcFile : Int)) with ⟨hx, hsx⟩ | ⟨hx, hsx⟩ | ⟨hx, hsx⟩ <;>
    rcases sgn_cases ((mv.TrgRank : Int) - (mv.SrcRank : Int)) with
      ⟨hy, hsy⟩ | ⟨hy, hsy⟩ | ⟨hy, hsy⟩ <;>
    rw [hsx, hsy] <;>
    simp only [mul_neg, mul_one, mul_zero, add_zero, Nat.cast_zero, zero_mul] <;>
    refine ⟨?_, ?_, ?_, ?_, ?_, ?_, ?_, ?_, ?_, ?_, fun k hk0 hkn => ?_⟩ <;>
    first | omega | trivial

theorem pieceBlockingPath_eq (b : Board) (mv : Move) :
    b.pieceBlockingPath mv =
      (firstPieceLoop b (sgn mv.MoveDelta.1 - sgn mv.MoveDelta.2 * 8) 64 mv.SrcSqNum).bind
        (fun r =>
          if mv.SrcSqNum < mv.TrgSqNum ∧ r.2 < mv.TrgSqNum then Res.ok r
          else if mv.SrcSqNum > mv.TrgSqNum ∧ r.2 > mv.TrgSqNum then Res.ok r
          else Res.ok (EMPTYP, -1)) := rfl

theorem pieceBlockingPath_spec (b : Board) (mv : Move)
    (hsf : 97 ≤ mv.SrcFile ∧ mv.SrcFile ≤ 104) (hsr : 49 ≤ mv.SrcRank ∧ mv.SrcRank ≤ 56)
    (htf : 97 ≤ mv.TrgFile ∧ mv.TrgFile ≤ 104) (htr : 49 ≤ mv.TrgRank ∧ mv.TrgRank ≤ 56)
    (hline : mv.onLine) (hne : mv.SrcFile ≠ mv.TrgFile ∨ mv.SrcRank ≠ mv.TrgRank) :
    ∃ p sq, b.pieceBlockingPath mv = Res.ok (p, sq) ∧
      ((∃ k, 0 < k ∧ k < mv.pathLength ∧ sq = mv.pathSquare k ∧
          p = b.Pieces.getD sq.toNat EMPTYP ∧ b.occupied sq ∧
          ∀ i, 0 < i → i < k → ¬ b.occupied (mv.pathSquare i)) ∨
       (p = EMPTYP ∧ sq = -1 ∧ ∀ k, 0 < k → k < mv.pathLength → ¬ b.occupied (mv.pathSquare k))) := by
  obtain ⟨hs, hn, h0, hN, hs0, hs64, ht0, ht64, hpos, hneg, hbet⟩ :=
    path_geometry mv hsf hsr htf htr hline hne
  have hm : (if sgn mv.MoveDelta.1 - sgn mv.MoveDelta.2 * 8 > 0 then 64 - mv.pathSquare 0
      else mv.pathSquare 0 + 1) ≤ ((64 : Nat) : Int) := by
    rw [h0]; split <;> push_cast <;> omega
  obtain ⟨p, sq, hw, hcase⟩ := firstPieceLoop_walk b _ hs mv.pathSquare mv.pathLength
    (pathSquare_succ mv) (fun k h1 h2 => ⟨(hbet k h1 h2).1, (hbet k h1 h2).2.1⟩)
    (by rw [hN]; exact ⟨ht0, ht64⟩) mv.pathLength 0 64 (by omega) hn (by rw [h0]; exact hs0)
    (by rw [h0]; exact hs64) hm
  rw [h0] at hw
  rw [pieceBlockingPath_eq, hw, Res.ok_bind]
  rcases hcase with ⟨k, hk0, hkn, hsq, hp, hocc, hfirst⟩ | ⟨hnone, hge, hle⟩
  · have hb := hbet k hk0 hkn
    rcases lt_or_gt_of_ne hs with hlt | hgt
    · have h1 := hb.2.2.2 hlt
      have h2 := hneg hlt
      have c1 : ¬ (mv.SrcSqNum < mv.TrgSqNum ∧ sq < mv.TrgSqNum) := by omega
      have c2 : mv.SrcSqNum > mv.TrgSqNum ∧ sq > mv.TrgSqNum := by omega
      simp only [if_neg c1, if_pos c2]
      refine ⟨p, sq, rfl, Or.inl ⟨k, hk0, hkn, hsq, hp, ?_, fun i hi1 hi2 => ?_⟩⟩
      · unfold Board.occupied; rw [← hp]; exact hocc
      · unfold Board.occupied; rw [hfirst i hi1 hi2]; exact fun h => h rfl
    · have h1 := hb.2.2.1 hgt
      have h2 := hpos hgt
      have c1 : mv.SrcSqNum < mv.TrgSqNum ∧ sq < mv.TrgSqNum := by omega
      simp only [if_pos c1]
      refine ⟨p, sq, rfl, Or.inl ⟨k, hk0, hkn, hsq, hp, ?_, fun i hi1 hi2 => ?_⟩⟩
      · unfold Board.occupied; rw [← hp]; exact hocc
      · unfold Board.occupied; rw [hfirst i hi1 hi2]; exact fun h => h rfl
  · rw [hN] at hge hle
    have hfree : ∀ k, 0 < k → k < mv.pathLength → ¬ b.occupied (mv.pathSquare k) := by
      intro k h1 h2
      unfold Board.occupied; rw [hnone k h1 h2]; exact fun h => h rfl
    rcases lt_or_gt_of_ne hs with hlt | hgt
    · have h2 := hneg hlt
      have h3 := hle hlt
      have c1 : ¬ (mv.SrcSqNum < mv.TrgSqNum ∧ sq < mv.TrgSqNum) := by omega
      have c2 : ¬ (mv.SrcSqNum > mv.TrgSqNum ∧ sq > mv.TrgSqNum) := by omega
      simp only [if_neg c1, if_neg c2]
      exact ⟨_, _, rfl, Or.inr ⟨rfl, rfl, hfree⟩⟩
    · have h2 := hpos hgt
      have h3 := hge hgt
      have c1 : ¬ (mv.SrcSqNum < mv.TrgSqNum ∧ sq < mv.TrgSqNum) := by omega
      have c2 : ¬ (mv.SrcSqNum > mv.TrgSqNum ∧ sq > mv.TrgSqNum) := by omega
      simp only [if_neg c1, if_neg c2]
      exact ⟨_, _, rfl, Or.inr ⟨rfl, rfl, hfree⟩⟩

theorem pieceAt_onBoard (b : Board) (sq : Int) (h0 : 0 ≤ sq) (h64 : sq < 64) :
    b.pieceAt sq = Res.ok (b.Pieces.getD sq.toNat EMPTYP) := by
  unfold Board.pieceAt
  rw [if_pos ⟨h0, h64⟩]

theorem SqNum_bounds (mv : Move) (hsf : 97 ≤ mv.SrcFile ∧ mv.SrcFile ≤ 104)
    (hsr : 49 ≤ mv.SrcRank ∧ mv.SrcRank ≤ 56) (htf : 97 ≤ mv.TrgFile ∧ mv.TrgFile ≤ 104)
    (htr : 49 ≤ mv.TrgRank ∧ mv.TrgRank ≤ 56) :
    0 ≤ mv.SrcSqNum ∧ mv.SrcSqNum < 64 ∧ 0 ≤ mv.TrgSqNum ∧ mv.TrgSqNum < 64 ∧
    (mv.SrcSqNum = mv.TrgSqNum ↔ mv.SrcFile = mv.TrgFile ∧ mv.SrcRank = mv.TrgRank) := by
  rw [SrcSqNum_eq mv hsf hsr, TrgSqNum_eq mv htf htr]
  unfold squareOf
  omega

theorem pieceBlockingPath_returns (b : Board) (mv : Move)
    (hsf : 97 ≤ mv.SrcFile ∧ mv.SrcFile ≤ 104) (hsr : 49 ≤ mv.SrcRank ∧ mv.SrcRank ≤ 56)
    (hne : mv.SrcFile ≠ mv.TrgFile ∨ mv.SrcRank ≠ mv.TrgRank) :
    ∃ r, b.pieceBlockingPath mv = Res.ok r := by
  have hs : sgn mv.MoveDelta.1 - sgn mv.MoveDelta.2 * 8 ≠ 0 := by
    simp only [Move.MoveDelta]
    rcases sgn_cases ((mv.TrgFile : Int) - (mv.SrcFile : Int)) with ⟨hx, hsx⟩ | ⟨hx, hsx⟩ | ⟨hx, hsx⟩ <;>
      rcases sgn_cases ((mv.TrgRank : Int) - (mv.SrcRank : Int)) with
        ⟨hy, hsy⟩ | ⟨hy, hsy⟩ | ⟨hy, hsy⟩ <;>
      rw [hsx, hsy] <;> omega
  have hsrc : 0 ≤ mv.SrcSqNum ∧ mv.SrcSqNum < 64 := by
    rw [SrcSqNum_eq mv hsf hsr]; unfold squareOf; omega
  have hm : (if sgn mv.MoveDelta.1 - sgn mv.MoveDelta.2 * 8 > 0 then 64 - mv.SrcSqNum
      else mv.SrcSqNum + 1) ≤ ((64 : Nat) : Int) := by
    split <;> push_cast <;> omega
  obtain ⟨p, sq, h, _, _⟩ := firstPieceLoop_beyond b _ hs 64 mv.SrcSqNum hsrc.1 hsrc.2 hm
  rw [pieceBlockingPath_eq, h, Res.ok_bind]
  split
  · exact ⟨_, rfl⟩
  · split <;> exact ⟨_, rfl⟩

theorem occupied_not_Equals (p : Piece) (h : p.Typ ≠ NONE) : p.Equals EMPTYP = false := by
  unfold Piece.Equals
  have : ¬ p.Typ = EMPTYP.Typ := h
  simp [this]

/-- Outcome of the rule checks of `ValidateMove` for a move between squares of the board
that passes the castling-rights test: the mover's square and the target square are read,
the path is examined unless the piece is a knight, then the pawn rules apply. -/
theorem validateRules_onBoard (b : Board) (mv : Move) (c : Color)
    (hsf : 97 ≤ mv.SrcFile ∧ mv.SrcFile ≤ 104) (hsr : 49 ≤ mv.SrcRank ∧ mv.SrcRank ≤ 56)
    (htf : 97 ≤ mv.TrgFile ∧ mv.TrgFile ≤ 104) (htr : 49 ≤ mv.TrgRank ∧ mv.TrgRank ≤ 56)
    (hs : ¬ (mv.IsShortCastle = true ∧ ¬ b.CanCastleShort c = true))
    (hl : ¬ (mv.IsLongCastle = true ∧ ¬ b.CanCastleLong c = true)) :
    validateRules b mv c =
      if (b.Pieces.getD mv.SrcSqNum.toNat EMPTYP).Color =
          (b.Pieces.getD mv.TrgSqNum.toNat EMPTYP).Color then
        Res.ok (false, SqNumToStr mv.TrgSqNum ++ bytes " is occupied by your own piece")
      else
        (if mv.Piece ≠ KNIGHT then
          (b.pieceBlockingPath mv).bind (fun blk =>
            if ¬ blk.1.Equals EMPTYP = true then
              Res.ok (false, bytes "A " ++ blk.1.Name ++ bytes " on " ++ SqNumToStr blk.2 ++
                bytes " is blocking your path")
            else Res.ok (true, []))
         else Res.ok (true, [])).bind (fun r =>
          if r.1 = true ∧ mv.Piece = PAWN then
            if (b.Pieces.getD mv.SrcSqNum.toNat EMPTYP).Color = WHITE ∧ mv.SrcRank ≠ 50 ∧
                mv.MoveDelta.2 = 2 then
              Res.ok (false, bytes "A pawn can only move two spaces on its first move")
            else if (b.Pieces.getD mv.SrcSqNum.toNat EMPTYP).Color = BLACK ∧ mv.SrcRank ≠ 55 ∧
                mv.MoveDelta.2 = -2 then
              Res.ok (false, bytes "A pawn can only move two spaces on its first move")
            else if (b.Pieces.getD mv.TrgSqNum.toNat EMPTYP).Typ ≠ NONE ∧ mv.MoveDelta.1 = 0 then
              Res.ok (false, bytes "Pawns cannot move into an occupied square")
            else if (b.Pieces.getD mv.TrgSqNum.toNat EMPTYP).Typ = NONE ∧ mv.MoveDelta.1 ≠ 0 then
              Res.ok (false, bytes "Pawns can only move diagonally to capture")
            else Res.ok r
          else Res.ok r) := by
  obtain ⟨h1, h2, h3, h4, _⟩ := SqNum_bounds mv hsf hsr htf htr
  unfold validateRules
  simp only [Res.bind_eq, Res.pure_eq]
  rw [if_neg hs, if_neg hl]
  simp only [pieceAt_onBoard b _ h1 h2, pieceAt_onBoard b _ h3 h4, Res.ok_bind, if_true]
  by_cases hc : (b.Pieces.getD mv.SrcSqNum.toNat EMPTYP).Color =
      (b.Pieces.getD mv.TrgSqNum.toNat EMPTYP).Color
  · simp only [if_pos hc, Res.ok_bind, Bool.false_eq_true, false_and, if_false]
  · simp only [if_neg hc, Res.ok_bind, true_and]
    by_cases hk : mv.Piece = KNIGHT
    · have hk2 : ¬ mv.Piece ≠ KNIGHT := fun h => h hk
      simp only [if_neg hk2, Res.ok_bind, true_and]
    · have hk2 : mv.Piece ≠ KNIGHT := hk
      simp only [if_pos hk2]
      cases hb : b.pieceBlockingPath mv with
      | ok blk =>
        simp only [Res.ok_bind]
        by_cases he : ¬ blk.1.Equals EMPTYP = true
        · simp only [if_pos he, Res.ok_bind, Bool.false_eq_true, false_and, if_false]
        · simp only [if_neg he, Res.ok_bind, true_and]
      | panic => rfl
      | nofuel => rfl

theorem validateRules_castle_rejected (b : Board) (mv : Move) (c : Color)
    (h : (mv.IsShortCastle = true ∧ ¬ b.CanCastleShort c = true) ∨
      (mv.IsLongCastle = true ∧ ¬ b.CanCastleLong c = true)) :
    ∃ msg, validateRules b mv c = Res.ok (false, msg) := by
  unfold validateRules
  simp only [Res.bind_eq, Res.pure_eq]
  by_cases hs : mv.IsShortCastle = true ∧ ¬ b.CanCastleShort c = true
  · rw [if_pos hs]
    exact ⟨_, rfl⟩
  · have hl : mv.IsLongCastle = true ∧ ¬ b.CanCastleLong c = true := by
      rcases h with h | h
      · exact absurd h hs
      · exact h
    rw [if_neg hs, if_pos hl]
    exact ⟨_, rfl⟩

theorem validateRules_blocked (b : Board) (mv : Move) (c : Color)
    (hsf : 97 ≤ mv.SrcFile ∧ mv.SrcFile ≤ 104) (hsr : 49 ≤ mv.SrcRank ∧ mv.SrcRank ≤ 56)
    (htf : 97 ≤ mv.TrgFile ∧ mv.TrgFile ≤ 104) (htr : 49 ≤ mv.TrgRank ∧ mv.TrgRank ≤ 56)
    (hk : mv.Piece ≠ KNIGHT) (p : Piece) (sq : Int)
    (hb : b.pieceBlockingPath mv = Res.ok (p, sq)) (hp : p.Equals EMPTYP = false) :
    ∃ msg, validateRules b mv c = Res.ok (false, msg) := by
  by_cases hs : mv.IsShortCastle = true ∧ ¬ b.CanCastleShort c = true
  · exact validateRules_castle_rejected b mv c (Or.inl hs)
  · by_cases hl : mv.IsLongCastle = true ∧ ¬ b.CanCastleLong c = true
    · exact validateRules_castle_rejected b mv c (Or.inr hl)
    · rw [validateRules_onBoard b mv c hsf hsr htf htr hs hl]
      split
      · exact ⟨_, rfl⟩
      · have he : ¬ p.Equals EMPTYP = true := by rw [hp]; exact Bool.false_ne_true
        simp only [if_pos hk, hb, Res.ok_bind, if_pos he, Bool.false_eq_true, false_and, if_false]
        exact ⟨_, rfl⟩

/-- C28: path blocking.  For a move between two distinct squares of the board on a common
rank, file or diagonal, `pieceBlockingPath` returns, and the piece it returns is non-empty
exactly when a square strictly between source and target holds a piece; the square it then
returns is such a square, it holds the returned piece and no square nearer to the source is
occupied.  Hence a piece on the target, beyond it or past a board edge is never reported,
and `ValidateMove` rejects every such move of a piece other than a knight when a square
strictly between source and target is occupied. -/
theorem C28_path_blocking (b : Board) (mv : Move)
    (hsf : 97 ≤ mv.SrcFile ∧ mv.SrcFile ≤ 104) (hsr : 49 ≤ mv.SrcRank ∧ mv.SrcRank ≤ 56)
    (htf : 97 ≤ mv.TrgFile ∧ mv.TrgFile ≤ 104) (htr : 49 ≤ mv.TrgRank ∧ mv.TrgRank ≤ 56)
    (hline : mv.onLine) (hne : mv.SrcSqNum ≠ mv.TrgSqNum) :
    ∃ p sq, b.pieceBlockingPath mv = Res.ok (p, sq) ∧
      (p.Equals EMPTYP = false ↔
        ∃ k, 0 < k ∧ k < mv.pathLength ∧ b.occupied (mv.pathSquare k)) ∧
      (p.Equals EMPTYP = false →
        ∃ k, 0 < k ∧ k < mv.pathLength ∧ sq = mv.pathSquare k ∧ b.pieceAt sq = Res.ok p ∧
          b.occupied sq ∧ ∀ i, 0 < i → i < k → ¬ b.occupied (mv.pathSquare i)) ∧
      ((∃ k, 0 < k ∧ k < mv.pathLength ∧ b.occupied (mv.pathSquare k)) → mv.Piece ≠ KNIGHT →
        ∀ (fuel : Nat) (c : Color), ∃ msg, b.ValidateMove fuel mv c = Res.ok (false, msg)) := by
  have hne2 : mv.SrcFile ≠ mv.TrgFile ∨ mv.SrcRank ≠ mv.TrgRank := by
    have := (SqNum_bounds mv hsf hsr htf htr).2.2.2.2
    by_contra hc
    exact hne (this.2 (by omega))
  obtain ⟨_, _, _, _, _, _, _, _, _, _, hbet⟩ := path_geometry mv hsf hsr htf htr hline hne2
  obtain ⟨p, sq, hb, hcase⟩ := pieceBlockingPath_spec b mv hsf hsr htf htr hline hne2
  refine ⟨p, sq, hb, ?_⟩
  rcases hcase with ⟨k, hk0, hkn, hsq, hp, hocc, hfirst⟩ | ⟨hp, hsq, hfree⟩
  · have hpe : p.Equals EMPTYP = false := by
      apply occupied_not_Equals
      rw [hp]; exact hocc
    have hex : ∃ k, 0 < k ∧ k < mv.pathLength ∧ b.occupied (mv.pathSquare k) :=
      ⟨k, hk0, hkn, by rw [← hsq]; exact hocc⟩
    have hat : b.pieceAt sq = Res.ok p := by
      have hk := hbet k hk0 hkn
      rw [hp, pieceAt_onBoard b sq (by rw [hsq]; omega) (by rw [hsq]; omega)]
    refine ⟨⟨fun _ => hex, fun _ => hpe⟩, fun _ => ⟨k, hk0, hkn, hsq, hat, hocc, hfirst⟩, ?_⟩
    intro _ hk fuel c
    obtain ⟨msg, hm⟩ := validateRules_blocked b mv c hsf hsr htf htr hk p sq hb hpe
    exact ⟨msg, ValidateMove_of_rules fuel b mv c msg hm⟩
  · have hpe : ¬ p.Equals EMPTYP = false := by rw [hp]; decide
    have hnex : ¬ ∃ k, 0 < k ∧ k < mv.pathLength ∧ b.occupied (mv.pathSquare k) :=
      fun ⟨k, h1, h2, h3⟩ => hfree k h1 h2 h3
    exact ⟨⟨fun h => absurd h hpe, fun h => absurd h hnex⟩, fun h => absurd h hpe,
      fun h => absurd h hnex⟩

set_option maxRecDepth 100000 in
/-- C28, instance: on the start position the rook move a1 to a3 has one square strictly
between source and target, a2 (square 48), and the white pawn on it is reported. -/
theorem C28_witness :
    (rookA1A3.pathLength = 2 ∧ rookA1A3.pathSquare 1 = 48 ∧
      Board.CreateDefault.pieceBlockingPath rookA1A3 = Res.ok (PAWN_W, 48)) ∧
    ∃ p sq, Board.CreateDefault.pieceBlockingPath rookA1A3 = Res.ok (p, sq) ∧
      (p.Equals EMPTYP = false ↔
        ∃ k, 0 < k ∧ k < rookA1A3.pathLength ∧
          Board.CreateDefault.occupied (rookA1A3.pathSquare k)) ∧
      (p.Equals EMPTYP = false →
        ∃ k, 0 < k ∧ k < rookA1A3.pathLength ∧ sq = rookA1A3.pathSquare k ∧
          Board.CreateDefault.pieceAt sq = Res.ok p ∧ Board.CreateDefault.occupied sq ∧
          ∀ i, 0 < i → i < k → ¬ Board.CreateDefault.occupied (rookA1A3.pathSquare i)) ∧
      ((∃ k, 0 < k ∧ k < rookA1A3.pathLength ∧
          Board.CreateDefault.occupied (rookA1A3.pathSquare k)) → rookA1A3.Piece ≠ KNIGHT →
        ∀ (fuel : Nat) (c : Color),
          ∃ msg, Board.CreateDefault.ValidateMove fuel rookA1A3 c = Res.ok (false, msg)) :=
  ⟨by decide, C28_path_blocking Board.CreateDefault rookA1A3 (by decide) (by decide) (by decide)
    (by decide) (by decide) (by decide)⟩

theorem pawn_move_rejected (fuel : Nat) (b : Board) (mv : Move) (c : Color)
    (hP : mv.Piece = PAWN)
    (hsf : 97 ≤ mv.SrcFile ∧ mv.SrcFile ≤ 104) (hsr : 49 ≤ mv.SrcRank ∧ mv.SrcRank ≤ 56)
    (htf : 97 ≤ mv.TrgFile ∧ mv.TrgFile ≤ 104) (htr : 49 ≤ mv.TrgRank ∧ mv.TrgRank ≤ 56)
    (hbad :
      ((b.Pieces.getD mv.SrcSqNum.toNat EMPTYP).Color = WHITE ∧ mv.SrcRank ≠ 50 ∧
        mv.TrgRank = mv.SrcRank + 2) ∨
      ((b.Pieces.getD mv.SrcSqNum.toNat EMPTYP).Color = BLACK ∧ mv.SrcRank ≠ 55 ∧
        mv.TrgRank + 2 = mv.SrcRank) ∨
      (mv.TrgFile = mv.SrcFile ∧ b.occupied mv.TrgSqNum) ∨
      (mv.TrgFile ≠ mv.SrcFile ∧ ¬ b.occupied mv.TrgSqNum)) :
    ∃ msg, b.ValidateMove fuel mv c = Res.ok (false, msg) := by
  have hpk : ¬ PAWN = KING := by decide
  have hs : ¬ (mv.IsShortCastle = true ∧ ¬ b.CanCastleShort c = true) := by
    simp [Move.IsShortCastle, hP, hpk]
  have hl : ¬ (mv.IsLongCastle = true ∧ ¬ b.CanCastleLong c = true) := by
    simp [Move.IsLongCastle, hP, hpk]
  have hkn : mv.Piece ≠ KNIGHT := by rw [hP]; decide
  suffices h : ∃ msg, validateRules b mv c = Res.ok (false, msg) by
    obtain ⟨msg, hm⟩ := h
    exact ⟨msg, ValidateMove_of_rules fuel b mv c msg hm⟩
  rw [validateRules_onBoard b mv c hsf hsr htf htr hs hl]
  by_cases hc : (b.Pieces.getD mv.SrcSqNum.toNat EMPTYP).Color =
      (b.Pieces.getD mv.TrgSqNum.toNat EMPTYP).Color
  · rw [if_pos hc]
    exact ⟨_, rfl⟩
  · rw [if_neg hc]
    have hne : mv.SrcFile ≠ mv.TrgFile ∨ mv.SrcRank ≠ mv.TrgRank := by
      have := (SqNum_bounds mv hsf hsr htf htr).2.2.2.2
      by_contra hcon
      have heq : mv.SrcSqNum = mv.TrgSqNum := this.2 (by omega)
      rw [heq] at hc
      exact hc rfl
    obtain ⟨blk, hblk⟩ := pieceBlockingPath_returns b mv hsf hsr hne
    simp only [if_pos hkn, hblk, Res.ok_bind]
    by_cases he : ¬ blk.1.Equals EMPTYP = true
    · simp only [if_pos he, Res.ok_bind, Bool.false_eq_true, false_and, if_false]
      exact ⟨_, rfl⟩
    · simp only [if_neg he, Res.ok_bind, hP, true_and, and_self, if_true]
      unfold Board.occupied at hbad
      simp only [Move.MoveDelta]
      split
      · exact ⟨_, rfl⟩
      · split
        · exact ⟨_, rfl⟩
        · split
          · exact ⟨_, rfl⟩
          · split
            · exact ⟨_, rfl⟩
            · exfalso
              rename_i n1 n2 n3 n4
              rcases hbad with ⟨h1, h2, h3⟩ | ⟨h1, h2, h3⟩ | ⟨h1, h2⟩ | ⟨h1, h2⟩
              · exact n1 ⟨h1, h2, by omega⟩
              · exact n2 ⟨h1, h2, by omega⟩
              · exact n3 ⟨h2, by omega⟩
              · exact n4 ⟨by simpa using h2, by omega⟩

/-- C29: pawn rules.  For every board, colour and recursion budget, `ValidateMove` returns
`false` for a pawn move between squares of the board that (a) changes the rank by +2 from
a source rank other than 2 when the piece on the source square is white, or by -2 from a
source rank other than 7 when it is black, (b) keeps the file and has an occupied target
square, or (c) changes the file and has an empty target square. -/
theorem C29_pawn_rules (fuel : Nat) (b : Board) (mv : Move) (c : Color)
    (hP : mv.Piece = PAWN)
    (hsf : 97 ≤ mv.SrcFile ∧ mv.SrcFile ≤ 104) (hsr : 49 ≤ mv.SrcRank ∧ mv.SrcRank ≤ 56)
    (htf : 97 ≤ mv.TrgFile ∧ mv.TrgFile ≤ 104) (htr : 49 ≤ mv.TrgRank ∧ mv.TrgRank ≤ 56)
    (hbad :
      ((b.Pieces.getD mv.SrcSqNum.toNat EMPTYP).Color = WHITE ∧ mv.SrcRank ≠ 50 ∧
        mv.TrgRank = mv.SrcRank + 2) ∨
      ((b.Pieces.getD mv.SrcSqNum.toNat EMPTYP).Color = BLACK ∧ mv.SrcRank ≠ 55 ∧
        mv.TrgRank + 2 = mv.SrcRank) ∨
      (mv.TrgFile = mv.SrcFile ∧ b.occupied mv.TrgSqNum) ∨
      (mv.TrgFile ≠ mv.SrcFile ∧ ¬ b.occupied mv.TrgSqNum)) :
    ∃ msg, b.ValidateMove fuel mv c = Res.ok (false, msg) :=
  pawn_move_rejected fuel b mv c hP hsf hsr htf htr hbad

/-- C29, instance: on the start position the pawn move e2 to d3, a diagonal move onto an
empty square, is rejected. -/
theorem C29_witness :
    ∃ msg, Board.CreateDefault.ValidateMove 1 pawnE2D3 WHITE = Res.ok (false, msg) :=
  C29_pawn_rules 1 Board.CreateDefault pawnE2D3 WHITE (by decide) (by decide) (by decide)
    (by decide) (by decide) (by decide)

/-- C26 (amended): en passant is not implemented.  Whatever the en-passant target square
of the game state, a pawn move between squares of the board that changes the file and has
an empty target square is rejected by `ValidateMove` and is not in the list returned by
`AllValidMoves(ActiveColor)`. -/
theorem C26_no_en_passant (fuel : Nat) (gs : GameState) (mvs : List Move) (mv : Move)
    (hall : gs.Board.AllValidMoves fuel gs.ActiveColor = Res.ok mvs)
    (hP : mv.Piece = PAWN)
    (hsf : 97 ≤ mv.SrcFile ∧ mv.SrcFile ≤ 104) (hsr : 49 ≤ mv.SrcRank ∧ mv.SrcRank ≤ 56)
    (htf : 97 ≤ mv.TrgFile ∧ mv.TrgFile ≤ 104) (htr : 49 ≤ mv.TrgRank ∧ mv.TrgRank ≤ 56)
    (hdiag : mv.TrgFile ≠ mv.SrcFile) (hempty : ¬ gs.Board.occupied mv.TrgSqNum) :
    mv ∉ mvs ∧ ∃ msg, gs.Board.ValidateMove fuel mv gs.ActiveColor = Res.ok (false, msg) := by
  obtain ⟨msg, hmsg⟩ := pawn_move_rejected fuel gs.Board mv gs.ActiveColor hP hsf hsr htf htr
    (Or.inr (Or.inr (Or.inr ⟨hdiag, hempty⟩)))
  refine ⟨fun hmem => ?_, msg, hmsg⟩
  unfold Board.AllValidMoves at hall
  simp only [Res.bind_eq] at hall
  obtain ⟨l, _, hl⟩ := Res.bind_eq_ok.mp hall
  obtain ⟨_, msg2, h2⟩ := validLoop_mem hl hmem
  rw [hmsg] at h2
  cases h2

set_option maxRecDepth 100000 in
/-- C26, instance of the amended statement: the capture d4 takes e3 in the position with
en-passant target e3. -/
theorem C26_witness :
    pawnD4E3 ∉ validMovesOf 1 (loaded enPassantFen).Board (loaded enPassantFen).ActiveColor ∧
    ∃ msg, (loaded enPassantFen).Board.ValidateMove 1 pawnD4E3
      (loaded enPassantFen).ActiveColor = Res.ok (false, msg) :=
  C26_no_en_passant 1 (loaded enPassantFen)
    (validMovesOf 1 (loaded enPassantFen).Board (loaded enPassantFen).ActiveColor) pawnD4E3
    (by decide!) (by decide) (by decide) (by decide) (by decide) (by decide) (by decide)
    (by decide!)

set_option maxRecDepth 100000 in
/-- C26, as stated, fails: the state loaded from a FEN with en-passant target e3 has Black
to move, a black pawn on d4 diagonally adjacent to the empty square e3 and the white pawn
that has just advanced on e4, yet `AllValidMoves` returns a list without a move from d4 to
e3. -/
theorem C26_counterexample :
    CreateDefault.LoadFen enPassantFen = Res.ok (loaded enPassantFen, none) ∧
    (loaded enPassantFen).enPassantSq = 44 ∧
    (loaded enPassantFen).ActiveColor = BLACK ∧
    (loaded enPassantFen).Board.pieceAt 35 = Res.ok PAWN_B ∧
    (loaded enPassantFen).Board.pieceAt 36 = Res.ok PAWN_W ∧
    (loaded enPassantFen).Board.pieceAt 44 = Res.ok EMPTYP ∧
    pawnD4E3.SrcSqNum = 35 ∧ pawnD4E3.TrgSqNum = 44 ∧
    ((loaded enPassantFen).Board.AllValidMoves 1 BLACK).sat (fun mvs =>
      mvs.all (fun m => !(decide (m.SrcSqNum = 35) && decide (m.TrgSqNum = 44)))) = true := by
  decide!

/-! ## Status changes -/

theorem statusAfter_Status (gs : GameState) (mvs : List Move) (chk : Bool) :
    (statusAfter gs mvs chk).Status =
      if repetitionLoop gs.BoardHistory [] = true then STATUS_DRAW_REPETITION
      else if gs.HalfMoveClock = 50 then STATUS_DRAW_FIFTY_MOVES
      else if chk = false ∧ insufficientMaterial gs.Board = true then STATUS_DRAW_INSUFFICIENT
      else if mvs.length = 0 ∧ chk = true then
        (if gs.ActiveColor = WHITE then STATUS_CHECKMATE_BLACK_WINS
         else STATUS_CHECKMATE_WHITE_WINS)
      else if mvs.length = 0 then STATUS_DRAW_STALEMATE
      else gs.Status := by
  -- first assignment: checkmate or stalemate
  obtain ⟨g1, hg1, hb1, hh1, hr1, hs1⟩ : ∃ g1 : GameState,
      g1 = (if mvs.length = 0 ∧ chk = true then
          if gs.ActiveColor = WHITE then { gs with Status := STATUS_CHECKMATE_BLACK_WINS }
          else { gs with Status := STATUS_CHECKMATE_WHITE_WINS }
        else if mvs.length = 0 then { gs with Status := STATUS_DRAW_STALEMATE }
        else gs) ∧
      g1.Board = gs.Board ∧ g1.HalfMoveClock = gs.HalfMoveClock ∧
      g1.BoardHistory = gs.BoardHistory ∧
      g1.Status = (if mvs.length = 0 ∧ chk = true then
          (if gs.ActiveColor = WHITE then STATUS_CHECKMATE_BLACK_WINS
           else STATUS_CHECKMATE_WHITE_WINS)
        else if mvs.length = 0 then STATUS_DRAW_STALEMATE
        else gs.Status) := by
    refine ⟨_, rfl, ?_, ?_, ?_, ?_⟩ <;> split_ifs <;> rfl
  -- second assignment: insufficient material
  obtain ⟨g2, hg2, hh2, hr2, hs2⟩ : ∃ g2 : GameState,
      g2 = (if ¬ chk = true ∧ g1.Board.PieceCounts EMPTYP = 62 then
          { g1 with Status := STATUS_DRAW_INSUFFICIENT }
        else if ¬ chk = true ∧ g1.Board.PieceCounts EMPTYP = 61 ∧
            (g1.Board.PieceCounts BSHP_W = 1 ∨ g1.Board.PieceCounts BSHP_B = 1) then
          { g1 with Status := STATUS_DRAW_INSUFFICIENT }
        else if ¬ chk = true ∧ g1.Board.PieceCounts EMPTYP = 61 ∧
            (g1.Board.PieceCounts KNGT_W = 1 ∨ g1.Board.PieceCounts KNGT_B = 1) then
          { g1 with Status := STATUS_DRAW_INSUFFICIENT }
        else if ¬ chk = true ∧ g1.Board.PieceCounts EMPTYP = 60 ∧
            (g1.Board.PieceCounts BSHP_W = 1 ∧ g1.Board.PieceCounts BSHP_B = 1) then
          if (bishopLoop g1.Board.Pieces.enum (false, false)).1 =
              (bishopLoop g1.Board.Pieces.enum (false, false)).2 then
            { g1 with Status := STATUS_DRAW_INSUFFICIENT }
          else g1
        else g1) ∧
      g2.HalfMoveClock = gs.HalfMoveClock ∧ g2.BoardHistory = gs.BoardHistory ∧
      g2.Status = (if chk = false ∧ insufficientMaterial gs.Board = true then
          STATUS_DRAW_INSUFFICIENT else g1.Status) := by
    refine ⟨_, rfl, ?_, ?_, ?_⟩
    · rw [← hh1]; split_ifs <;> rfl
    · rw [← hr1]; split_ifs <;> rfl
    · rw [hb1]
      cases chk with
      | true => simp
      | false =>
        simp only [insufficientMaterial, Bool.or_eq_true, Bool.and_eq_true, decide_eq_true_eq,
          Bool.false_eq_true, not_false_eq_true, true_and]
        split_ifs <;> first | rfl | (exfalso; tauto)
  -- third and fourth assignments
  have hfin : statusAfter gs mvs chk =
      (if repetitionLoop
          (if g2.HalfMoveClock = 50 then { g2 with Status := STATUS_DRAW_FIFTY_MOVES }
            else g2).BoardHistory [] = true then
        { (if g2.HalfMoveClock = 50 then { g2 with Status := STATUS_DRAW_FIFTY_MOVES }
            else g2) with Status := STATUS_DRAW_REPETITION }
      else (if g2.HalfMoveClock = 50 then { g2 with Status := STATUS_DRAW_FIFTY_MOVES }
            else g2)) := by
    rw [hg2, hg1]; rfl
  rw [hfin, hh2]
  by_cases h50 : gs.HalfMoveClock = 50
  · simp only [if_pos h50, hr2]
    split_ifs <;> rfl
  · simp only [if_neg h50, hr2]
    by_cases hrep : repetitionLoop gs.BoardHistory [] = true
    · rw [if_pos hrep, if_pos hrep]
    · rw [if_neg hrep, if_neg hrep, hs2, hs1]

theorem repetitionLoop_false (l : List Board) : ∀ (seen : List (List Piece)),
    (∀ b ∈ l, seen.count b.Pieces + (l.map (fun h => h.Pieces)).count b.Pieces < 3) →
    repetitionLoop l seen = false := by
  induction l with
  | nil => intro seen _; rfl
  | cons b rest ih =>
    intro seen h
    have hb := h b (List.mem_cons_self _ _)
    simp only [List.map_cons, List.count_cons_self] at hb
    have hlt : ¬ ((seen.count b.Pieces : Int) + 1 ≥ 3) := by omega
    simp only [repetitionLoop, if_neg hlt]
    apply ih
    intro b1 hb1
    have h1 := h b1 (List.mem_cons_of_mem _ hb1)
    simp only [List.map_cons, List.count_cons] at h1 ⊢
    by_cases he : b.Pieces = b1.Pieces
    · simp only [he, beq_self_eq_true, if_true] at h1 ⊢
      omega
    · have he2 : (b.Pieces == b1.Pieces) = false := by simpa using he
      simp only [he2, Bool.false_eq_true, if_false] at h1 ⊢
      omega

theorem noThreefold_repetitionLoop (hist : List Board) (h : noThreefold hist) :
    repetitionLoop hist [] = false :=
  repetitionLoop_false hist [] (fun b hb => by simpa using h b hb)

theorem UpdateStatus_eq (fuel : Nat) (gs : GameState) (mvs : List Move) (chk : Bool)
    (hmv : gs.Board.AllValidMoves fuel gs.ActiveColor = Res.ok mvs)
    (hchk : gs.Board.IsInCheck fuel gs.ActiveColor = Res.ok chk) :
    gs.UpdateStatus fuel = Res.ok (statusAfter gs mvs chk) := by
  unfold GameState.UpdateStatus
  simp only [hmv, hchk, Res.bind_eq, Res.pure_eq, Res.ok_bind]

theorem statusAfter_fifty (gs : GameState) (mvs : List Move) (chk : Bool)
    (hrep : repetitionLoop gs.BoardHistory [] = false) :
    (gs.HalfMoveClock = 50 → (statusAfter gs mvs chk).Status = STATUS_DRAW_FIFTY_MOVES) ∧
    (gs.HalfMoveClock ≠ 50 → gs.Status ≠ STATUS_DRAW_FIFTY_MOVES →
      (statusAfter gs mvs chk).Status ≠ STATUS_DRAW_FIFTY_MOVES) := by
  have d1 : STATUS_CHECKMATE_BLACK_WINS ≠ STATUS_DRAW_FIFTY_MOVES := by decide
  have d2 : STATUS_CHECKMATE_WHITE_WINS ≠ STATUS_DRAW_FIFTY_MOVES := by decide
  have d3 : STATUS_DRAW_STALEMATE ≠ STATUS_DRAW_FIFTY_MOVES := by decide
  have d4 : STATUS_DRAW_INSUFFICIENT ≠ STATUS_DRAW_FIFTY_MOVES := by decide
  have hr : ¬ repetitionLoop gs.BoardHistory [] = true := by rw [hrep]; exact Bool.false_ne_true
  rw [statusAfter_Status, if_neg hr]
  constructor
  · intro h50
    rw [if_pos h50]
  · intro h50 hs
    rw [if_neg h50]
    split_ifs <;> assumption

/-- C24: move counters.  After `UpdateMoveCounts(mv, c)` the half-move clock is 0 when
`mv.Piece` is `PAWN` or `mv.Capture` is set and the old value plus 1 otherwise, and the
full-move count is the old value plus 1 when `c` is `BLACK` and unchanged otherwise; the
additions are those of a Go int, which are exact below the largest int. -/
theorem C24_move_counters (gs : GameState) (mv : Move) (c : Color)
    (hhalf : isInt64 gs.HalfMoveClock) (hfull : isInt64 gs.FullMoveCount) :
    (gs.UpdateMoveCounts mv c).HalfMoveClock =
      (if mv.Piece = PAWN ∨ mv.Capture = true then 0 else wrapInt (gs.HalfMoveClock + 1)) ∧
    (gs.UpdateMoveCounts mv c).FullMoveCount =
      (if c = BLACK then wrapInt (gs.FullMoveCount + 1) else gs.FullMoveCount) ∧
    (gs.HalfMoveClock < 9223372036854775807 →
      wrapInt (gs.HalfMoveClock + 1) = gs.HalfMoveClock + 1) ∧
    (gs.FullMoveCount < 9223372036854775807 →
      wrapInt (gs.FullMoveCount + 1) = gs.FullMoveCount + 1) := by
  unfold isInt64 at hhalf hfull
  refine ⟨?_, ?_, ?_, ?_⟩
  · unfold GameState.UpdateMoveCounts
    by_cases hc : c = BLACK <;> by_cases hp : mv.Piece = PAWN ∨ mv.Capture = true <;>
      simp [hc, hp]
  · unfold GameState.UpdateMoveCounts
    by_cases hc : c = BLACK <;> by_cases hp : mv.Piece = PAWN ∨ mv.Capture = true <;>
      simp [hc, hp]
  · intro h; unfold wrapInt; omega
  · intro h; unfold wrapInt; omega

/-- C24, instance: a knight move by Black at half-move clock 7 and full-move count 30 gives
8 and 31; a pawn move by Black gives 0 and 31. -/
theorem C24_witness :
    ((countersState.UpdateMoveCounts (mkMove KNIGHT 103 56 102 54) BLACK).HalfMoveClock = 8 ∧
      (countersState.UpdateMoveCounts (mkMove KNIGHT 103 56 102 54) BLACK).FullMoveCount = 31 ∧
      (countersState.UpdateMoveCounts (mkMove PAWN 101 55 101 53) BLACK).HalfMoveClock = 0) ∧
    (countersState.UpdateMoveCounts (mkMove KNIGHT 103 56 102 54) BLACK).HalfMoveClock =
      (if (mkMove KNIGHT 103 56 102 54).Piece = PAWN ∨
          (mkMove KNIGHT 103 56 102 54).Capture = true then 0
        else wrapInt (countersState.HalfMoveClock + 1)) ∧
    (countersState.UpdateMoveCounts (mkMove KNIGHT 103 56 102 54) BLACK).FullMoveCount =
      (if BLACK = BLACK then wrapInt (countersState.FullMoveCount + 1)
        else countersState.FullMoveCount) ∧
    (countersState.HalfMoveClock < 9223372036854775807 →
      wrapInt (countersState.HalfMoveClock + 1) = countersState.HalfMoveClock + 1) ∧
    (countersState.FullMoveCount < 9223372036854775807 →
      wrapInt (countersState.FullMoveCount + 1) = countersState.FullMoveCount + 1) :=
  ⟨by decide, C24_move_counters countersState (mkMove KNIGHT 103 56 102 54) BLACK (by decide)
    (by decide)⟩

theorem statusAfter_cases (gs : GameState) (mvs : List Move) (chk : Bool) :
    (statusAfter gs mvs chk).Status = gs.Status ∨
      (statusAfter gs mvs chk).Status ∈ assignedStatuses := by
  rw [statusAfter_Status]
  unfold assignedStatuses
  simp only [List.mem_cons, List.mem_singleton, List.not_mem_nil, or_false]
  split_ifs <;> tauto

theorem statusAfter_unchanged (gs : GameState) (mvs : List Move) (chk : Bool)
    (hmv : mvs ≠ []) (hmat : chk = false → insufficientMaterial gs.Board = false)
    (h50 : gs.HalfMoveClock ≠ 50) (hrep : repetitionLoop gs.BoardHistory [] = false) :
    (statusAfter gs mvs chk).Status = gs.Status := by
  have hl : ¬ mvs.length = 0 := by
    intro h; exact hmv (List.length_eq_zero.mp h)
  have hr : ¬ repetitionLoop gs.BoardHistory [] = true := by rw [hrep]; exact Bool.false_ne_true
  have hm : ¬ (chk = false ∧ insufficientMaterial gs.Board = true) := by
    rintro ⟨h1, h2⟩
    rw [hmat h1] at h2
    exact Bool.false_ne_true h2
  have hl2 : ¬ (mvs.length = 0 ∧ chk = true) := fun h => hl h.1
  rw [statusAfter_Status, if_neg hr, if_neg h50, if_neg hm, if_neg hl2, if_neg hl]

theorem applyMove_Status (gs gs1 : GameState) (mv : Move) (h : gs.applyMove mv = Res.ok gs1) :
    gs1.Status = gs.Status := by
  unfold GameState.applyMove at h
  simp only [Res.bind_eq, Res.pure_eq] at h
  obtain ⟨b1, _, h2⟩ := Res.bind_eq_ok.mp h
  injection h2 with h2
  rw [← h2]
  unfold GameState.SwitchTurn GameState.AddIncrement GameState.UpdateMoveCounts
  split_ifs <;> rfl

theorem assigned_terminal (s : Status) (h : s ∈ assignedStatuses) : s ∈ terminalStatuses := by
  unfold assignedStatuses at h
  unfold terminalStatuses
  simp only [List.mem_cons, List.mem_singleton, List.not_mem_nil, or_false] at h ⊢
  tauto

theorem castle_squares (b : Board) (mv : Move)
    (hk : mv.Piece = KING) (kh kt rh rt : Nat) (rook : Piece)
    (hsrc : mv.SrcSqNum = (kh : Int)) (htrg : mv.TrgSqNum = (kt : Int))
    (hsq : (kh = 60 ∧ kt = 62 ∧ rh = 63 ∧ rt = 61 ∧ rook = ROOK_W) ∨
      (kh = 60 ∧ kt = 58 ∧ rh = 56 ∧ rt = 59 ∧ rook = ROOK_W) ∨
      (kh = 4 ∧ kt = 6 ∧ rh = 7 ∧ rt = 5 ∧ rook = ROOK_B) ∨
      (kh = 4 ∧ kt = 2 ∧ rh = 0 ∧ rt = 3 ∧ rook = ROOK_B))
    (hfree : b.Pieces.getD kt EMPTYP = EMPTYP) :
    b.UpdateBoardWithMove mv =
      Res.ok { b with Pieces :=
        (((b.Pieces.set kt (b.Pieces.getD kh EMPTYP)).set kh EMPTYP).set rh EMPTYP).set rt rook } := by
  have hpk : ¬ KING = PAWN := by decide
  have hfree2 : b.Pieces[kt]?.getD EMPTYP = EMPTYP := by
    rw [← List.getD_eq_getElem?_getD]; exact hfree
  unfold Board.UpdateBoardWithMove
  rcases hsq with ⟨h1, h2, h3, h4, h5⟩ | ⟨h1, h2, h3, h4, h5⟩ | ⟨h1, h2, h3, h4, h5⟩ |
      ⟨h1, h2, h3, h4, h5⟩ <;>
    subst h1 h2 h3 h4 h5 <;>
    simp [hsrc, htrg, Board.pieceAt, Board.setPiece, Res.bind_eq, Res.pure_eq, Res.ok_bind, hk,
      hpk, hfree2, Res.bind]

/-- C27: castling moves king and rook together and nothing else.  For each side and each
direction, on a board whose king and castling rook stand on their home squares with only
empty squares between them, `UpdateBoardWithMove` applied to the king move from the e-file
to the g-file (short) or c-file (long) returns; afterwards the king stands on its target
square, the rook on the square the king passed over, both home squares are empty, every
other square is unchanged, and `CastleRights` and `CapturedPieces` are unchanged. -/
theorem C27_castling_moves_king_and_rook (b : Board) (mv : Move) (white short : Bool)
    (hlen : b.Pieces.length = 64) (hk : mv.Piece = KING)
    (hsf : mv.SrcFile = 101) (htf : mv.TrgFile = if short then 103 else 99)
    (hsr : mv.SrcRank = if white then 49 else 56) (htr : mv.TrgRank = if white then 49 else 56)
    (hking : b.Pieces.getD (castleKingHome white) EMPTYP = sidePiece KING white)
    (hrook : b.Pieces.getD (castleRookHome white short) EMPTYP = sidePiece ROOK white)
    (hfree : ∀ i, i < 64 → min (castleKingHome white) (castleRookHome white short) < i →
      i < max (castleKingHome white) (castleRookHome white short) →
      b.Pieces.getD i EMPTYP = EMPTYP) :
    ∃ b1, b.UpdateBoardWithMove mv = Res.ok b1 ∧ b1.Pieces.length = 64 ∧
      b1.Pieces.getD (castleKingTarget white short) EMPTYP = sidePiece KING white ∧
      b1.Pieces.getD (castleRookTarget white short) EMPTYP = sidePiece ROOK white ∧
      b1.Pieces.getD (castleKingHome white) EMPTYP = EMPTYP ∧
      b1.Pieces.getD (castleRookHome white short) EMPTYP = EMPTYP ∧
      (∀ i, i ≠ castleKingHome white → i ≠ castleRookHome white short →
        i ≠ castleKingTarget white short → i ≠ castleRookTarget white short →
        b1.Pieces.getD i EMPTYP = b.Pieces.getD i EMPTYP) ∧
      b1.CastleRights = b.CastleRights ∧ b1.CapturedPieces = b.CapturedPieces := by
  have hsrc : mv.SrcSqNum = ((castleKingHome white : Nat) : Int) := by
    cases white <;> simp [Move.SrcSqNum, castleKingHome, hsf, hsr, badd, bsub, bmul]
  have htrg : mv.TrgSqNum = ((castleKingTarget white short : Nat) : Int) := by
    cases white <;> cases short <;>
      simp [Move.TrgSqNum, castleKingTarget, htf, htr, badd, bsub, bmul]
  have hsq : (castleKingHome white = 60 ∧ castleKingTarget white short = 62 ∧
        castleRookHome white short = 63 ∧ castleRookTarget white short = 61 ∧
        sidePiece ROOK white = ROOK_W) ∨
      (castleKingHome white = 60 ∧ castleKingTarget white short = 58 ∧
        castleRookHome white short = 56 ∧ castleRookTarget white short = 59 ∧
        sidePiece ROOK white = ROOK_W) ∨
      (castleKingHome white = 4 ∧ castleKingTarget white short = 6 ∧
        castleRookHome white short = 7 ∧ castleRookTarget white short = 5 ∧
        sidePiece ROOK white = ROOK_B) ∨
      (castleKingHome white = 4 ∧ castleKingTarget white short = 2 ∧
        castleRookHome white short = 0 ∧ castleRookTarget white short = 3 ∧
        sidePiece ROOK white = ROOK_B) := by
    cases white <;> cases short <;> decide
  have hkt : b.Pieces.getD (castleKingTarget white short) EMPTYP = EMPTYP := by
    apply hfree <;> cases white <;> cases short <;> decide
  refine ⟨_, castle_squares b mv hk _ _ _ _ _ hsrc htrg hsq hkt, ?_⟩
  simp only [hking]
  rcases hsq with ⟨h1, h2, h3, h4, h5⟩ | ⟨h1, h2, h3, h4, h5⟩ | ⟨h1, h2, h3, h4, h5⟩ |
      ⟨h1, h2, h3, h4, h5⟩ <;>
    rw [h1, h2, h3, h4] <;>
    refine ⟨by simp [hlen], ?_, ?_, ?_, ?_, ?_, ?_, ?_⟩ <;>
    first
    | trivial
    | rfl
    | (intro i i1 i2 i3 i4
       rw [getD_set_other _ _ _ _ (Ne.symm i4), getD_set_other _ _ _ _ (Ne.symm i2),
         getD_set_other _ _ _ _ (Ne.symm i1), getD_set_other _ _ _ _ (Ne.symm i3)])
    | (rw [getD_set_same _ _ _ (by simp [hlen])])
    | (rw [getD_set_other _ _ _ _ (by decide), getD_set_same _ _ _ (by simp [hlen])])
    | (rw [getD_set_other _ _ _ _ (by decide), getD_set_other _ _ _ _ (by decide),
        getD_set_same _ _ _ (by simp [hlen])])
    | (rw [getD_set_other _ _ _ _ (by decide), getD_set_other _ _ _ _ (by decide),
        getD_set_other _ _ _ _ (by decide), getD_set_same _ _ _ (by simp [hlen])])

set_option maxRecDepth 100000 in
/-- C27, instance: White's short castling on a board with kings and rooks on their home
squares. -/
theorem C27_witness :
    ∃ b1, castleBoard.UpdateBoardWithMove (mkMove KING 101 49 103 49) = Res.ok b1 ∧
      b1.Pieces.length = 64 ∧
      b1.Pieces.getD (castleKingTarget true true) EMPTYP = sidePiece KING true ∧
      b1.Pieces.getD (castleRookTarget true true) EMPTYP = sidePiece ROOK true ∧
      b1.Pieces.getD (castleKingHome true) EMPTYP = EMPTYP ∧
      b1.Pieces.getD (castleRookHome true true) EMPTYP = EMPTYP ∧
      (∀ i, i ≠ castleKingHome true → i ≠ castleRookHome true true →
        i ≠ castleKingTarget true true → i ≠ castleRookTarget true true →
        b1.Pieces.getD i EMPTYP = castleBoard.Pieces.getD i EMPTYP) ∧
      b1.CastleRights = castleBoard.CastleRights ∧
      b1.CapturedPieces = castleBoard.CapturedPieces :=
  C27_castling_moves_king_and_rook castleBoard (mkMove KING 101 49 103 49) true true
    (by decide) (by decide) (by decide) (by decide) (by decide) (by decide) (by decide)
    (by decide) (by decide)

/-! ## Insufficient material -/

theorem count_empty_add_material (l : List Piece) :
    l.count EMPTYP + (l.filter (fun p => decide (p ≠ EMPTYP))).length = l.length := by
  induction l with
  | nil => rfl
  | cons p l ih =>
    by_cases hp : p = EMPTYP
    · subst hp
      simp only [List.count_cons_self, ne_eq, not_true_eq_false, decide_False,
        Bool.false_eq_true, not_false_eq_true, List.filter_cons_of_neg, List.length_cons]
      simp only [ne_eq] at ih
      omega
    · have h1 : (fun q : Piece => decide (q ≠ EMPTYP)) p = true := by simpa using hp
      rw [List.count_cons_of_ne (fun h => hp h.symm),
        List.filter_cons_of_pos (p := fun q : Piece => decide (q ≠ EMPTYP)) h1,
        List.length_cons, List.length_cons]
      omega

theorem material_counts (b : Board) (hlen : b.Pieces.length = 64) (L : List Piece)
    (hperm : b.material.Perm L) :
    b.PieceCounts EMPTYP = 64 - (L.length : Int) ∧
    ∀ p, p ≠ EMPTYP → b.PieceCounts p = (L.count p : Int) := by
  constructor
  · have h := count_empty_add_material b.Pieces
    have hl := hperm.length_eq
    unfold Board.material at hl
    unfold Board.PieceCounts
    omega
  · intro p hp
    unfold Board.PieceCounts
    rw [← hperm.count_eq p]
    unfold Board.material
    rw [List.count_filter (by simpa using hp)]

theorem bishopLoop_spec (l : List Piece) : ∀ (n : Nat) (st : Bool × Bool),
    (((bishopLoop (List.enumFrom n l) st).1 = st.1 ∧ BSHP_W ∉ l) ∨
      ∃ i, l.getD i EMPTYP = BSHP_W ∧
        (bishopLoop (List.enumFrom n l) st).1 = SquareIsLight ((n + i : Nat) : Int)) ∧
    (((bishopLoop (List.enumFrom n l) st).2 = st.2 ∧ BSHP_B ∉ l) ∨
      ∃ i, l.getD i EMPTYP = BSHP_B ∧
        (bishopLoop (List.enumFrom n l) st).2 = SquareIsLight ((n + i : Nat) : Int)) := by
  induction l with
  | nil => intro n st; exact ⟨Or.inl ⟨rfl, by simp⟩, Or.inl ⟨rfl, by simp⟩⟩
  | cons p l ih =>
    intro n st
    have hwb : ¬ BSHP_W = BSHP_B := by decide
    simp only [List.enumFrom_cons, bishopLoop]
    by_cases hw : p = BSHP_W
    · subst hw
      simp only [if_true]
      obtain ⟨h1, h2⟩ := ih (n + 1) (SquareIsLight (n : Int), st.2)
      constructor
      · rcases h1 with ⟨h1, _⟩ | ⟨i, hi, h1⟩
        · exact Or.inr ⟨0, rfl, by rw [h1]; rfl⟩
        · exact Or.inr ⟨i + 1, by simpa using hi, by rw [h1]; congr 2; omega⟩
      · rcases h2 with ⟨h2, hn⟩ | ⟨i, hi, h2⟩
        · exact Or.inl ⟨h2, by simpa [hwb, Ne.symm hwb] using hn⟩
        · exact Or.inr ⟨i + 1, by simpa using hi, by rw [h2]; congr 2; omega⟩
    · simp only [if_neg hw]
      by_cases hb : p = BSHP_B
      · subst hb
        simp only [if_true]
        obtain ⟨h1, h2⟩ := ih (n + 1) (st.1, SquareIsLight (n : Int))
        constructor
        · rcases h1 with ⟨h1, hn⟩ | ⟨i, hi, h1⟩
          · exact Or.inl ⟨h1, by simpa [hwb] using hn⟩
          · exact Or.inr ⟨i + 1, by simpa using hi, by rw [h1]; congr 2; omega⟩
        · rcases h2 with ⟨h2, _⟩ | ⟨i, hi, h2⟩
          · exact Or.inr ⟨0, rfl, by rw [h2]; rfl⟩
          · exact Or.inr ⟨i + 1, by simpa using hi, by rw [h2]; congr 2; omega⟩
      · simp only [if_neg hb]
        obtain ⟨h1, h2⟩ := ih (n + 1) st
        constructor
        · rcases h1 with ⟨h1, hn⟩ | ⟨i, hi, h1⟩
          · exact Or.inl ⟨h1, by simpa [Ne.symm hw] using hn⟩
          · exact Or.inr ⟨i + 1, by simpa using hi, by rw [h1]; congr 2; omega⟩
        · rcases h2 with ⟨h2, hn⟩ | ⟨i, hi, h2⟩
          · exact Or.inl ⟨h2, by simpa [Ne.symm hb] using hn⟩
          · exact Or.inr ⟨i + 1, by simpa using hi, by rw [h2]; congr 2; omega⟩

theorem bishopLoop_board (b : Board) (hw : b.PieceCounts BSHP_W = 1)
    (hb : b.PieceCounts BSHP_B = 1) :
    ∃ iw ib : Nat, b.Pieces.getD iw EMPTYP = BSHP_W ∧ b.Pieces.getD ib EMPTYP = BSHP_B ∧
      bishopLoop b.Pieces.enum (false, false) = (SquareIsLight iw, SquareIsLight ib) := by
  unfold Board.PieceCounts at hw hb
  have hmw : BSHP_W ∈ b.Pieces := List.count_pos_iff.mp (by omega)
  have hmb : BSHP_B ∈ b.Pieces := List.count_pos_iff.mp (by omega)
  obtain ⟨h1, h2⟩ := bishopLoop_spec b.Pieces 0 (false, false)
  rcases h1 with ⟨_, hn⟩ | ⟨iw, hiw, h1⟩
  · exact absurd hmw hn
  · rcases h2 with ⟨_, hn⟩ | ⟨ib, hib, h2⟩
    · exact absurd hmb hn
    · refine ⟨iw, ib, hiw, hib, ?_⟩
      simp only [Nat.zero_add] at h1 h2
      unfold List.enum
      exact Prod.ext h1 h2

theorem insufficientMaterial_kings (b : Board) (hlen : b.Pieces.length = 64)
    (h : b.material.Perm [KING_W, KING_B]) : insufficientMaterial b = true := by
  obtain ⟨he, _⟩ := material_counts b hlen _ h
  have he2 : b.PieceCounts EMPTYP = 62 := by rw [he]; rfl
  simp [insufficientMaterial, he2]

theorem insufficientMaterial_minor (b : Board) (hlen : b.Pieces.length = 64) (m : Piece)
    (hm : m ∈ [BSHP_W, BSHP_B, KNGT_W, KNGT_B]) (h : b.material.Perm [KING_W, KING_B, m]) :
    insufficientMaterial b = true := by
  obtain ⟨he, hc⟩ := material_counts b hlen _ h
  have he2 : b.PieceCounts EMPTYP = 61 := by rw [he]; rfl
  simp only [List.mem_cons, List.mem_singleton, List.not_mem_nil, or_false] at hm
  rcases hm with hm | hm | hm | hm <;> subst hm
  · have h1 : b.PieceCounts BSHP_W = 1 := by rw [hc _ (by decide)]; rfl
    simp [insufficientMaterial, he2, h1]
  · have h1 : b.PieceCounts BSHP_B = 1 := by rw [hc _ (by decide)]; rfl
    simp [insufficientMaterial, he2, h1]
  · have h1 : b.PieceCounts KNGT_W = 1 := by rw [hc _ (by decide)]; rfl
    simp [insufficientMaterial, he2, h1]
  · have h1 : b.PieceCounts KNGT_B = 1 := by rw [hc _ (by decide)]; rfl
    simp [insufficientMaterial, he2, h1]

theorem insufficientMaterial_bishops (b : Board) (hlen : b.Pieces.length = 64)
    (h : b.material.Perm [KING_W, KING_B, BSHP_W, BSHP_B]) :
    ∃ iw ib : Nat, b.Pieces.getD iw EMPTYP = BSHP_W ∧ b.Pieces.getD ib EMPTYP = BSHP_B ∧
      insufficientMaterial b = decide (SquareIsLight iw = SquareIsLight ib) := by
  obtain ⟨he, hc⟩ := material_counts b hlen _ h
  have he2 : b.PieceCounts EMPTYP = 60 := by rw [he]; rfl
  have h1 : b.PieceCounts BSHP_W = 1 := by rw [hc _ (by decide)]; rfl
  have h2 : b.PieceCounts BSHP_B = 1 := by rw [hc _ (by decide)]; rfl
  obtain ⟨iw, ib, hiw, hib, hloop⟩ := bishopLoop_board b h1 h2
  refine ⟨iw, ib, hiw, hib, ?_⟩
  simp [insufficientMaterial, he2, h1, h2, hloop]

theorem ite_lt_of_lt {c : Prop} [Decidable c] {a b n : Nat} (ha : a < n) (hb : b < n) :
    (if c then a else b) < n := by
  split <;> assumption

theorem fmtC_ToFenChar (p : Piece) : fmtC (ToFenChar p) = [ToFenChar p] := by
  have h : ToFenChar p < 128 := by
    unfold ToFenChar
    repeat' apply ite_lt_of_lt
    all_goals omega
  unfold fmtC
  rw [if_pos h]

theorem flush_eq (e : Nat) (h8 : e ≤ 8) :
    (if (e : Int) > 0 then fmtD (e : Int) else []) = if e = 0 then [] else [48 + e] := by
  by_cases h0 : e = 0
  · subst h0; simp
  · have hpos : (e : Int) > 0 := by omega
    rw [if_pos hpos, if_neg h0, fmtD_digit e (by omega) h8]

theorem toFenLoop_boundary (i : Nat) (rest : List Piece) (e : Nat)
    (h : rest = [] ∨ (i > 0 ∧ i % 8 = 0)) :
    toFenLoop (List.enumFrom i rest) (e : Int) =
      (if (e : Int) > 0 then fmtD (e : Int) else []) ++
        toFenLoop (List.enumFrom i rest) ((0 : Nat) : Int) := by
  cases rest with
  | nil => simp [toFenLoop]
  | cons p rest =>
    have hb : i > 0 ∧ i % 8 = 0 := by
      rcases h with h | h
      · cases h
      · exact h
    rw [List.enumFrom_cons, toFenLoop_cons_nat, toFenLoop_cons_nat]
    simp only [if_pos hb, Nat.cast_zero, gt_iff_lt, lt_self_iff_false, if_false,
      List.nil_append, List.append_assoc]

theorem toFenLoop_rank (r : List Piece) : ∀ (i e : Nat) (rest : List Piece),
    (∀ j, j < r.length → ¬ ((i + j) > 0 ∧ (i + j) % 8 = 0)) →
    (rest = [] ∨ ((i + r.length) > 0 ∧ (i + r.length) % 8 = 0)) → e + r.length ≤ 8 →
    toFenLoop (List.enumFrom i (r ++ rest)) (e : Int) =
      rankText r e ++ toFenLoop (List.enumFrom (i + r.length) rest) ((0 : Nat) : Int) := by
  induction r with
  | nil =>
    intro i e rest _ hb h8
    simp only [List.nil_append, List.length_nil, Nat.add_zero] at hb h8 ⊢
    rw [toFenLoop_boundary i rest e hb, flush_eq e h8]
    rfl
  | cons p r ih =>
    intro i e rest hin hb h8
    simp only [List.length_cons] at hin hb h8
    have h0 : ¬ (i > 0 ∧ i % 8 = 0) := by simpa using hin 0 (by omega)
    have hin2 : ∀ j, j < r.length → ¬ ((i + 1 + j) > 0 ∧ (i + 1 + j) % 8 = 0) := by
      intro j hj
      have := hin (j + 1) (by omega)
      rwa [show i + (j + 1) = i + 1 + j by omega] at this
    have hb2 : rest = [] ∨ ((i + 1 + r.length) > 0 ∧ (i + 1 + r.length) % 8 = 0) := by
      rwa [show i + (r.length + 1) = i + 1 + r.length by omega] at hb
    rw [List.cons_append, List.enumFrom_cons, toFenLoop_cons_nat]
    simp only [if_neg h0, List.nil_append, List.length_cons]
    rw [show i + (r.length + 1) = i + 1 + r.length by omega]
    by_cases hty : p.Typ = NONE
    · rw [if_pos hty, ih (i + 1) (e + 1) rest hin2 hb2 (by omega)]
      simp only [rankText, if_pos hty]
    · rw [if_neg hty, ih (i + 1) 0 rest hin2 hb2 (by omega), flush_eq e (by omega),
        fmtC_ToFenChar]
      simp only [rankText, if_neg hty, List.append_assoc, List.singleton_append,
        List.cons_append, List.nil_append]

theorem toFenLoop_first (r : List Piece) (k : Nat) (rest : List Piece) (hr : r.length = 8) :
    toFenLoop (List.enumFrom (8 * k) (r ++ rest)) ((0 : Nat) : Int) =
      (if k > 0 then [47] else []) ++ rankText r 0 ++
        toFenLoop (List.enumFrom (8 * (k + 1)) rest) ((0 : Nat) : Int) := by
  obtain ⟨p, r1, rfl⟩ : ∃ p r1, r = p :: r1 := by
    cases r with
    | nil => simp at hr
    | cons p r1 => exact ⟨p, r1, rfl⟩
  simp only [List.length_cons] at hr
  have hin : ∀ j, j < r1.length → ¬ ((8 * k + 1 + j) > 0 ∧ (8 * k + 1 + j) % 8 = 0) := by
    intro j hj; omega
  have hb : rest = [] ∨ ((8 * k + 1 + r1.length) > 0 ∧ (8 * k + 1 + r1.length) % 8 = 0) := by
    right; omega
  have hidx : 8 * k + 1 + r1.length = 8 * (k + 1) := by omega
  rw [List.cons_append, List.enumFrom_cons, toFenLoop_cons_nat]
  simp only [ite_self]
  rw [flush_eq 0 (by omega)]
  simp only [if_true, List.nil_append]
  have hpre : (if 8 * k > 0 ∧ 8 * k % 8 = 0 then [47] else ([] : Str)) =
      (if k > 0 then [47] else []) := by
    by_cases hk : k > 0
    · rw [if_pos hk, if_pos (by omega)]
    · rw [if_neg hk, if_neg (by omega)]
  rw [hpre]
  by_cases hty : p.Typ = NONE
  · rw [if_pos hty, toFenLoop_rank r1 (8 * k + 1) (0 + 1) rest hin hb (by omega), hidx]
    simp only [rankText, if_pos hty, List.append_assoc]
  · rw [if_neg hty, toFenLoop_rank r1 (8 * k + 1) 0 rest hin hb (by omega), hidx,
      fmtC_ToFenChar]
    simp only [rankText, if_neg hty, List.append_assoc, List.singleton_append, if_true,
      List.nil_append, List.cons_append]

theorem toFenLoop_ranks (n : Nat) : ∀ (k : Nat) (l : List Piece), l.length = 8 * n →
    toFenLoop (List.enumFrom (8 * k) l) ((0 : Nat) : Int) =
      (if k > 0 ∧ n > 0 then [47] else []) ++
        joinWith [47] ((ranksOf n l).map (fun r => rankText r 0)) := by
  induction n with
  | zero =>
    intro k l hl
    have : l = [] := List.length_eq_zero.mp (by omega)
    subst this
    simp [toFenLoop, ranksOf, joinWith]
  | succ n ih =>
    intro k l hl
    have hsplit : l = l.take 8 ++ l.drop 8 := (List.take_append_drop 8 l).symm
    have htake : (l.take 8).length = 8 := by rw [List.length_take]; omega
    have hdrop : (l.drop 8).length = 8 * n := by rw [List.length_drop]; omega
    rw [hsplit, toFenLoop_first _ k _ htake, ih (k + 1) _ hdrop, ← hsplit]
    simp only [ranksOf, List.map_cons]
    cases n with
    | zero =>
      simp [ranksOf, joinWith]
    | succ n =>
      have h1 : k + 1 > 0 ∧ n + 1 > 0 := by omega
      by_cases hk : k > 0
      · have h2 : k > 0 ∧ n + 1 + 1 > 0 := by omega
        simp only [if_pos h1, if_pos hk, if_pos h2, ranksOf, List.map_cons, joinWith,
          List.append_assoc]
      · have h2 : ¬ (k > 0 ∧ n + 1 + 1 > 0) := by omega
        simp only [if_pos h1, if_neg hk, if_neg h2, ranksOf, List.map_cons, joinWith,
          List.append_assoc, List.nil_append]

theorem toFenLoop_boardText (ps : List Piece) (hl : ps.length = 64) :
    toFenLoop ps.enum 0 = boardText ps := by
  have h := toFenLoop_ranks 8 0 ps (by omega)
  simpa [List.enum, boardText] using h

theorem noAdjacentDigits_cons_letter (c : Nat) (t : Str) (hc : ¬ (48 ≤ c ∧ c ≤ 57)) :
    noAdjacentDigits (c :: t) = noAdjacentDigits t := by
  cases t with
  | nil => rfl
  | cons b t =>
    cases t with
    | nil => simp [noAdjacentDigits, hc]
    | cons d t => simp [noAdjacentDigits, hc]

theorem noAdjacentDigits_digit_letter (d c : Nat) (t : Str) (hc : ¬ (48 ≤ c ∧ c ≤ 57)) :
    noAdjacentDigits (d :: c :: t) = noAdjacentDigits t := by
  rw [← noAdjacentDigits_cons_letter c t hc]
  simp [noAdjacentDigits, hc]

theorem ToFenChar_letter {p : Piece} (hp : p ∈ colouredPieces) : 65 ≤ ToFenChar p := by
  simp only [colouredPieces, List.mem_cons, List.mem_singleton, List.not_mem_nil, or_false] at hp
  rcases hp with h | h | h | h | h | h | h | h | h | h | h | h <;> subst h <;> decide

theorem rankText_props (r : List Piece) : ∀ (e : Nat), (∀ p ∈ r, validSquare p) →
    e + r.length ≤ 8 →
    squaresOf (rankText r e) = e + r.length ∧ noAdjacentDigits (rankText r e) = true := by
  induction r with
  | nil =>
    intro e _ h8
    simp only [List.length_nil, Nat.add_zero] at h8
    by_cases h0 : e = 0
    · subst h0; exact ⟨rfl, rfl⟩
    · have hd : 49 ≤ 48 + e ∧ 48 + e ≤ 56 := by omega
      simp only [rankText, if_neg h0, squaresOf, if_pos hd, noAdjacentDigits, List.length_nil]
      exact ⟨by omega, trivial⟩
  | cons p r ih =>
    intro e hv h8
    simp only [List.length_cons] at h8
    have hvr : ∀ q ∈ r, validSquare q := fun q hq => hv q (List.mem_cons_of_mem _ hq)
    by_cases hty : p.Typ = NONE
    · obtain ⟨h1, h2⟩ := ih (e + 1) hvr (by omega)
      simp only [rankText, if_pos hty, List.length_cons]
      exact ⟨by omega, h2⟩
    · obtain ⟨h1, h2⟩ := ih 0 hvr (by omega)
      have hl := ToFenChar_letter (validSquare_coloured (hv p (List.mem_cons_self _ _)) hty)
      have hnd : ¬ (48 ≤ ToFenChar p ∧ ToFenChar p ≤ 57) := by omega
      have hn49 : ¬ (49 ≤ ToFenChar p ∧ ToFenChar p ≤ 56) := by omega
      simp only [rankText, if_neg hty, List.length_cons]
      by_cases h0 : e = 0
      · subst h0
        simp only [if_true, List.nil_append, squaresOf, if_neg hn49,
          noAdjacentDigits_cons_letter _ _ hnd]
        exact ⟨by omega, h2⟩
      · have hd : 49 ≤ 48 + e ∧ 48 + e ≤ 56 := by omega
        simp only [if_neg h0, List.singleton_append, squaresOf, if_pos hd, if_neg hn49,
          noAdjacentDigits_digit_letter _ _ _ hnd]
        exact ⟨by omega, h2⟩

theorem ranksOf_spec (n : Nat) : ∀ (l : List Piece), l.length = 8 * n →
    (ranksOf n l).flatten = l ∧ ∀ r ∈ ranksOf n l, r.length = 8 ∧ ∀ p ∈ r, p ∈ l := by
  induction n with
  | zero =>
    intro l hl
    have : l = [] := List.length_eq_zero.mp (by omega)
    subst this
    simp [ranksOf]
  | succ n ih =>
    intro l hl
    have hdrop : (l.drop 8).length = 8 * n := by rw [List.length_drop]; omega
    obtain ⟨h1, h2⟩ := ih (l.drop 8) hdrop
    constructor
    · simp only [ranksOf, List.flatten_cons, h1, List.take_append_drop]
    · intro r hr
      simp only [ranksOf, List.mem_cons] at hr
      rcases hr with hr | hr
      · subst hr
        exact ⟨by rw [List.length_take]; omega, fun p hp => List.mem_of_mem_take hp⟩
      · exact ⟨(h2 r hr).1, fun p hp => List.mem_of_mem_drop ((h2 r hr).2 p hp)⟩

theorem castleText_eq_castleField (r : Nat) (hr : r < 16) : castleText r = castleField r := by
  interval_cases r <;> decide

theorem enPassantText_eq_epField (sq : Int) : enPassantText sq = epField sq := by
  unfold enPassantText epField
  by_cases h : 0 ≤ sq ∧ sq < 64
  · have h2 : sq ≥ 0 ∧ sq < 64 := h
    rw [if_pos h, if_pos h2]
    obtain ⟨h0, h64⟩ := h
    interval_cases sq <;> rfl
  · have h2 : ¬ (sq ≥ 0 ∧ sq < 64) := h
    rw [if_neg h, if_neg h2]
    rfl

theorem denotes_fmtD (x : Int) (h : isInt64 x) : denotes (fmtD x) x := by
  have hA := Atoi_fmtD x h.1 h.2
  have hd := denotes_of_Atoi (fmtD x) (by rw [hA])
  rw [hA] at hd
  exact hd

/-- C21: the text written by `ToFen`.  For a game state whose 64 squares each hold the
empty piece or a coloured piece and whose castling rights use only the four rights bits,
the text is six fields joined by single spaces, and `strings.Fields` splits it into these
six: the board field (the texts of the eight ranks, squares 8k..8k+7, joined by `/`, each
rank text standing for exactly 8 squares and never showing two digits side by side), the
colour field `w` or `b`, the castling field (the letters of `KQkq` whose bit is set, or
`-`), the en-passant field (the square name or `-`) and the two counters in decimal. -/
theorem C21_ToFen_format (gs : GameState)
    (hlen : gs.Board.Pieces.length = 64)
    (hsq : ∀ p ∈ gs.Board.Pieces, validSquare p)
    (hrights : gs.Board.CastleRights < 16)
    (hhalf : isInt64 gs.HalfMoveClock) (hfull : isInt64 gs.FullMoveCount) :
    gs.ToFen = joinWith [32] [boardText gs.Board.Pieces,
      [if gs.ActiveColor = WHITE then 119 else 98], castleField gs.Board.CastleRights,
      epField gs.enPassantSq, fmtD gs.HalfMoveClock, fmtD gs.FullMoveCount] ∧
    Fields gs.ToFen = [boardText gs.Board.Pieces,
      [if gs.ActiveColor = WHITE then 119 else 98], castleField gs.Board.CastleRights,
      epField gs.enPassantSq, fmtD gs.HalfMoveClock, fmtD gs.FullMoveCount] ∧
    (ranksOf 8 gs.Board.Pieces).flatten = gs.Board.Pieces ∧
    (∀ r ∈ ranksOf 8 gs.Board.Pieces, r.length = 8 ∧ squaresOf (rankText r 0) = 8 ∧
      noAdjacentDigits (rankText r 0) = true) ∧
    denotes (fmtD gs.HalfMoveClock) gs.HalfMoveClock ∧
    denotes (fmtD gs.FullMoveCount) gs.FullMoveCount := by
  have hb := toFenLoop_boardText gs.Board.Pieces hlen
  have hc := castleText_eq_castleField gs.Board.CastleRights hrights
  have he := enPassantText_eq_epField gs.enPassantSq
  obtain ⟨hcv, hcn, _⟩ := castleText_spec gs.Board.CastleRights hrights
  have hep : (∀ c ∈ enPassantText gs.enPassantSq, visible c) ∧
      enPassantText gs.enPassantSq ≠ [] := by
    by_cases h : 0 ≤ gs.enPassantSq ∧ gs.enPassantSq < 64
    · exact enPassantText_spec _ (Or.inr h)
    · have h2 : ¬ (gs.enPassantSq ≥ 0 ∧ gs.enPassantSq < 64) := h
      unfold enPassantText
      rw [if_neg h2]
      exact ⟨by decide, by decide⟩
  have hbv : ∀ c ∈ toFenLoop gs.Board.Pieces.enum 0, visible c := by
    have := toFenLoop_visible gs.Board.Pieces 0 0 hsq (by omega) (by intro _; omega)
    simpa [List.enum] using this
  have hbn : toFenLoop gs.Board.Pieces.enum 0 ≠ [] := by
    have := toFenLoop_ne_nil gs.Board.Pieces 0 0
      (Or.inr (by intro h; rw [h] at hlen; simp at hlen)) (by omega) (by intro _; omega)
    simpa [List.enum] using this
  have hwv : ∀ c ∈ [if gs.ActiveColor = WHITE then 119 else 98], visible c := by
    intro c hc
    simp only [List.mem_singleton] at hc
    subst hc
    split <;> decide
  have hfields := Fields_six _ _ _ _ _ _ hbv hwv hcv hep.1 (fmtD_visible gs.HalfMoveClock)
    (fmtD_visible gs.FullMoveCount) hbn (by simp) hcn hep.2 (fmtD_ne_nil _) (fmtD_ne_nil _)
  obtain ⟨hj, hr⟩ := ranksOf_spec 8 gs.Board.Pieces (by omega)
  refine ⟨?_, ?_, hj, ?_, denotes_fmtD _ hhalf, denotes_fmtD _ hfull⟩
  · rw [ToFen_eq, hb, hc, he]
    simp only [joinWith, List.append_assoc, List.singleton_append, List.cons_append,
      List.nil_append]
  · rw [ToFen_eq, hfields, hb, hc, he]
  · intro r hrm
    obtain ⟨h8, hmem⟩ := hr r hrm
    have hp := rankText_props r 0 (fun p hp => hsq p (hmem p hp)) (by omega)
    exact ⟨h8, by rw [hp.1, h8], hp.2⟩

set_option maxRecDepth 100000 in
/-- C21, instance: the start position with Black to move, rights `Qk`, en-passant square e3
and counters 3 and 17. -/
theorem C21_witness :
    sampleState.ToFen = bytes "rnbqkbnr/pppppppp/8/8/8/8/PPPPPPPP/RNBQKBNR b Qk e3 3 17" ∧
    (sampleState.ToFen = joinWith [32] [boardText sampleState.Board.Pieces,
      [if sampleState.ActiveColor = WHITE then 119 else 98],
      castleField sampleState.Board.CastleRights,
      epField sampleState.enPassantSq, fmtD sampleState.HalfMoveClock,
      fmtD sampleState.FullMoveCount] ∧
    Fields sampleState.ToFen = [boardText sampleState.Board.Pieces,
      [if sampleState.ActiveColor = WHITE then 119 else 98],
      castleField sampleState.Board.CastleRights,
      epField sampleState.enPassantSq, fmtD sampleState.HalfMoveClock,
      fmtD sampleState.FullMoveCount] ∧
    (ranksOf 8 sampleState.Board.Pieces).flatten = sampleState.Board.Pieces ∧
    (∀ r ∈ ranksOf 8 sampleState.Board.Pieces, r.length = 8 ∧
      squaresOf (rankText r 0) = 8 ∧ noAdjacentDigits (rankText r 0) = true) ∧
    denotes (fmtD sampleState.HalfMoveClock) sampleState.HalfMoveClock ∧
    denotes (fmtD sampleState.FullMoveCount) sampleState.FullMoveCount) :=
  ⟨by decide, C21_ToFen_format sampleState (by decide) (by decide) (by decide) (by decide)
    (by decide)⟩

/-! ## Move generation stays on the board -/

theorem SetSrc_fields (pt : PType) (i : Nat) (hi : i < 64) :
    (({ Piece := pt } : Move).SetSrcFromSqNum i).Piece = pt ∧
    (({ Piece := pt } : Move).SetSrcFromSqNum i).SrcFile = 97 + i % 8 ∧
    (({ Piece := pt } : Move).SetSrcFromSqNum i).SrcRank = 56 - i / 8 := by
  have e1 : Int.tdiv (i : Int) 8 = ((i / 8 : Nat) : Int) := rfl
  have e2 : Int.tmod (i : Int) 8 = ((i % 8 : Nat) : Int) := rfl
  refine ⟨rfl, ?_, ?_⟩
  · show badd 97 (byteOf (Int.tmod (i : Int) 8)) = 97 + i % 8
    rw [e2]; unfold badd byteOf; omega
  · show bsub 56 (byteOf (Int.tdiv (i : Int) 8)) = 56 - i / 8
    rw [e1]; unfold bsub byteOf; omega

theorem SetTrgDelta_spec (m : Move) (dx dy : Int) (hs : onBoard m.SrcFile m.SrcRank)
    (hdx : -14 ≤ dx ∧ dx ≤ 14) (hdy : -14 ≤ dy ∧ dy ≤ 14)
    (h : (m.SetTrgDeltaAndCheckBounds dx dy).2 = true) :
    (m.SetTrgDeltaAndCheckBounds dx dy).1.Piece = m.Piece ∧
    (m.SetTrgDeltaAndCheckBounds dx dy).1.SrcFile = m.SrcFile ∧
    (m.SetTrgDeltaAndCheckBounds dx dy).1.SrcRank = m.SrcRank ∧
    onBoard (m.SetTrgDeltaAndCheckBounds dx dy).1.TrgFile
      (m.SetTrgDeltaAndCheckBounds dx dy).1.TrgRank ∧
    (m.SetTrgDeltaAndCheckBounds dx dy).1.MoveDelta = (dx, dy) := by
  unfold onBoard at hs ⊢
  simp only [Move.SetTrgDeltaAndCheckBounds, Bool.and_eq_true, decide_eq_true_eq] at h ⊢
  simp only [Move.MoveDelta, Prod.mk.injEq]
  unfold badd byteOf at h ⊢
  refine ⟨trivial, trivial, trivial, ?_, ?_⟩ <;> omega

theorem SetTrgDelta_target (m : Move) (dx dy : Int)
    (h : (m.SetTrgDeltaAndCheckBounds dx dy).2 = true) :
    0 ≤ (m.SetTrgDeltaAndCheckBounds dx dy).1.TrgSqNum ∧
    (m.SetTrgDeltaAndCheckBounds dx dy).1.TrgSqNum < 64 := by
  have hb : (97 ≤ (m.SetTrgDeltaAndCheckBounds dx dy).1.TrgFile ∧
      (m.SetTrgDeltaAndCheckBounds dx dy).1.TrgFile ≤ 104) ∧
      (49 ≤ (m.SetTrgDeltaAndCheckBounds dx dy).1.TrgRank ∧
      (m.SetTrgDeltaAndCheckBounds dx dy).1.TrgRank ≤ 56) := by
    simpa only [Move.SetTrgDeltaAndCheckBounds, Bool.and_eq_true, decide_eq_true_eq] using h
  rw [TrgSqNum_eq _ hb.1 hb.2]
  unfold squareOf
  omega

theorem deltaMovesAt_spec (b : Board) (pt : PType) (i : Nat) (hi : i < 64) :
    ∀ (deltas : List (Int × Int)),
      (∀ d ∈ deltas, (-14 ≤ d.1 ∧ d.1 ≤ 14) ∧ (-14 ≤ d.2 ∧ d.2 ≤ 14)) →
      ∃ l, deltaMovesAt b pt i deltas = Res.ok l ∧
        ∀ mv ∈ l, mv.Piece = pt ∧ mv.SrcFile = 97 + i % 8 ∧ mv.SrcRank = 56 - i / 8 ∧
          onBoard mv.TrgFile mv.TrgRank ∧ mv.MoveDelta ∈ deltas := by
  intro deltas
  induction deltas with
  | nil => intro _; exact ⟨[], rfl, fun mv hm => absurd hm (List.not_mem_nil _)⟩
  | cons d ds ih =>
    intro hd
    obtain ⟨l, hl, hp⟩ := ih (fun d1 h1 => hd d1 (List.mem_cons_of_mem _ h1))
    obtain ⟨s1, s2, s3⟩ := SetSrc_fields pt i hi
    have hsrc : onBoard (({ Piece := pt } : Move).SetSrcFromSqNum i).SrcFile
        (({ Piece := pt } : Move).SetSrcFromSqNum i).SrcRank := by
      rw [s2, s3]; unfold onBoard; omega
    unfold deltaMovesAt
    by_cases h : ((({ Piece := pt } : Move).SetSrcFromSqNum i).SetTrgDeltaAndCheckBounds
        d.1 d.2).2 = true
    · obtain ⟨t1, t2, t3, t4, t5⟩ := SetTrgDelta_spec _ d.1 d.2 hsrc
        (hd d (List.mem_cons_self _ _)).1 (hd d (List.mem_cons_self _ _)).2 h
      obtain ⟨q1, q2⟩ := SetTrgDelta_target _ d.1 d.2 h
      simp only [if_pos h, Res.bind_eq, Res.pure_eq, pieceAt_onBoard b _ q1 q2, Res.ok_bind, hl]
      refine ⟨_, rfl, fun mv hm => ?_⟩
      rcases List.mem_cons.mp hm with hm | hm
      · subst hm
        refine ⟨by rw [← s1]; exact t1, by rw [← s2]; exact t2, by rw [← s3]; exact t3, t4, ?_⟩
        have : d = (d.1, d.2) := rfl
        rw [this]
        exact List.mem_cons.mpr (Or.inl t5)
      · obtain ⟨a1, a2, a3, a4, a5⟩ := hp mv hm
        exact ⟨a1, a2, a3, a4, List.mem_cons_of_mem _ a5⟩
    · simp only [if_neg h, hl]
      refine ⟨_, rfl, fun mv hm => ?_⟩
      obtain ⟨a1, a2, a3, a4, a5⟩ := hp mv hm
      exact ⟨a1, a2, a3, a4, List.mem_cons_of_mem _ a5⟩

theorem slideLoop_spec (b : Board) (m : Move) (d : Int × Int)
    (hs : onBoard m.SrcFile m.SrcRank) (hd : (-1 ≤ d.1 ∧ d.1 ≤ 1) ∧ (-1 ≤ d.2 ∧ d.2 ≤ 1)) :
    ∀ (ks : List Int), (∀ k ∈ ks, 1 ≤ k ∧ k ≤ 7) →
      ∃ l, slideLoop m b d ks = Res.ok l ∧
        ∀ mv ∈ l, mv.Piece = m.Piece ∧ mv.SrcFile = m.SrcFile ∧ mv.SrcRank = m.SrcRank ∧
          onBoard mv.TrgFile mv.TrgRank ∧
          ∃ k : Int, 1 ≤ k ∧ k ≤ 7 ∧ mv.MoveDelta = (d.1 * k, d.2 * k) := by
  intro ks
  induction ks with
  | nil => intro _; exact ⟨[], rfl, fun mv hm => absurd hm (List.not_mem_nil _)⟩
  | cons k ks ih =>
    intro hk
    obtain ⟨l, hl, hp⟩ := ih (fun k1 h1 => hk k1 (List.mem_cons_of_mem _ h1))
    have hk1 := hk k (List.mem_cons_self _ _)
    have hx : -14 ≤ d.1 * k ∧ d.1 * k ≤ 14 := by
      have : d.1 = -1 ∨ d.1 = 0 ∨ d.1 = 1 := by omega
      rcases this with e | e | e <;> rw [e] <;> omega
    have hy : -14 ≤ d.2 * k ∧ d.2 * k ≤ 14 := by
      have : d.2 = -1 ∨ d.2 = 0 ∨ d.2 = 1 := by omega
      rcases this with e | e | e <;> rw [e] <;> omega
    unfold slideLoop
    by_cases h : (({ Piece := m.Piece, SrcRank := m.SrcRank, SrcFile := m.SrcFile } :
        Move).SetTrgDeltaAndCheckBounds (d.1 * k) (d.2 * k)).2 = true
    · obtain ⟨t1, t2, t3, t4, t5⟩ := SetTrgDelta_spec
        ({ Piece := m.Piece, SrcRank := m.SrcRank, SrcFile := m.SrcFile } : Move)
        (d.1 * k) (d.2 * k) hs hx hy h
      obtain ⟨q1, q2⟩ := SetTrgDelta_target _ (d.1 * k) (d.2 * k) h
      simp only [if_pos h, Res.bind_eq, Res.pure_eq, pieceAt_onBoard b _ q1 q2, Res.ok_bind, hl]
      refine ⟨_, rfl, fun mv hm => ?_⟩
      rcases List.mem_cons.mp hm with hm | hm
      · subst hm
        exact ⟨t1, t2, t3, t4, k, hk1.1, hk1.2, t5⟩
      · exact hp mv hm
    · simp only [if_neg h]
      exact ⟨[], rfl, fun mv hm => absurd hm (List.not_mem_nil _)⟩

theorem slidesAt_spec (b : Board) (pt : PType) (i : Nat) (hi : i < 64) :
    ∀ (dirs : List (Int × Int)),
      (∀ d ∈ dirs, (-1 ≤ d.1 ∧ d.1 ≤ 1) ∧ (-1 ≤ d.2 ∧ d.2 ≤ 1)) →
      ∃ l, slidesAt b pt i dirs = Res.ok l ∧
        ∀ mv ∈ l, mv.Piece = pt ∧ mv.SrcFile = 97 + i % 8 ∧ mv.SrcRank = 56 - i / 8 ∧
          onBoard mv.TrgFile mv.TrgRank ∧ slideStep dirs mv.MoveDelta := by
  intro dirs
  induction dirs with
  | nil => intro _; exact ⟨[], rfl, fun mv hm => absurd hm (List.not_mem_nil _)⟩
  | cons d ds ih =>
    intro hd
    obtain ⟨l, hl, hp⟩ := ih (fun d1 h1 => hd d1 (List.mem_cons_of_mem _ h1))
    obtain ⟨s1, s2, s3⟩ := SetSrc_fields pt i hi
    have hsrc : onBoard (({ Piece := pt } : Move).SetSrcFromSqNum i).SrcFile
        (({ Piece := pt } : Move).SetSrcFromSqNum i).SrcRank := by
      rw [s2, s3]; unfold onBoard; omega
    obtain ⟨l1, hl1, hp1⟩ := slideLoop_spec b _ d hsrc (hd d (List.mem_cons_self _ _))
      [1, 2, 3, 4, 5, 6, 7] (by intro k hk; simp at hk; omega)
    unfold slidesAt
    simp only [Move.SlideMoves, Res.bind_eq, Res.pure_eq, hl1, Res.ok_bind, hl]
    refine ⟨_, rfl, fun mv hm => ?_⟩
    rcases List.mem_append.mp hm with hm | hm
    · obtain ⟨a1, a2, a3, a4, k, k1, k2, a5⟩ := hp1 mv hm
      exact ⟨by rw [a1, s1], by rw [a2, s2], by rw [a3, s3], a4, k, k1, k2, d,
        List.mem_cons_self _ _, a5⟩
    · obtain ⟨a1, a2, a3, a4, k, k1, k2, dir, hdir, a5⟩ := hp mv hm
      exact ⟨a1, a2, a3, a4, k, k1, k2, dir, List.mem_cons_of_mem _ hdir, a5⟩

theorem forPieces_spec (pt : PType) (color : Color) (f : Nat → Res (List Move))
    (P : Move → Prop) :
    ∀ (L : List (Nat × Piece)),
      (∀ ip ∈ L, ∃ l, f ip.1 = Res.ok l ∧ ∀ mv ∈ l, P mv) →
      ∃ l, forPieces pt color f L = Res.ok l ∧ ∀ mv ∈ l, P mv := by
  intro L
  induction L with
  | nil => intro _; exact ⟨[], rfl, fun mv hm => absurd hm (List.not_mem_nil _)⟩
  | cons ip rest ih =>
    intro h
    obtain ⟨l, hl, hp⟩ := ih (fun x hx => h x (List.mem_cons_of_mem _ hx))
    unfold forPieces
    by_cases hc : ip.2.Typ ≠ pt ∨ ip.2.Color ≠ color
    · rw [if_pos hc]; exact ⟨l, hl, hp⟩
    · obtain ⟨l1, hl1, hp1⟩ := h ip (List.mem_cons_self _ _)
      simp only [if_neg hc, Res.bind_eq, Res.pure_eq, hl1, Res.ok_bind, hl]
      refine ⟨_, rfl, fun mv hm => ?_⟩
      rcases List.mem_append.mp hm with hm | hm
      · exact hp1 mv hm
      · exact hp mv hm

/-- What the generators built on `deltaMovesAt` return on a board of 64 squares. -/
theorem deltaGen_spec (b : Board) (pt : PType) (color : Color) (deltas : List (Int × Int))
    (hlen : b.Pieces.length = 64)
    (hd : ∀ d ∈ deltas, (-14 ≤ d.1 ∧ d.1 ≤ 14) ∧ (-14 ≤ d.2 ∧ d.2 ≤ 14)) :
    ∃ l, forPieces pt color (fun i => deltaMovesAt b pt i deltas) b.Pieces.enum = Res.ok l ∧
      ∀ mv ∈ l, mv.Piece = pt ∧ onBoard mv.SrcFile mv.SrcRank ∧
        onBoard mv.TrgFile mv.TrgRank ∧ mv.MoveDelta ∈ deltas := by
  apply forPieces_spec
  intro ip hip
  have hi : ip.1 < 64 := by rw [← hlen]; exact List.fst_lt_of_mem_enum hip
  obtain ⟨l, hl, hp⟩ := deltaMovesAt_spec b pt ip.1 hi deltas hd
  refine ⟨l, hl, fun mv hm => ?_⟩
  obtain ⟨a1, a2, a3, a4, a5⟩ := hp mv hm
  refine ⟨a1, ?_, a4, a5⟩
  rw [a2, a3]; unfold onBoard; omega

/-- What the generators built on `SlideMoves` return on a board of 64 squares. -/
theorem slideGen_spec (b : Board) (pt : PType) (color : Color) (dirs : List (Int × Int))
    (hlen : b.Pieces.length = 64)
    (hd : ∀ d ∈ dirs, (-1 ≤ d.1 ∧ d.1 ≤ 1) ∧ (-1 ≤ d.2 ∧ d.2 ≤ 1)) :
    ∃ l, forPieces pt color (fun i => slidesAt b pt i dirs) b.Pieces.enum = Res.ok l ∧
      ∀ mv ∈ l, mv.Piece = pt ∧ onBoard mv.SrcFile mv.SrcRank ∧
        onBoard mv.TrgFile mv.TrgRank ∧ slideStep dirs mv.MoveDelta := by
  apply forPieces_spec
  intro ip hip
  have hi : ip.1 < 64 := by rw [← hlen]; exact List.fst_lt_of_mem_enum hip
  obtain ⟨l, hl, hp⟩ := slidesAt_spec b pt ip.1 hi dirs hd
  refine ⟨l, hl, fun mv hm => ?_⟩
  obtain ⟨a1, a2, a3, a4, a5⟩ := hp mv hm
  refine ⟨a1, ?_, a4, a5⟩
  rw [a2, a3]; unfold onBoard; omega

theorem PawnMoves_spec (b : Board) (c : Color) (hlen : b.Pieces.length = 64) :
    ∃ l, b.PawnMoves c = Res.ok l ∧
      ∀ mv ∈ l, onBoard mv.SrcFile mv.SrcRank ∧ onBoard mv.TrgFile mv.TrgRank ∧
        legalDisplacement c mv := by
  have hf : forward c = -1 ∨ forward c = 1 := by
    unfold forward; split
    · left; rfl
    · right; rfl
  obtain ⟨l, hl, hp⟩ := deltaGen_spec b PAWN c
    [(0, forward c), (0, forward c * 2), (-1, forward c), (1, forward c)] hlen
    (by
      intro d hd
      simp only [List.mem_cons, List.mem_singleton, List.not_mem_nil, or_false] at hd
      rcases hf with e | e <;> rw [e] at hd <;>
        rcases hd with h | h | h | h <;> rw [h] <;> simp)
  refine ⟨l, hl, fun mv hm => ?_⟩
  obtain ⟨a1, a2, a3, a4⟩ := hp mv hm
  refine ⟨a2, a3, ?_⟩
  unfold legalDisplacement
  simp only [a1, show (PAWN : PType) ≠ KNIGHT by decide, show (PAWN : PType) ≠ ROOK by decide,
    show (PAWN : PType) ≠ BISHOP by decide, show (PAWN : PType) ≠ QUEEN by decide, if_false,
    if_true]
  simp only [List.mem_cons, List.mem_singleton, List.not_mem_nil, or_false] at a4
  rcases a4 with h | h | h | h
  · exact Or.inl h
  · exact Or.inr (Or.inl (by rw [h, mul_comm]))
  · exact Or.inr (Or.inr (Or.inl h))
  · exact Or.inr (Or.inr (Or.inr h))

theorem KnightMoves_spec (b : Board) (c : Color) (hlen : b.Pieces.length = 64) :
    ∃ l, b.KnightMoves c = Res.ok l ∧
      ∀ mv ∈ l, onBoard mv.SrcFile mv.SrcRank ∧ onBoard mv.TrgFile mv.TrgRank ∧
        legalDisplacement c mv := by
  obtain ⟨l, hl, hp⟩ := deltaGen_spec b KNIGHT c
    [(1, 2), (1, -2), (-1, 2), (-1, -2), (2, 1), (2, -1), (-2, 1), (-2, -1)] hlen
    (by
      intro d hd
      simp only [List.mem_cons, List.mem_singleton, List.not_mem_nil, or_false] at hd
      rcases hd with h | h | h | h | h | h | h | h <;> rw [h] <;> simp)
  refine ⟨l, hl, fun mv hm => ?_⟩
  obtain ⟨a1, a2, a3, a4⟩ := hp mv hm
  refine ⟨a2, a3, ?_⟩
  unfold legalDisplacement
  simp only [a1, if_true]
  exact a4

theorem slide_displacement (b : Board) (pt : PType) (c : Color) (dirs : List (Int × Int))
    (hlen : b.Pieces.length = 64)
    (hd : ∀ d ∈ dirs, (-1 ≤ d.1 ∧ d.1 ≤ 1) ∧ (-1 ≤ d.2 ∧ d.2 ≤ 1))
    (hleg : ∀ mv : Move, mv.Piece = pt → slideStep dirs mv.MoveDelta → legalDisplacement c mv) :
    ∃ l, forPieces pt c (fun i => slidesAt b pt i dirs) b.Pieces.enum = Res.ok l ∧
      ∀ mv ∈ l, onBoard mv.SrcFile mv.SrcRank ∧ onBoard mv.TrgFile mv.TrgRank ∧
        legalDisplacement c mv := by
  obtain ⟨l, hl, hp⟩ := slideGen_spec b pt c dirs hlen hd
  refine ⟨l, hl, fun mv hm => ?_⟩
  obtain ⟨a1, a2, a3, a4⟩ := hp mv hm
  exact ⟨a2, a3, hleg mv a1 a4⟩

theorem RookMoves_spec (b : Board) (c : Color) (hlen : b.Pieces.length = 64) :
    ∃ l, b.RookMoves c = Res.ok l ∧
      ∀ mv ∈ l, onBoard mv.SrcFile mv.SrcRank ∧ onBoard mv.TrgFile mv.TrgRank ∧
        legalDisplacement c mv := by
  apply slide_displacement b ROOK c [(0, 1), (0, -1), (1, 0), (-1, 0)] hlen
  · intro d hd
    simp only [List.mem_cons, List.mem_singleton, List.not_mem_nil, or_false] at hd
    rcases hd with h | h | h | h <;> rw [h] <;> simp
  · intro mv hk hs
    unfold legalDisplacement
    simp only [hk, show (ROOK : PType) ≠ KNIGHT by decide, if_false, if_true]
    exact hs

theorem BishopMoves_spec (b : Board) (c : Color) (hlen : b.Pieces.length = 64) :
    ∃ l, b.BishopMoves c = Res.ok l ∧
      ∀ mv ∈ l, onBoard mv.SrcFile mv.SrcRank ∧ onBoard mv.TrgFile mv.TrgRank ∧
        legalDisplacement c mv := by
  apply slide_displacement b BISHOP c [(1, 1), (1, -1), (-1, 1), (-1, -1)] hlen
  · intro d hd
    simp only [List.mem_cons, List.mem_singleton, List.not_mem_nil, or_false] at hd
    rcases hd with h | h | h | h <;> rw [h] <;> simp
  · intro mv hk hs
    unfold legalDisplacement
    simp only [hk, show (BISHOP : PType) ≠ KNIGHT by decide,
      show (BISHOP : PType) ≠ ROOK by decide, if_false, if_true]
    exact hs

theorem QueenMoves_spec (b : Board) (c : Color) (hlen : b.Pieces.length = 64) :
    ∃ l, b.QueenMoves c = Res.ok l ∧
      ∀ mv ∈ l, onBoard mv.SrcFile mv.SrcRank ∧ onBoard mv.TrgFile mv.TrgRank ∧
        legalDisplacement c mv := by
  apply slide_displacement b QUEEN c
    [(1, 1), (1, -1), (-1, 1), (-1, -1), (0, 1), (0, -1), (1, 0), (-1, 0)] hlen
  · intro d hd
    simp only [List.mem_cons, List.mem_singleton, List.not_mem_nil, or_false] at hd
    rcases hd with h | h | h | h | h | h | h | h <;> rw [h] <;> simp
  · intro mv hk hs
    unfold legalDisplacement
    simp only [hk, show (QUEEN : PType) ≠ KNIGHT by decide,
      show (QUEEN : PType) ≠ ROOK by decide, show (QUEEN : PType) ≠ BISHOP by decide, if_false,
      if_true]
    exact hs

theorem KingMoves_spec (b : Board) (c : Color) (hlen : b.Pieces.length = 64) :
    ∃ l, b.KingMoves c = Res.ok l ∧
      ∀ mv ∈ l, onBoard mv.SrcFile mv.SrcRank ∧ onBoard mv.TrgFile mv.TrgRank ∧
        legalDisplacement c mv := by
  obtain ⟨l, hl, hp⟩ := deltaGen_spec b KING c
    [(0, 1), (1, 1), (1, 0), (1, -1), (0, -1), (-1, -1), (-1, 0), (-1, 1)] hlen
    (by
      intro d hd
      simp only [List.mem_cons, List.mem_singleton, List.not_mem_nil, or_false] at hd
      rcases hd with h | h | h | h | h | h | h | h <;> rw [h] <;> simp)
  have hne : (KING : PType) ≠ KNIGHT ∧ (KING : PType) ≠ ROOK ∧ (KING : PType) ≠ BISHOP ∧
      (KING : PType) ≠ QUEEN ∧ (KING : PType) ≠ PAWN := by decide
  have hcastle : ∀ (tf : Nat), (tf = 103 ∨ tf = 99) →
      ∀ mv : Move, mv = mkMove KING 101 (if c = WHITE then 49 else 56) tf
        (if c = WHITE then 49 else 56) →
      onBoard mv.SrcFile mv.SrcRank ∧ onBoard mv.TrgFile mv.TrgRank ∧ legalDisplacement c mv := by
    intro tf htf mv hmv
    subst hmv
    unfold legalDisplacement onBoard mkMove
    simp only [hne.1, hne.2.1, hne.2.2.1, hne.2.2.2.1, hne.2.2.2.2, if_false, if_true,
      Move.MoveDelta, Prod.mk.injEq]
    by_cases hc : c = WHITE
    · simp only [if_pos hc]
      rcases htf with e | e <;> subst e <;> simp
    · simp only [if_neg hc]
      rcases htf with e | e <;> subst e <;> simp
  have hshape : b.KingMoves c = Res.ok (l ++
      [mkMove KING 101 (if c = WHITE then 49 else 56) 103 (if c = WHITE then 49 else 56)] ++
      [mkMove KING 101 (if c = WHITE then 49 else 56) 99 (if c = WHITE then 49 else 56)]) := by
    unfold Board.KingMoves
    simp only [Res.bind_eq, Res.pure_eq, hl, Res.ok_bind]
    by_cases hc : c = WHITE
    · simp only [if_pos hc]; rfl
    · simp only [if_neg hc]; rfl
  refine ⟨_, hshape, fun mv hm => ?_⟩
  rcases List.mem_append.mp hm with hm | hm
  · rcases List.mem_append.mp hm with hm | hm
    · obtain ⟨a1, a2, a3, a4⟩ := hp mv hm
      refine ⟨a2, a3, ?_⟩
      unfold legalDisplacement
      simp only [a1, hne.1, hne.2.1, hne.2.2.1, hne.2.2.2.1, hne.2.2.2.2, if_false, if_true]
      left
      simp only [List.mem_cons, List.mem_singleton, List.not_mem_nil, or_false] at a4
      rcases a4 with h | h | h | h | h | h | h | h <;> rw [h] <;> rfl
    · exact hcastle 103 (Or.inl rfl) mv (List.mem_singleton.mp hm)
  · exact hcastle 99 (Or.inr rfl) mv (List.mem_singleton.mp hm)

/-- What `AllMoves` returns on a board of 64 squares: it returns, and every move of the
list lies on the board and has a displacement of its piece type. -/
theorem AllMoves_spec (b : Board) (c : Color) (hlen : b.Pieces.length = 64) :
    ∃ l, b.AllMoves c = Res.ok l ∧
      ∀ mv ∈ l, onBoard mv.SrcFile mv.SrcRank ∧ onBoard mv.TrgFile mv.TrgRank ∧
        legalDisplacement c mv := by
  obtain ⟨l1, h1, p1⟩ := PawnMoves_spec b c hlen
  obtain ⟨l2, h2, p2⟩ := KingMoves_spec b c hlen
  obtain ⟨l3, h3, p3⟩ := RookMoves_spec b c hlen
  obtain ⟨l4, h4, p4⟩ := QueenMoves_spec b c hlen
  obtain ⟨l5, h5, p5⟩ := BishopMoves_spec b c hlen
  obtain ⟨l6, h6, p6⟩ := KnightMoves_spec b c hlen
  refine ⟨l1 ++ l2 ++ l3 ++ l4 ++ l5 ++ l6, ?_, fun mv hm => ?_⟩
  · unfold Board.AllMoves
    simp only [Res.bind_eq, Res.pure_eq, h1, h2, h3, h4, h5, h6, Res.ok_bind]
  · simp only [List.mem_append] at hm
    rcases hm with ((((hm | hm) | hm) | hm) | hm) | hm
    · exact p1 mv hm
    · exact p2 mv hm
    · exact p3 mv hm
    · exact p4 mv hm
    · exact p5 mv hm
    · exact p6 mv hm

/-- C31: no edge wrap in generation.  On every board (of 64 squares) and for every colour
`AllMoves` returns, and every move of the list has its source and target file in `a..h`
and rank in `1..8`, so that `SrcSqNum` and `TrgSqNum` are in `0..63`, and a displacement
of its piece type: an L-step for a knight, a positive multiple `k ≤ 7` of a direction for
a rook, bishop or queen, one or two forward steps or one forward-diagonal step for a pawn,
an adjacent step or the two-file castling step for a king.  In particular a knight on the
a-file never gets a target on the g- or h-file. -/
theorem C31_no_edge_wrap (b : Board) (c : Color) (hlen : b.Pieces.length = 64) :
    ∃ l, b.AllMoves c = Res.ok l ∧
      ∀ mv ∈ l, onBoard mv.SrcFile mv.SrcRank ∧ onBoard mv.TrgFile mv.TrgRank ∧
        (0 ≤ mv.SrcSqNum ∧ mv.SrcSqNum < 64) ∧ (0 ≤ mv.TrgSqNum ∧ mv.TrgSqNum < 64) ∧
        legalDisplacement c mv ∧
        (mv.Piece = KNIGHT → mv.SrcFile = 97 → mv.TrgFile ≠ 103 ∧ mv.TrgFile ≠ 104) := by
  obtain ⟨l, hl, hp⟩ := AllMoves_spec b c hlen
  refine ⟨l, hl, fun mv hm => ?_⟩
  obtain ⟨a1, a2, a3⟩ := hp mv hm
  obtain ⟨q1, q2, q3, q4, _⟩ := SqNum_bounds mv ⟨a1.1, a1.2.1⟩ ⟨a1.2.2.1, a1.2.2.2⟩
    ⟨a2.1, a2.2.1⟩ ⟨a2.2.2.1, a2.2.2.2⟩
  refine ⟨a1, a2, ⟨q1, q2⟩, ⟨q3, q4⟩, a3, fun hk hf => ?_⟩
  unfold legalDisplacement at a3
  simp only [hk, if_true, Move.MoveDelta, List.mem_cons, List.mem_singleton, Prod.mk.injEq,
    List.not_mem_nil, or_false] at a3
  omega

set_option maxRecDepth 100000 in
/-- C31, instance: with white knights on a1 and a4, `AllMoves(WHITE)` returns a list whose
moves all lie on the board; its knight moves go to b3, c2, b6, b2, c5 and c3 only. -/
theorem C31_witness :
    (∃ l, knightEdgeBoard.AllMoves WHITE = Res.ok l ∧
      ∀ mv ∈ l, onBoard mv.SrcFile mv.SrcRank ∧ onBoard mv.TrgFile mv.TrgRank ∧
        (0 ≤ mv.SrcSqNum ∧ mv.SrcSqNum < 64) ∧ (0 ≤ mv.TrgSqNum ∧ mv.TrgSqNum < 64) ∧
        legalDisplacement WHITE mv ∧
        (mv.Piece = KNIGHT → mv.SrcFile = 97 → mv.TrgFile ≠ 103 ∧ mv.TrgFile ≠ 104)) ∧
    ((movesOf knightEdgeBoard WHITE).filter (fun m => decide (m.Piece = KNIGHT))).map
        (fun m => (m.SrcFile, m.SrcRank, m.TrgFile, m.TrgRank)) =
      [(97, 52, 98, 54), (97, 52, 98, 50), (97, 52, 99, 53), (97, 52, 99, 51),
       (97, 49, 98, 51), (97, 49, 99, 50)] :=
  ⟨C31_no_edge_wrap knightEdgeBoard WHITE (by decide), by decide!⟩

/-! ## Termination of `ValidateMove` and `IsInCheck` -/

theorem setPiece_onBoard (b : Board) (sq : Int) (p : Piece) (h0 : 0 ≤ sq) (h64 : sq < 64) :
    b.setPiece sq p = Res.ok { b with Pieces := b.Pieces.set sq.toNat p } := by
  unfold Board.setPiece
  rw [if_pos ⟨h0, h64⟩]

/-- On a move between squares of the board `UpdateBoardWithMove` returns, and the board
it returns has as many squares as before. -/
theorem UpdateBoardWithMove_returns (b : Board) (mv : Move)
    (hsrc : onBoard mv.SrcFile mv.SrcRank) (htrg : onBoard mv.TrgFile mv.TrgRank) :
    ∃ b1, b.UpdateBoardWithMove mv = Res.ok b1 ∧ b1.Pieces.length = b.Pieces.length := by
  obtain ⟨h1, h2, h3, h4, _⟩ := SqNum_bounds mv ⟨hsrc.1, hsrc.2.1⟩ ⟨hsrc.2.2.1, hsrc.2.2.2⟩
    ⟨htrg.1, htrg.2.1⟩ ⟨htrg.2.2.1, htrg.2.2.2⟩
  unfold Board.UpdateBoardWithMove
  simp only [Res.bind_eq, Res.pure_eq, pieceAt_onBoard _ _ h1 h2, pieceAt_onBoard _ _ h3 h4,
    setPiece_onBoard _ _ _ h1 h2, setPiece_onBoard _ _ _ h3 h4, Res.ok_bind]
  by_cases hcap : b.Pieces.getD mv.TrgSqNum.toNat EMPTYP ≠ EMPTYP
  · simp only [if_pos hcap]
    split_ifs <;>
      (try simp only [Res.ok_bind, setPiece_onBoard _ 63 _ (by decide) (by decide),
        setPiece_onBoard _ 61 _ (by decide) (by decide),
        setPiece_onBoard _ 56 _ (by decide) (by decide),
        setPiece_onBoard _ 59 _ (by decide) (by decide),
        setPiece_onBoard _ 7 _ (by decide) (by decide),
        setPiece_onBoard _ 5 _ (by decide) (by decide),
        setPiece_onBoard _ 0 _ (by decide) (by decide),
        setPiece_onBoard _ 3 _ (by decide) (by decide),
        pieceAt_onBoard _ _ h3 h4, setPiece_onBoard _ _ _ h3 h4]) <;>
      exact ⟨_, rfl, by simp only [List.length_set]⟩
  · simp only [if_neg hcap]
    split_ifs <;>
      (try simp only [Res.ok_bind, setPiece_onBoard _ 63 _ (by decide) (by decide),
        setPiece_onBoard _ 61 _ (by decide) (by decide),
        setPiece_onBoard _ 56 _ (by decide) (by decide),
        setPiece_onBoard _ 59 _ (by decide) (by decide),
        setPiece_onBoard _ 7 _ (by decide) (by decide),
        setPiece_onBoard _ 5 _ (by decide) (by decide),
        setPiece_onBoard _ 0 _ (by decide) (by decide),
        setPiece_onBoard _ 3 _ (by decide) (by decide),
        pieceAt_onBoard _ _ h3 h4, setPiece_onBoard _ _ _ h3 h4]) <;>
      exact ⟨_, rfl, by simp only [List.length_set]⟩

/-- On a move between squares of the board the rule checks of `ValidateMove` return. -/
theorem validateRules_returns (b : Board) (mv : Move) (c : Color)
    (hsrc : onBoard mv.SrcFile mv.SrcRank) (htrg : onBoard mv.TrgFile mv.TrgRank) :
    ∃ r, validateRules b mv c = Res.ok r := by
  have hsf := (⟨hsrc.1, hsrc.2.1⟩ : 97 ≤ mv.SrcFile ∧ mv.SrcFile ≤ 104)
  have hsr := (⟨hsrc.2.2.1, hsrc.2.2.2⟩ : 49 ≤ mv.SrcRank ∧ mv.SrcRank ≤ 56)
  have htf := (⟨htrg.1, htrg.2.1⟩ : 97 ≤ mv.TrgFile ∧ mv.TrgFile ≤ 104)
  have htr := (⟨htrg.2.2.1, htrg.2.2.2⟩ : 49 ≤ mv.TrgRank ∧ mv.TrgRank ≤ 56)
  by_cases hs : mv.IsShortCastle = true ∧ ¬ b.CanCastleShort c = true
  · obtain ⟨msg, h⟩ := validateRules_castle_rejected b mv c (Or.inl hs)
    exact ⟨_, h⟩
  · by_cases hl : mv.IsLongCastle = true ∧ ¬ b.CanCastleLong c = true
    · obtain ⟨msg, h⟩ := validateRules_castle_rejected b mv c (Or.inr hl)
      exact ⟨_, h⟩
    · rw [validateRules_onBoard b mv c hsf hsr htf htr hs hl]
      by_cases hc : (b.Pieces.getD mv.SrcSqNum.toNat EMPTYP).Color =
          (b.Pieces.getD mv.TrgSqNum.toNat EMPTYP).Color
      · rw [if_pos hc]; exact ⟨_, rfl⟩
      · rw [if_neg hc]
        have hne : mv.SrcFile ≠ mv.TrgFile ∨ mv.SrcRank ≠ mv.TrgRank := by
          by_contra hcon
          push_neg at hcon
          have e := (SqNum_bounds mv hsf hsr htf htr).2.2.2.2.mpr hcon
          rw [e] at hc
          exact hc rfl
        obtain ⟨blk, hblk⟩ := pieceBlockingPath_returns b mv hsf hsr hne
        rw [hblk]
        simp only [Res.ok_bind]
        repeat' split
        all_goals first | exact ⟨_, rfl⟩ | (simp only [Res.ok_bind]; repeat' split)
        all_goals exact ⟨_, rfl⟩

/-- A move that stays on its square is rejected before the path is walked: source and
target hold the same piece, of one colour. -/
theorem validateRules_same_square (b : Board) (mv : Move) (c : Color)
    (hsrc : onBoard mv.SrcFile mv.SrcRank) (htrg : onBoard mv.TrgFile mv.TrgRank)
    (h : mv.MoveDelta = (0, 0)) :
    validateRules b mv c =
      Res.ok (false, SqNumToStr mv.TrgSqNum ++ bytes " is occupied by your own piece") := by
  have hsf := (⟨hsrc.1, hsrc.2.1⟩ : 97 ≤ mv.SrcFile ∧ mv.SrcFile ≤ 104)
  have hsr := (⟨hsrc.2.2.1, hsrc.2.2.2⟩ : 49 ≤ mv.SrcRank ∧ mv.SrcRank ≤ 56)
  have htf := (⟨htrg.1, htrg.2.1⟩ : 97 ≤ mv.TrgFile ∧ mv.TrgFile ≤ 104)
  have htr := (⟨htrg.2.2.1, htrg.2.2.2⟩ : 49 ≤ mv.TrgRank ∧ mv.TrgRank ≤ 56)
  simp only [Move.MoveDelta, Prod.mk.injEq] at h
  have e : mv.SrcSqNum = mv.TrgSqNum :=
    (SqNum_bounds mv hsf hsr htf htr).2.2.2.2.mpr ⟨by omega, by omega⟩
  have hs : ¬ (mv.IsShortCastle = true ∧ ¬ b.CanCastleShort c = true) := by
    intro hcon
    have := hcon.1
    simp only [Move.IsShortCastle, Bool.and_eq_true, Bool.or_eq_true, decide_eq_true_eq] at this
    omega
  have hl : ¬ (mv.IsLongCastle = true ∧ ¬ b.CanCastleLong c = true) := by
    intro hcon
    have := hcon.1
    simp only [Move.IsLongCastle, Bool.and_eq_true, Bool.or_eq_true, decide_eq_true_eq] at this
    omega
  rw [validateRules_onBoard b mv c hsf hsr htf htr hs hl, e, if_pos rfl]

/-- The walk of `FirstPieceInDirection` with the zero vector does not end when it starts on
an empty square of the board (or on square 0). -/
theorem firstPieceLoop_zero (b : Board) (sq : Int) (h0 : 0 ≤ sq) (h64 : sq < 64)
    (he : sq = 0 ∨ (b.Pieces.getD sq.toNat EMPTYP).Typ = NONE) :
    ∀ n, firstPieceLoop b 0 n sq = Res.nofuel := by
  intro n
  induction n with
  | zero => rfl
  | succ n ih =>
    unfold firstPieceLoop
    have c1 : ¬ (sq + 0 > 0 ∧ sq + 0 < 64 ∧ (b.Pieces.getD (sq + 0).toNat EMPTYP).Typ ≠ NONE) := by
      rw [add_zero]
      rcases he with e | e
      · omega
      · exact fun hc => hc.2.2 e
    have c2 : ¬ (sq + 0 < 0 ∨ sq + 0 ≥ 64) := by omega
    simp only [if_pos h64, if_neg c1, if_neg c2]
    rw [add_zero]
    exact ih

theorem pieceBlockingPath_nonzero (b : Board) (mv : Move)
    (hsrc : onBoard mv.SrcFile mv.SrcRank) (h : mv.MoveDelta ≠ (0, 0)) :
    ∃ r, b.pieceBlockingPath mv = Res.ok r := by
  apply pieceBlockingPath_returns b mv ⟨hsrc.1, hsrc.2.1⟩ ⟨hsrc.2.2.1, hsrc.2.2.2⟩
  by_contra hcon
  push_neg at hcon
  apply h
  simp only [Move.MoveDelta, Prod.mk.injEq]
  omega

theorem findKingLoop_found (c : Color) (l : List Piece) :
    ∀ (n : Nat), (∃ p ∈ l, p.Typ = KING ∧ p.Color = c) →
      findKingLoop c (List.enumFrom n l) ≠ -1 := by
  induction l with
  | nil => intro n h; obtain ⟨p, hp, _⟩ := h; cases hp
  | cons q qs ih =>
    intro n h
    simp only [List.enumFrom_cons, findKingLoop]
    by_cases hq : q.Typ = KING ∧ q.Color = c
    · rw [if_pos hq]; omega
    · rw [if_neg hq]
      obtain ⟨p, hp, hk⟩ := h
      rcases List.mem_cons.mp hp with e | e
      · subst e; exact absurd hk hq
      · exact ih (n + 1) ⟨p, e, hk⟩

theorem FindKing_returns (b : Board) (c : Color)
    (hking : ∃ p ∈ b.Pieces, p.Typ = KING ∧ p.Color = c) : ∃ k, b.FindKing c = Res.ok k := by
  unfold Board.FindKing
  have h := findKingLoop_found c b.Pieces 0 hking
  simp only [List.enum]
  rw [if_neg h]
  exact ⟨_, rfl⟩

theorem FindKing_not_nofuel (b : Board) (c : Color) : b.FindKing c ≠ Res.nofuel := by
  unfold Board.FindKing
  by_cases h : findKingLoop c b.Pieces.enum = -1
  · simp only [if_pos h]; exact fun h => Res.noConfusion h
  · simp only [if_neg h]; exact fun h => Res.noConfusion h

theorem ValidateMoveWith_on_king (ic : Board → Color → Res Bool) (b : Board) (mv : Move)
    (e : Color) (hsrc : onBoard mv.SrcFile mv.SrcRank) (htrg : onBoard mv.TrgFile mv.TrgRank)
    (hking : ∀ p, b.pieceAt mv.TrgSqNum = Res.ok p → p.Typ = KING) :
    ∃ r, ValidateMoveWith ic b mv e = Res.ok r := by
  obtain ⟨r, hr⟩ := validateRules_returns b mv e hsrc htrg
  obtain ⟨_, _, h3, h4, _⟩ := SqNum_bounds mv ⟨hsrc.1, hsrc.2.1⟩ ⟨hsrc.2.2.1, hsrc.2.2.2⟩
    ⟨htrg.1, htrg.2.1⟩ ⟨htrg.2.2.1, htrg.2.2.2⟩
  have hk := hking _ (pieceAt_onBoard b _ h3 h4)
  unfold ValidateMoveWith
  rw [hr, Res.ok_bind]
  unfold validateKingSafety
  by_cases hr1 : r.1 = true
  · simp only [hr1, if_true, Res.bind_eq, Res.pure_eq, pieceAt_onBoard b _ h3 h4, Res.ok_bind]
    rw [if_neg (fun hn => hn hk)]
    exact ⟨_, rfl⟩
  · rw [if_neg hr1]
    exact ⟨_, rfl⟩

theorem anyAttack_returns (v : Board → Move → Color → Res (Bool × Str)) (b : Board)
    (e : Color) (k : Int) (l : List Move)
    (h : ∀ mv ∈ l, mv.TrgSqNum = k → ∃ r, v b mv e = Res.ok r) :
    ∃ r, anyAttack v b e k l = Res.ok r := by
  induction l with
  | nil => exact ⟨false, rfl⟩
  | cons mv rest ih =>
    have ih1 := ih (fun m hm => h m (List.mem_cons_of_mem _ hm))
    unfold anyAttack
    by_cases hk : mv.TrgSqNum = k
    · obtain ⟨r, hr⟩ := h mv (List.mem_cons_self _ _) hk
      simp only [if_pos hk, Res.bind_eq, Res.pure_eq, hr, Res.ok_bind]
      by_cases hr1 : r.1 = true
      · rw [if_pos hr1]; exact ⟨true, rfl⟩
      · rw [if_neg hr1]; exact ih1
    · rw [if_neg hk]; exact ih1

/-- With the king found, `IsInCheck` returns whatever validator budget it is given. -/
theorem IsInCheck_of_FindKing (fuel : Nat) (b : Board) (c : Color) (k : Int)
    (hlen : b.Pieces.length = 64) (hfk : b.FindKing c = Res.ok k) :
    ∃ r, b.IsInCheck fuel c = Res.ok r := by
  obtain ⟨l, hl, hp⟩ := AllMoves_spec b c.Opposite hlen
  unfold Board.IsInCheck IsInCheckWith
  simp only [Res.bind_eq, hl, hfk, Res.ok_bind]
  apply anyAttack_returns
  intro mv hm hk
  obtain ⟨a1, a2, _⟩ := hp mv hm
  have hking : ∀ p, b.pieceAt mv.TrgSqNum = Res.ok p → p.Typ = KING := by
    intro p hpp
    rw [hk] at hpp
    exact FindKing_holds_king hfk hpp
  cases fuel <;> exact ValidateMoveWith_on_king _ b mv _ a1 a2 hking

/-- On a move between squares of the board `ValidateMove` ends with one level of
recursion budget: it returns, or it stops in the panic of `FindKing` because the board
left by the simulated move holds no king of the mover's colour. -/
theorem ValidateMove_outcome (fuel : Nat) (b : Board) (mv : Move) (c : Color)
    (hlen : b.Pieces.length = 64)
    (hsrc : onBoard mv.SrcFile mv.SrcRank) (htrg : onBoard mv.TrgFile mv.TrgRank) :
    (∃ r, b.ValidateMove (fuel + 1) mv c = Res.ok r) ∨
    (b.ValidateMove (fuel + 1) mv c = Res.panic ∧
      ∃ b1, b.UpdateBoardWithMove mv = Res.ok b1 ∧ b1.FindKing c = Res.panic) := by
  obtain ⟨r, hr⟩ := validateRules_returns b mv c hsrc htrg
  obtain ⟨_, _, h3, h4, _⟩ := SqNum_bounds mv ⟨hsrc.1, hsrc.2.1⟩ ⟨hsrc.2.2.1, hsrc.2.2.2⟩
    ⟨htrg.1, htrg.2.1⟩ ⟨htrg.2.2.1, htrg.2.2.2⟩
  obtain ⟨b1, hb1, hlen1⟩ := UpdateBoardWithMove_returns b mv hsrc htrg
  show (∃ r, ValidateMoveWith (IsInCheckWith (Board.ValidateMove fuel)) b mv c = Res.ok r) ∨
    (ValidateMoveWith (IsInCheckWith (Board.ValidateMove fuel)) b mv c = Res.panic ∧
      ∃ b1, b.UpdateBoardWithMove mv = Res.ok b1 ∧ b1.FindKing c = Res.panic)
  unfold ValidateMoveWith
  rw [hr, Res.ok_bind]
  unfold validateKingSafety
  by_cases hr1 : r.1 = true
  · simp only [hr1, if_true, Res.bind_eq, Res.pure_eq, pieceAt_onBoard b _ h3 h4, Res.ok_bind]
    by_cases hk : (b.Pieces.getD mv.TrgSqNum.toNat EMPTYP).Typ ≠ KING
    · simp only [if_pos hk, hb1, Res.ok_bind]
      cases hfk : b1.FindKing c with
      | ok k =>
        obtain ⟨chk, hchk⟩ := IsInCheck_of_FindKing fuel b1 c k (by rw [hlen1, hlen]) hfk
        have hchk2 : IsInCheckWith (Board.ValidateMove fuel) b1 c = Res.ok chk := hchk
        left
        rw [hchk2, Res.ok_bind]
        split <;> exact ⟨_, rfl⟩
      | panic =>
        right
        obtain ⟨l, hl, _⟩ := AllMoves_spec b1 c.Opposite (by rw [hlen1, hlen])
        refine ⟨?_, b1, rfl, hfk⟩
        unfold IsInCheckWith
        simp only [Res.bind_eq, hl, hfk, Res.ok_bind, Res.panic_bind]
      | nofuel => exact absurd hfk (FindKing_not_nofuel b1 c)
    · left
      rw [if_neg hk]
      exact ⟨_, rfl⟩
  · left
    rw [if_neg hr1]
    exact ⟨_, rfl⟩

/-- C32: bounded mutual recursion.  On a board of 64 squares holding a king of colour `c`
and for a move between squares of the board: `IsInCheck(c)` returns, with any recursion
budget and already with none; `ValidateMove` ends with one level of budget (it returns, or
stops in the king-missing panic of `FindKing` on the board left by the simulated move), and
more budget changes nothing; `IsInCheck` depends on the validator only through moves whose
target is the king's square, and for those `ValidateMove` does not depend on the check
detection (its simulation is skipped), so the chain never goes a second level deep; a move
with zero displacement is rejected as landing on an own piece before the path is walked, and
with a non-zero displacement the walk of `FirstPieceInDirection` returns, whereas entered
with the zero vector on an empty square it would not end. -/
theorem C32_bounded_recursion (fuel : Nat) (b : Board) (mv : Move) (c : Color)
    (hlen : b.Pieces.length = 64)
    (hking : ∃ p ∈ b.Pieces, p.Typ = KING ∧ p.Color = c)
    (hsrc : onBoard mv.SrcFile mv.SrcRank) (htrg : onBoard mv.TrgFile mv.TrgRank) :
    (∃ r, b.IsInCheck fuel c = Res.ok r) ∧
    ((∃ r, b.ValidateMove (fuel + 1) mv c = Res.ok r) ∨
      (b.ValidateMove (fuel + 1) mv c = Res.panic ∧
        ∃ b1, b.UpdateBoardWithMove mv = Res.ok b1 ∧ b1.FindKing c = Res.panic)) ∧
    b.IsInCheck fuel c = b.IsInCheck 0 c ∧
    b.ValidateMove (fuel + 1) mv c = b.ValidateMove 1 mv c ∧
    (∀ (k : Int) (v1 v2 : Board → Move → Color → Res (Bool × Str)), b.FindKing c = Res.ok k →
      (∀ m : Move, m.TrgSqNum = k → v1 b m c.Opposite = v2 b m c.Opposite) →
      IsInCheckWith v1 b c = IsInCheckWith v2 b c) ∧
    (∀ (k : Int) (m : Move) (ic1 ic2 : Board → Color → Res Bool), b.FindKing c = Res.ok k →
      m.TrgSqNum = k →
      ValidateMoveWith ic1 b m c.Opposite = ValidateMoveWith ic2 b m c.Opposite) ∧
    (mv.MoveDelta = (0, 0) → validateRules b mv c =
      Res.ok (false, SqNumToStr mv.TrgSqNum ++ bytes " is occupied by your own piece")) ∧
    (mv.MoveDelta ≠ (0, 0) → ∃ r, b.pieceBlockingPath mv = Res.ok r) ∧
    (∀ sq : Int, 0 ≤ sq → sq < 64 → (sq = 0 ∨ ¬ b.occupied sq) →
      b.FirstPieceInDirection sq (0, 0) = Res.nofuel) := by
  obtain ⟨k0, hk0⟩ := FindKing_returns b c hking
  refine ⟨IsInCheck_of_FindKing fuel b c k0 hlen hk0,
    ValidateMove_outcome fuel b mv c hlen hsrc htrg, IsInCheck_fuel fuel 0 b c,
    ValidateMove_fuel fuel 0 b mv c, ?_, ?_, validateRules_same_square b mv c hsrc htrg,
    pieceBlockingPath_nonzero b mv hsrc, ?_⟩
  · intro k v1 v2 hfk hv
    unfold IsInCheckWith
    simp only [Res.bind_eq, hfk, Res.ok_bind]
    cases hm : b.AllMoves c.Opposite with
    | ok moves =>
      simp only [Res.ok_bind]
      exact anyAttack_congr v1 v2 b _ k moves (fun m _ hmk => hv m hmk)
    | panic => rfl
    | nofuel => rfl
  · intro k m ic1 ic2 hfk hmk
    apply ValidateMoveWith_king
    intro p hp
    rw [hmk] at hp
    exact FindKing_holds_king hfk hp
  · intro sq h0 h64 he
    have e : b.FirstPieceInDirection sq (0, 0) = firstPieceLoop b 0 64 sq := by
      unfold Board.FirstPieceInDirection
      simp only [zero_mul, sub_zero]
    rw [e]
    apply firstPieceLoop_zero b sq h0 h64
    rcases he with h | h
    · exact Or.inl h
    · right
      unfold Board.occupied at h
      exact not_not.mp h

set_option maxRecDepth 100000 in
/-- C32, instance: on the start position `IsInCheck(WHITE)` returns false without any
recursion budget, and `ValidateMove` returns for the pawn move e2-e4 with one level. -/
theorem C32_witness :
    Board.CreateDefault.IsInCheck 0 WHITE = Res.ok false ∧
    Board.CreateDefault.ValidateMove 1 pawnE2E4 WHITE = Res.ok (true, []) ∧
    (∃ r, Board.CreateDefault.IsInCheck 0 WHITE = Res.ok r) ∧
    ((∃ r, Board.CreateDefault.ValidateMove (0 + 1) pawnE2E4 WHITE = Res.ok r) ∨
      (Board.CreateDefault.ValidateMove (0 + 1) pawnE2E4 WHITE = Res.panic ∧
        ∃ b1, Board.CreateDefault.UpdateBoardWithMove pawnE2E4 = Res.ok b1 ∧
          b1.FindKing WHITE = Res.panic)) :=
  ⟨by decide!, by decide!,
   (C32_bounded_recursion 0 Board.CreateDefault pawnE2E4 WHITE (by decide)
      ⟨KING_W, by decide, by decide, by decide⟩ (by decide) (by decide)).1,
   (C32_bounded_recursion 0 Board.CreateDefault pawnE2E4 WHITE (by decide)
      ⟨KING_W, by decide, by decide, by decide⟩ (by decide) (by decide)).2.1⟩

/-! ## Castling candidates in check detection and validation -/

theorem map_decide_some {α : Type} {o : Option α} {p : α → Prop} [DecidablePred p]
    (h : o.map (fun a => decide (p a)) = some true) : ∃ a, o = some a ∧ p a := by
  cases o with
  | none => cases h
  | some a => exact ⟨a, rfl, by simpa using h⟩

set_option maxRecDepth 100000 in
/-- C33, as stated, fails on positions with one king of each colour.  In
`8/8/8/8/8/8/8/RNk1K3 b Q - 0 40` no white piece attacks the black king on c1 (the rook on
a1 is shut off by the knight on b1, the white king on e1 is two files away), yet
`IsInCheck(BLACK)` is true, because the castling candidate e1-c1 of the white king is
accepted by `ValidateMove`; with the castling right cleared the same position gives false.
The same happens in play from the start position: after 1. Nf3 h5 2. Ng5 Nc6 3. Nxf7 Nb8
4. Nxh8 Nc6 5. f3 Nb8 6. Kf2 Nc6 7. Kg3 Nb8 8. Kh4 Nc6 9. Kxh5 Nb8 10. Kg6 e6 11. Kh7 Nc6
12. Kxg8 Be7 (every move generated by `AllMoves` and accepted by `ValidateMove`) no black
piece attacks the white king on g8, and `IsInCheck(WHITE)` is true through the castling
candidate e8-g8. -/
theorem C33_castling_candidate_counts_as_attack :
    ((loaded castleCheckFen).Board.Pieces.count KING_W = 1 ∧
      (loaded castleCheckFen).Board.Pieces.count KING_B = 1 ∧
      ((loaded castleCheckFen).Board.Pieces.filter (fun p => decide (p.Typ = KING))).length = 2 ∧
      (loaded castleCheckFen).Board.FindKing BLACK = Res.ok 58 ∧
      attacked (loaded castleCheckFen).Board BLACK 58 = false ∧
      kingE1C1 ∈ movesOf (loaded castleCheckFen).Board WHITE ∧
      (loaded castleCheckFen).Board.ValidateMove 1 kingE1C1 WHITE = Res.ok (true, []) ∧
      (loaded castleCheckFen).Board.IsInCheck 1 BLACK = Res.ok true ∧
      ({ (loaded castleCheckFen).Board with CastleRights := 0 } : Board).IsInCheck 1 BLACK =
        Res.ok false ∧
      attacked Board.CreateDefault WHITE 60 = false ∧
      attacked kingCaptureBoard WHITE 60 = true) ∧
    (∃ b, playBoard 1 Board.CreateDefault WHITE kingWalk = some b ∧
      toFenLoop b.Pieces.enum 0 = bytes "r1bqk1KN/ppppb1p1/2n1p3/8/8/5P2/PPPPP1PP/RNBQ1B1R" ∧
      b.Pieces.count KING_W = 1 ∧ b.Pieces.count KING_B = 1 ∧
      (b.Pieces.filter (fun p => decide (p.Typ = KING))).length = 2 ∧
      b.FindKing WHITE = Res.ok 6 ∧ attacked b WHITE 6 = false ∧
      kingE8G8 ∈ movesOf b BLACK ∧ b.ValidateMove 1 kingE8G8 BLACK = Res.ok (true, []) ∧
      b.IsInCheck 1 WHITE = Res.ok true) :=
  ⟨by decide!,
   map_decide_some (p := fun b =>
      toFenLoop b.Pieces.enum 0 = bytes "r1bqk1KN/ppppb1p1/2n1p3/8/8/5P2/PPPPP1PP/RNBQ1B1R" ∧
      b.Pieces.count KING_W = 1 ∧ b.Pieces.count KING_B = 1 ∧
      (b.Pieces.filter (fun p => decide (p.Typ = KING))).length = 2 ∧
      b.FindKing WHITE = Res.ok 6 ∧ attacked b WHITE 6 = false ∧
      kingE8G8 ∈ movesOf b BLACK ∧ b.ValidateMove 1 kingE8G8 BLACK = Res.ok (true, []) ∧
      b.IsInCheck 1 WHITE = Res.ok true) (by decide!)⟩

set_option maxRecDepth 100000 in
/-- C34, as stated, fails on positions reached by play from the start position.  After
1. d4 d5 2. Bf4 Bf5 3. Qd3 Qd6 `ValidateMove` accepts the castling move e1-c1 although the
white knight still stands on b1, between king and rook.  After 1. Nf3 Nf6 2. g3 Ng4
3. Bg2 Nxf2 4. a3 Nxh1 5. a4 Nxg3 the right to castle short is still set although the
rook of h1 has been taken: `ValidateMove` accepts e1-g1 with h1 empty, and applying the
move puts a white rook on f1, one piece more than before. -/
theorem C34_castling_accepted_without_its_conditions :
    (∃ b, playBoard 1 Board.CreateDefault WHITE queenSideOpening = some b ∧
      b.Pieces.getD 57 EMPTYP = KNGT_W ∧ kingE1C1 ∈ movesOf b WHITE ∧
      b.ValidateMove 1 kingE1C1 WHITE = Res.ok (true, [])) ∧
    (∃ b, playBoard 1 Board.CreateDefault WHITE rookLossOpening = some b ∧
      b.Pieces.getD 63 EMPTYP = EMPTYP ∧ b.Pieces.count ROOK_W = 1 ∧
      b.CanCastleShort WHITE = true ∧ kingE1G1 ∈ movesOf b WHITE ∧
      b.ValidateMove 1 kingE1G1 WHITE = Res.ok (true, []) ∧
      ∃ b1, b.UpdateBoardWithMove kingE1G1 = Res.ok b1 ∧
        b1.Pieces.getD 61 EMPTYP = ROOK_W ∧ b1.Pieces.count ROOK_W = 2 ∧
        b1.material.length = b.material.length + 1) := by
  refine ⟨map_decide_some (p := fun b => b.Pieces.getD 57 EMPTYP = KNGT_W ∧
      kingE1C1 ∈ movesOf b WHITE ∧ b.ValidateMove 1 kingE1C1 WHITE = Res.ok (true, []))
      (by decide!), ?_⟩
  obtain ⟨b, h1, h2, h3, h4, h5, h6, h7⟩ := map_decide_some (p := fun b =>
    b.Pieces.getD 63 EMPTYP = EMPTYP ∧ b.Pieces.count ROOK_W = 1 ∧
    b.CanCastleShort WHITE = true ∧ kingE1G1 ∈ movesOf b WHITE ∧
    b.ValidateMove 1 kingE1G1 WHITE = Res.ok (true, []) ∧
    (b.UpdateBoardWithMove kingE1G1).sat (fun b1 => decide (b1.Pieces.getD 61 EMPTYP = ROOK_W ∧
      b1.Pieces.count ROOK_W = 2 ∧ b1.material.length = b.material.length + 1)) = true)
    (o := playBoard 1 Board.CreateDefault WHITE rookLossOpening) (by decide!)
  obtain ⟨b1, hb1, hp⟩ := Res.sat_iff.mp h7
  exact ⟨b, h1, h2, h3, h4, h5, h6, b1, hb1, by simpa using hp⟩

/-! ## Castling rights after a move -/

theorem land_testBit (x y i : Nat) : (Nat.land x y).testBit i = (x.testBit i && y.testBit i) :=
  Nat.testBit_land x y i

theorem testBit_high (x i : Nat) (hx : x < 256) (hi : 8 ≤ i) : x.testBit i = false := by
  apply Nat.testBit_lt_two_pow
  calc x < 256 := hx
    _ = 2 ^ 8 := by norm_num
    _ ≤ 2 ^ i := Nat.pow_le_pow_right (by norm_num) hi

/-- Clearing the bits of `m` in a byte: `x & ^m` keeps every bit of `x` outside `m`. -/
theorem clear_mask (x m i : Nat) (hx : x < 256) :
    (Nat.land x (Nat.xor 255 m)).testBit i = (x.testBit i && !m.testBit i) := by
  rw [land_testBit]
  by_cases hi : 8 ≤ i
  · rw [testBit_high x i hx hi]; rfl
  · have h255 : Nat.testBit 255 i = true := by
      have : i < 8 := by omega
      interval_cases i <;> rfl
    have : (Nat.xor 255 m).testBit i = (Nat.testBit 255 i ^^ m.testBit i) := Nat.testBit_xor 255 m i
    rw [this, h255]
    cases m.testBit i <;> rfl

theorem testBit_three (i : Nat) : Nat.testBit 3 i = decide (i = 0 ∨ i = 1) := by
  rcases Nat.lt_or_ge i 2 with h | h
  · interval_cases i <;> rfl
  · rw [Nat.testBit_lt_two_pow (lt_of_lt_of_le (by norm_num : 3 < 2 ^ 2)
      (Nat.pow_le_pow_right (by norm_num) h))]
    exact (decide_eq_false (by omega)).symm

theorem testBit_twelve (i : Nat) : Nat.testBit 12 i = decide (i = 2 ∨ i = 3) := by
  rcases Nat.lt_or_ge i 4 with h | h
  · interval_cases i <;> rfl
  · rw [Nat.testBit_lt_two_pow (lt_of_lt_of_le (by norm_num : 12 < 2 ^ 4)
      (Nat.pow_le_pow_right (by norm_num) h))]
    exact (decide_eq_false (by omega)).symm

theorem testBit_pow (k i : Nat) : Nat.testBit (2 ^ k) i = decide (i = k) := by
  rw [Nat.testBit_two_pow]
  by_cases h : k = i
  · subst h; simp
  · have h2 : ¬ i = k := fun e => h e.symm
    simp [h, h2]

/-- The rights left by `UpdateCastleRightsWithMove`, bit by bit: the bits cleared are those
of the mask selected by the piece, the colour and the source square. -/
theorem UpdateCastleRights_bits (b : Board) (mv : Move) (c : Color) (hr : b.CastleRights < 256)
    (i : Nat) :
    (b.UpdateCastleRightsWithMove mv c).CastleRights.testBit i =
      (b.CastleRights.testBit i &&
        !(if mv.Piece = KING ∧ c = WHITE then decide (i = 0 ∨ i = 1)
          else if mv.Piece = KING ∧ c = BLACK then decide (i = 2 ∨ i = 3)
          else if mv.Piece = ROOK ∧ c = WHITE then
            (if mv.SrcSqNum = 63 then decide (i = 0) else if mv.SrcSqNum = 56 then decide (i = 1)
             else false)
          else if mv.Piece = ROOK ∧ c = BLACK then
            (if mv.SrcSqNum = 7 then decide (i = 2) else if mv.SrcSqNum = 0 then decide (i = 3)
             else false)
          else false)) := by
  unfold Board.UpdateCastleRightsWithMove
  have e3 : Nat.lor CASTLE_WHITE_SHORT CASTLE_WHITE_LONG = 3 := rfl
  have e12 : Nat.lor CASTLE_BLACK_SHORT CASTLE_BLACK_LONG = 12 := rfl
  have e1 : CASTLE_WHITE_SHORT = 2 ^ 0 := rfl
  have e2 : CASTLE_WHITE_LONG = 2 ^ 1 := rfl
  have e4 : CASTLE_BLACK_SHORT = 2 ^ 2 := rfl
  have e8 : CASTLE_BLACK_LONG = 2 ^ 3 := rfl
  split_ifs <;>
    first
    | (rw [e3, clear_mask _ _ _ hr, testBit_three])
    | (rw [e12, clear_mask _ _ _ hr, testBit_twelve])
    | (rw [e1, clear_mask _ _ _ hr, testBit_pow])
    | (rw [e2, clear_mask _ _ _ hr, testBit_pow])
    | (rw [e4, clear_mask _ _ _ hr, testBit_pow])
    | (rw [e8, clear_mask _ _ _ hr, testBit_pow])
    | (simp only [Bool.not_false, Bool.and_true])

/-- C35: castling rights only ever shrink.  For every board (whose rights are a byte), move
and colour `c`, `UpdateCastleRightsWithMove` changes nothing but `CastleRights`, never
sets a bit that was clear and never touches the two bits of the opponent of `c`; a king
move clears both bits of `c` and no other; a rook move from the h-file corner of `c`
(square 63 for White, 7 for Black) clears the short bit of `c` and no other, one from the
a-file corner (56, 0) the long bit of `c` and no other; any other move leaves the board,
and so `CastleRights`, unchanged.  Bits 0, 1, 2, 3 are White short, White long, Black
short, Black long. -/
theorem C35_castle_rights_shrink (b : Board) (mv : Move) (c : Color)
    (hr : b.CastleRights < 256) :
    (b.UpdateCastleRightsWithMove mv c).Pieces = b.Pieces ∧
    (∀ i, (b.UpdateCastleRightsWithMove mv c).CastleRights.testBit i = true →
      b.CastleRights.testBit i = true) ∧
    (c = WHITE → ∀ i, i ≠ 0 → i ≠ 1 →
      (b.UpdateCastleRightsWithMove mv c).CastleRights.testBit i = b.CastleRights.testBit i) ∧
    (c = BLACK → ∀ i, i ≠ 2 → i ≠ 3 →
      (b.UpdateCastleRightsWithMove mv c).CastleRights.testBit i = b.CastleRights.testBit i) ∧
    (mv.Piece = KING → c = WHITE → ∀ i,
      (b.UpdateCastleRightsWithMove mv c).CastleRights.testBit i =
        (b.CastleRights.testBit i && !decide (i = 0 ∨ i = 1))) ∧
    (mv.Piece = KING → c = BLACK → ∀ i,
      (b.UpdateCastleRightsWithMove mv c).CastleRights.testBit i =
        (b.CastleRights.testBit i && !decide (i = 2 ∨ i = 3))) ∧
    (mv.Piece = ROOK → c = WHITE → mv.SrcSqNum = 63 → ∀ i,
      (b.UpdateCastleRightsWithMove mv c).CastleRights.testBit i =
        (b.CastleRights.testBit i && !decide (i = 0))) ∧
    (mv.Piece = ROOK → c = WHITE → mv.SrcSqNum = 56 → ∀ i,
      (b.UpdateCastleRightsWithMove mv c).CastleRights.testBit i =
        (b.CastleRights.testBit i && !decide (i = 1))) ∧
    (mv.Piece = ROOK → c = BLACK → mv.SrcSqNum = 7 → ∀ i,
      (b.UpdateCastleRightsWithMove mv c).CastleRights.testBit i =
        (b.CastleRights.testBit i && !decide (i = 2))) ∧
    (mv.Piece = ROOK → c = BLACK → mv.SrcSqNum = 0 → ∀ i,
      (b.UpdateCastleRightsWithMove mv c).CastleRights.testBit i =
        (b.CastleRights.testBit i && !decide (i = 3))) ∧
    (¬ (mv.Piece = KING ∧ (c = WHITE ∨ c = BLACK)) →
      ¬ (mv.Piece = ROOK ∧ c = WHITE ∧ (mv.SrcSqNum = 63 ∨ mv.SrcSqNum = 56)) →
      ¬ (mv.Piece = ROOK ∧ c = BLACK ∧ (mv.SrcSqNum = 7 ∨ mv.SrcSqNum = 0)) →
      b.UpdateCastleRightsWithMove mv c = b) := by
  have hwb : (WHITE : Color) ≠ BLACK := by decide
  have hkr : (KING : PType) ≠ ROOK := by decide
  refine ⟨?_, ?_, ?_, ?_, ?_, ?_, ?_, ?_, ?_, ?_, ?_⟩
  · unfold Board.UpdateCastleRightsWithMove
    split_ifs <;> rfl
  · intro i h
    rw [UpdateCastleRights_bits b mv c hr i] at h
    exact (Bool.and_eq_true_iff.mp h).1
  · intro hc i h0 h1
    rw [UpdateCastleRights_bits b mv c hr i]
    subst hc
    simp [hwb, h0, h1]
  · intro hc i h2 h3
    rw [UpdateCastleRights_bits b mv c hr i]
    subst hc
    simp [hwb.symm, h2, h3]
  · intro hk hc i
    rw [UpdateCastleRights_bits b mv c hr i, if_pos ⟨hk, hc⟩]
  · intro hk hc i
    rw [UpdateCastleRights_bits b mv c hr i]
    subst hc
    simp [hk, hwb.symm]
  · intro hk hc hs i
    rw [UpdateCastleRights_bits b mv c hr i]
    subst hc
    simp [hk, hkr.symm, hs]
  · intro hk hc hs i
    rw [UpdateCastleRights_bits b mv c hr i]
    subst hc
    simp [hk, hkr.symm, hs]
  · intro hk hc hs i
    rw [UpdateCastleRights_bits b mv c hr i]
    subst hc
    simp [hk, hkr.symm, hwb.symm, hs]
  · intro hk hc hs i
    rw [UpdateCastleRights_bits b mv c hr i]
    subst hc
    simp [hk, hkr.symm, hwb.symm, hs]
  · intro h1 h2 h3
    unfold Board.UpdateCastleRightsWithMove
    split_ifs <;> first | rfl | (exfalso; tauto)

/-- C35, instance: on the start position the white rook move h1-h3 clears the bit of White's
short castling and leaves the rights 14 (White long, Black short, Black long). -/
theorem C35_witness :
    (Board.CreateDefault.UpdateCastleRightsWithMove (mkMove ROOK 104 49 104 51) WHITE).CastleRights
      = 14 ∧
    ∀ i, (Board.CreateDefault.UpdateCastleRightsWithMove (mkMove ROOK 104 49 104 51)
        WHITE).CastleRights.testBit i =
      (Board.CreateDefault.CastleRights.testBit i && !decide (i = 0)) :=
  ⟨by decide, (C35_castle_rights_shrink Board.CreateDefault (mkMove ROOK 104 49 104 51) WHITE
    (by decide)).2.2.2.2.2.2.1 (by decide) (by decide) (by decide)⟩

/-! ## The start position as FEN -/

set_option maxRecDepth 100000 in
/-- C36: the text written by `ToFen` for the state made by `gamestate.CreateDefault` is the
start position with the full-move count 0, not the standard start text, which ends in 1:
`CreateDefault` leaves `FullMoveCount` at its zero value. -/
theorem C36_default_fen_full_move_zero :
    CreateDefault.FullMoveCount = 0 ∧
    CreateDefault.ToFen = bytes "rnbqkbnr/pppppppp/8/8/8/8/PPPPPPPP/RNBQKBNR w KQkq - 0 0" ∧
    CreateDefault.ToFen ≠ bytes "rnbqkbnr/pppppppp/8/8/8/8/PPPPPPPP/RNBQKBNR w KQkq - 0 1" ∧
    (loaded (bytes "rnbqkbnr/pppppppp/8/8/8/8/PPPPPPPP/RNBQKBNR w KQkq - 0 1")).ToFen =
      bytes "rnbqkbnr/pppppppp/8/8/8/8/PPPPPPPP/RNBQKBNR w KQkq - 0 1" := by
  decide!

end TChess
